import Mathlib

/-!
# Maze-Solver: a shallow embedding of `main.cpp` and its verified properties

The C++ program runs an A*-style search on a 2-D occupancy grid
(`vector<vector<State>>`), keeping the frontier in a `vector<vector<int>>` of
nodes `{x, y, g, h}` that is re-sorted with `std::sort` before each extraction.

Modelling conventions

* in `search` and the functions it calls `int` is `Int` with exact arithmetic:
  every quantity a search computes is bounded by the grid dimensions, and on a
  grid with `R * C + R + C ≤ 2147483647` no `int` operation of a search
  overflows, the 32-bit functions agreeing with the exact ones at every step
  (`search_within_int`).
  The functions that do arithmetic (`heuristic`, `compare`, `cell_sort`,
  `expand_neighbors`) are given a second time in the namespace `Machine`, every
  `int` operation reduced to 32 bits by `wrap_int`; the claims about these
  functions at all their arguments are settled on the `Machine` versions.
* a grid is a list of rows; reading or writing `grid[x][y]` outside the vectors
  is undefined behaviour in C++ and is `none` here.
* `std::sort` is library code whose order among equivalent elements is not
  fixed by the language standard; it is a parameter `stdsort` of the model and
  `SortContract` is what the standard promises about it.  Two concrete sorts
  (`stable_sort_model`, `reversing_sort_model`) satisfy the contract, and
  `libstdcxx_sort` follows the routine of libstdc++ step by step.
* the `while` loop is iterated with an explicit fuel counter.
* properties of what happens during a run are stated over `search_passes`, the
  list of the loop's extracting passes (open vector and grid at the loop test,
  node extracted); it follows the same `search_iter` steps as `search`.
-/

namespace MazeSolver

/-! ## The program -/

/-- Cell states, `enum class State {empty, obstacle, closed, path, start, finish}`. -/
inductive State
  | empty
  | obstacle
  | closed
  | path
  | start
  | finish
  deriving DecidableEq, Repr

/-- A grid, `vector<vector<State>>`: a list of rows. -/
abbrev Grid := List (List State)

/-- A frontier node, the four-element `vector<int>` written `{x, y, g, h}`. -/
structure Node where
  x : Int
  y : Int
  g : Int
  h : Int
  deriving DecidableEq, Repr

/-- The directional deltas `{{-1, 0}, {0, -1}, {1, 0}, {0, 1}}`. -/
def deltas : List (Int × Int) := [(-1, 0), (0, -1), (1, 0), (0, 1)]

/-- Reading `grid[x][y]`; `none` when the access is outside the vectors. -/
def cellAt (grid : Grid) (x y : Int) : Option State :=
  if 0 ≤ x ∧ 0 ≤ y then
    match grid[x.toNat]? with
    | some row => row[y.toNat]?
    | none => none
  else none

/-- The assignment `grid[x][y] = s`; `none` when the access is outside the vectors. -/
def setCell (grid : Grid) (x y : Int) (s : State) : Option Grid :=
  if 0 ≤ x ∧ 0 ≤ y then
    match grid[x.toNat]? with
    | some row =>
      if y.toNat < row.length then some (grid.set x.toNat (row.set y.toNat s)) else none
    | none => none
  else none

/-- The comparator `compare`: true when the f-value `g + h` of the first node is
greater than that of the second. -/
def compare (node1 node2 : Node) : Bool :=
  let f1 := node1.g + node1.h
  let f2 := node2.g + node2.h
  decide (f1 > f2)

/-- The function `cell_sort`: `sort(v->begin(), v->end(), compare)`. -/
def cell_sort (stdsort : (Node → Node → Bool) → List Node → List Node)
    (v : List Node) : List Node :=
  stdsort compare v

/-- The function `heuristic`: `abs(x1 - x2) + abs(y1 - y2)`. -/
def heuristic (x1 y1 x2 y2 : Int) : Int :=
  ((x1 - x2).natAbs : Int) + ((y1 - y2).natAbs : Int)

/-- The function `add_to_open`: push `{x, y, g, h}` to the back of the open
vector, then set `grid[x][y]` to `closed`. -/
def add_to_open (x y g h : Int) (openv : List Node) (grid : Grid) :
    Option (List Node × Grid) :=
  match setCell grid x y State.closed with
  | some grid1 => some (openv ++ [⟨x, y, g, h⟩], grid1)
  | none => none

/-- The function `check_valid_cell`.  The conjunction `on_grid` short-circuits,
so `grid[0]` is read only after `x >= 0 && x < grid.size() && y >= 0`, and
`grid[x][y]` only when `on_grid` holds; the result is `none` when one of these
reads is outside the vectors. -/
def check_valid_cell (x y : Int) (grid : Grid) : Option Bool :=
  if x ≥ 0 ∧ x < (grid.length : Int) ∧ y ≥ 0 then
    match grid[0]? with
    | none => none
    | some row0 =>
      if y < (row0.length : Int) then
        match cellAt grid x y with
        | none => none
        | some s => some (decide (s = State.empty))
      else some false
  else some false

/-- One pass of the body of the `for (auto delta: deltas)` loop of
`expand_neighbors`. -/
def expand_step (x y g : Int) (goal : Int × Int) (delta : Int × Int)
    (openv : List Node) (grid : Grid) : Option (List Node × Grid) :=
  let dx := delta.1
  let dy := delta.2
  let next_x := x + dx
  let next_y := y + dy
  let next_g := g + 1
  let next_h := heuristic next_x next_y goal.1 goal.2
  match check_valid_cell next_x next_y grid with
  | none => none
  | some true => add_to_open next_x next_y next_g next_h openv grid
  | some false => some (openv, grid)

/-- The `for` loop of `expand_neighbors` over a list of deltas. -/
def expand_loop (x y g : Int) (goal : Int × Int) :
    List (Int × Int) → List Node → Grid → Option (List Node × Grid)
  | [], openv, grid => some (openv, grid)
  | delta :: rest, openv, grid =>
    match expand_step x y g goal delta openv grid with
    | none => none
    | some (openv1, grid1) => expand_loop x y g goal rest openv1 grid1

/-- The function `expand_neighbors`. -/
def expand_neighbors (curr_node : Node) (goal : Int × Int) (openv : List Node)
    (grid : Grid) : Option (List Node × Grid) :=
  expand_loop curr_node.x curr_node.y curr_node.g goal deltas openv grid

/-- What one pass through the `while` loop of `search` does. -/
inductive Step
  | next (openv : List Node) (grid : Grid)
  | ret (grid : Grid)
  | undefined
  deriving DecidableEq, Repr

/-- One pass through `while (!open.empty()) { ... }` of `search`, the loop test
included: leaving the loop returns the empty grid. -/
def search_iter (stdsort : (Node → Node → Bool) → List Node → List Node)
    (init goal : Int × Int) (openv : List Node) (grid : Grid) : Step :=
  if openv.isEmpty then Step.ret []
  else
    let sorted := cell_sort stdsort openv
    match sorted.getLast? with
    | none => Step.undefined
    | some curr =>
      let open1 := sorted.dropLast
      match setCell grid curr.x curr.y State.path with
      | none => Step.undefined
      | some grid1 =>
        if curr.x = goal.1 ∧ curr.y = goal.2 then
          match setCell grid1 init.1 init.2 State.start with
          | none => Step.undefined
          | some grid2 =>
            match setCell grid2 goal.1 goal.2 State.finish with
            | none => Step.undefined
            | some grid3 => Step.ret grid3
        else
          match expand_neighbors curr goal open1 grid1 with
          | none => Step.undefined
          | some (open2, grid2) => Step.next open2 grid2

/-- The result of running `search` with a bound on the number of loop passes. -/
inductive Outcome
  | returned (grid : Grid)
  | undefined
  | out_of_fuel
  deriving DecidableEq, Repr

/-- The `while` loop of `search`, at most `fuel` passes. -/
def search_loop (stdsort : (Node → Node → Bool) → List Node → List Node)
    (init goal : Int × Int) : Nat → List Node → Grid → Outcome
  | 0, _, _ => Outcome.out_of_fuel
  | fuel + 1, openv, grid =>
    match search_iter stdsort init goal openv grid with
    | Step.next open1 grid1 => search_loop stdsort init goal fuel open1 grid1
    | Step.ret grid1 => Outcome.returned grid1
    | Step.undefined => Outcome.undefined

/-- The function `search`. -/
def search (stdsort : (Node → Node → Bool) → List Node → List Node) (fuel : Nat)
    (grid : Grid) (init goal : Int × Int) : Outcome :=
  let x := init.1
  let y := init.2
  let g := 0
  let h := heuristic init.1 init.2 goal.1 goal.2
  match add_to_open x y g h [] grid with
  | none => Outcome.undefined
  | some (openv, grid1) => search_loop stdsort init goal fuel openv grid1

/-! ## The library sort and the vocabulary of the claims -/

/-- What the C++ standard promises of `std::sort` called with `compare`: the
result is a rearrangement of the input in which no later element compares
before an earlier one. -/
def SortContract (stdsort : (Node → Node → Bool) → List Node → List Node) : Prop :=
  ∀ v : List Node, (stdsort compare v).Perm v ∧
    (stdsort compare v).Pairwise (fun a b => compare b a = false)

/-- A sort that keeps equivalent elements in their previous order (what an
insertion sort does). -/
def stable_sort_model (comp : Node → Node → Bool) (v : List Node) : List Node :=
  v.insertionSort (fun a b => comp b a = false)

/-- A sort that reverses the previous order of equivalent elements. -/
def reversing_sort_model (comp : Node → Node → Bool) (v : List Node) : List Node :=
  v.reverse.insertionSort (fun a b => comp b a = false)

/-- Number of cells of the grid whose state satisfies `p`. -/
def countCells (p : State → Bool) (grid : Grid) : Nat :=
  (grid.map (fun row => row.countP p)).sum

/-- A cell is marked when its state is `path`, `start` or `finish`. -/
def isMarked (s : State) : Bool :=
  decide (s = State.path ∨ s = State.start ∨ s = State.finish)

/-- A grid is rectangular with `R` rows of `C` cells. -/
def Rect (grid : Grid) (R C : Nat) : Prop :=
  grid.length = R ∧ ∀ row ∈ grid, row.length = C

/-- The coordinate `(x, y)` lies in an `R` by `C` grid. -/
def InBounds (R C : Nat) (c : Int × Int) : Prop :=
  0 ≤ c.1 ∧ c.1 < (R : Int) ∧ 0 ≤ c.2 ∧ c.2 < (C : Int)

/-- A walk of `k` 4-directional unit steps from `init` to the given cell, each
cell after `init` being `empty` in `grid`. -/
inductive Walk (grid : Grid) (init : Int × Int) : Int × Int → Nat → Prop
  | base : Walk grid init init 0
  | step {c : Int × Int} {k : Nat} (d : Int × Int) :
      Walk grid init c k → d ∈ deltas →
      cellAt grid (c.1 + d.1) (c.2 + d.2) = some State.empty →
      Walk grid init (c.1 + d.1, c.2 + d.2) (k + 1)

/-! ## Auxiliary notions and the loop invariants -/

/-- The node `{next_x, next_y, next_g, next_h}` that `expand_neighbors` builds
for the neighbour of `(x, y)` at offset `d`. -/
def nodeAt (x y g : Int) (goal d : Int × Int) : Node :=
  ⟨x + d.1, y + d.2, g + 1, heuristic (x + d.1) (y + d.2) goal.1 goal.2⟩

/-- The offsets in `ds` whose neighbour of `(x, y)` passes `check_valid_cell` on `grid`. -/
def validDeltas (x y : Int) (grid : Grid) (ds : List (Int × Int)) : List (Int × Int) :=
  ds.filter (fun d => decide (check_valid_cell (x + d.1) (y + d.2) grid = some true))

/-- A cell is on the marked route when its state is `path`. -/
def isPath (s : State) : Bool :=
  decide (s = State.path)

/-- The cell `(x, y)` can be entered by the search started at `init` on the input
grid `grid0`: it is the start cell or it is `empty` in the input. -/
def Enterable (grid0 : Grid) (init : Int × Int) (x y : Int) : Prop :=
  (x = init.1 ∧ y = init.2) ∨ cellAt grid0 x y = some State.empty

/-- The loop invariant of `search`, at the test of the `while` loop: `grid0` is
the input grid, `openv` and `grid` the current open vector and grid. -/
structure Inv (grid0 : Grid) (init goal : Int × Int) (R C : Nat)
    (openv : List Node) (grid : Grid) : Prop where
  rect : Rect grid R C
  open_closed : ∀ n ∈ openv, cellAt grid n.x n.y = some State.closed
  open_nodup : (openv.map (fun n => (n.x, n.y))).Nodup
  open_walk : ∀ n ∈ openv, ∃ k : Nat, n.g = (k : Int) ∧ Walk grid0 init (n.x, n.y) k
  open_g : ∀ n ∈ openv, n.g ≤ (countCells isPath grid : Int)
  open_h : ∀ n ∈ openv, n.h = heuristic n.x n.y goal.1 goal.2
  init_state : cellAt grid init.1 init.2 = some State.path ∨
    ∃ n, openv = [n] ∧ n.x = init.1 ∧ n.y = init.2
  frame : ∀ x y, cellAt grid x y = cellAt grid0 x y ∨
    (Enterable grid0 init x y ∧
      (cellAt grid x y = some State.closed ∨ cellAt grid x y = some State.path))
  closed_open : ∀ x y, cellAt grid x y = some State.closed → Enterable grid0 init x y →
    ∃ n ∈ openv, n.x = x ∧ n.y = y
  expanded : ∀ x y, cellAt grid x y = some State.path → Enterable grid0 init x y →
    ¬ (x = goal.1 ∧ y = goal.2) ∧
    ∀ d ∈ deltas, cellAt grid0 (x + d.1) (y + d.2) = some State.empty →
      cellAt grid (x + d.1) (y + d.2) ≠ some State.empty

/-- What holds of the grid `res` that `search` returns when it reaches the goal. -/
structure Found (grid0 : Grid) (init goal : Int × Int) (R C : Nat) (res : Grid) : Prop where
  rect : Rect res R C
  goal_finish : cellAt res goal.1 goal.2 = some State.finish
  init_start : ¬ (init.1 = goal.1 ∧ init.2 = goal.2) →
    cellAt res init.1 init.2 = some State.start
  walk : ∃ k : Nat, Walk grid0 init goal k ∧ k + 1 ≤ countCells isMarked res
  frame : ∀ x y, cellAt res x y = cellAt grid0 x y ∨
    (Enterable grid0 init x y ∧
      (cellAt res x y = some State.closed ∨ cellAt res x y = some State.path ∨
        cellAt res x y = some State.start ∨ cellAt res x y = some State.finish))

/-- The least number of steps of a walk from `init` to `goal` is `d`. -/
def ShortestWalk (grid : Grid) (init goal : Int × Int) (d : Nat) : Prop :=
  Walk grid init goal d ∧ ∀ k, Walk grid init goal k → d ≤ k

/-- Every cell of the grid is `empty`. -/
def AllEmpty (grid : Grid) : Prop :=
  ∀ row ∈ grid, ∀ s ∈ row, s = State.empty

/-- The four neighbours of `(x, y)` in the order up, left, down, right. -/
def neighbours (x y : Int) : List (Int × Int) :=
  [(x - 1, y), (x, y - 1), (x + 1, y), (x, y + 1)]

/-- The extra invariant of the loop on a grid without obstacles when the sort
keeps the order of equivalent nodes: the open vector holds a leading node `n`
of f-value `F`, preceded by nodes of f-value at least `F` and followed by nodes
of greater f-value; `n.g` counts the `path` cells, and no cell that has been
touched is nearer to the goal than `n`. -/
def Lead (goal : Int × Int) (F : Int) (openv : List Node) (grid : Grid) : Prop :=
  ∃ l1 n l2, openv = l1 ++ n :: l2 ∧
    (∀ a ∈ l1, F ≤ a.g + a.h) ∧ (∀ a ∈ l2, F < a.g + a.h) ∧
    n.g + n.h = F ∧ n.g = (countCells isPath grid : Int) ∧
    (∀ x y s, cellAt grid x y = some s → s ≠ State.empty →
      n.h ≤ heuristic x y goal.1 goal.2) ∧
    (∀ x y s, cellAt grid x y = some s →
      s = State.empty ∨ s = State.closed ∨ s = State.path)

/-- A pass of the `while` loop of `search` that extracts a node: the open vector
and the grid at the loop test, and the node taken by `open.back()` after
`cell_sort`. -/
structure Pass where
  openv : List Node
  grid : Grid
  curr : Node
  deriving DecidableEq, Repr

/-- The passes of the `while` loop that extract a node, in order, among the
first `fuel` passes from the given open vector and grid. -/
def loop_passes (stdsort : (Node → Node → Bool) → List Node → List Node)
    (init goal : Int × Int) : Nat → List Node → Grid → List Pass
  | 0, _, _ => []
  | fuel + 1, openv, grid =>
    if openv.isEmpty then []
    else
      match (cell_sort stdsort openv).getLast? with
      | none => []
      | some curr =>
        ⟨openv, grid, curr⟩ ::
          match search_iter stdsort init goal openv grid with
          | Step.next open1 grid1 => loop_passes stdsort init goal fuel open1 grid1
          | Step.ret _ => []
          | Step.undefined => []

/-- The extracting passes of a run of `search`, at most `fuel` of them. -/
def search_passes (stdsort : (Node → Node → Bool) → List Node → List Node) (fuel : Nat)
    (grid : Grid) (init goal : Int × Int) : List Pass :=
  match add_to_open init.1 init.2 0 (heuristic init.1 init.2 goal.1 goal.2) [] grid with
  | none => []
  | some (openv, grid1) => loop_passes stdsort init goal fuel openv grid1

/-- What a pass of the loop that extracts `curr` and goes on does: `openv` and
`grid` are the open vector and grid at the loop test, `o2` and `g2` those at
the next loop test. -/
structure PassNext (goal : Int × Int) (openv : List Node) (grid : Grid) (curr : Node)
    (o2 : List Node) (g2 : Grid) : Prop where
  mem : curr ∈ openv
  not_goal : ¬ (curr.x = goal.1 ∧ curr.y = goal.2)
  least : ∀ n ∈ openv, curr.g + curr.h ≤ n.g + n.h
  nodes : ∀ n ∈ o2, (n ∈ openv ∧ ¬ (n.x = curr.x ∧ n.y = curr.y)) ∨
    (∃ d ∈ deltas, n = nodeAt curr.x curr.y curr.g goal d ∧
      cellAt grid n.x n.y = some State.empty)
  cells : ∀ x y, (x = curr.x ∧ y = curr.y ∧ cellAt g2 x y = some State.path) ∨
    (cellAt grid x y = some State.empty ∧ cellAt g2 x y = some State.closed) ∨
    (¬ (x = curr.x ∧ y = curr.y) ∧ cellAt g2 x y = cellAt grid x y)

/-- What the pass of the loop that extracts the goal node `curr` does: `res` is
the grid that `search` returns. -/
structure PassFound (init goal : Int × Int) (openv : List Node) (grid : Grid) (curr : Node)
    (res : Grid) : Prop where
  mem : curr ∈ openv
  at_goal : curr.x = goal.1 ∧ curr.y = goal.2
  least : ∀ n ∈ openv, curr.g + curr.h ≤ n.g + n.h
  cells : ∀ x y, (x = goal.1 ∧ y = goal.2 ∧ cellAt res x y = some State.finish) ∨
    (x = init.1 ∧ y = init.2 ∧ cellAt res x y = some State.start) ∨
    (¬ (x = goal.1 ∧ y = goal.2) ∧ ¬ (x = init.1 ∧ y = init.2) ∧
      cellAt res x y = cellAt grid x y)

/-- A walk of `k` 4-directional unit steps on the integer lattice, from the first
cell to the second, whatever the grid. -/
inductive UnitWalk : Int × Int → Int × Int → Nat → Prop
  | refl (c : Int × Int) : UnitWalk c c 0
  | step {a c : Int × Int} {k : Nat} (d : Int × Int) :
      UnitWalk a c k → d ∈ deltas → UnitWalk a (c.1 + d.1, c.2 + d.2) (k + 1)

/-- A walk of 4-directional unit steps from `init` to the given cell, each cell
before the last being `path` in `grid`. -/
inductive PathWalk (grid : Grid) (init : Int × Int) : Int × Int → Prop
  | base : PathWalk grid init init
  | step {c : Int × Int} (d : Int × Int) :
      PathWalk grid init c → cellAt grid c.1 c.2 = some State.path → d ∈ deltas →
      PathWalk grid init (c.1 + d.1, c.2 + d.2)

/-- A sequence of cells from `init` to `goal`, consecutive cells one
4-directional unit step apart, each cell marked `path`, `start` or `finish` in
`res`. -/
def MarkedRoute (res : Grid) (init goal : Int × Int) : Prop :=
  ∃ route : List (Int × Int), route.head? = some init ∧ route.getLast? = some goal ∧
    route.Chain' (fun a b => ∃ d ∈ deltas, b = (a.1 + d.1, a.2 + d.2)) ∧
    ∀ c ∈ route, ∃ s, cellAt res c.1 c.2 = some s ∧ isMarked s = true

/-! ## The arithmetic of `int`

The definitions above compute in exact integers, which is what the program
computes as long as no `int` operation overflows; this is the case throughout a
search on a grid whose coordinates, path lengths and distances fit in an `int`.
The functions that do arithmetic are given a second time in the namespace
`Machine`, with every `int` operation reduced to 32 bits, for the claims that
speak of these functions at all their arguments. -/

/-- The value an `int` holds after an operation whose exact result is `v`: the
32-bit two's complement value congruent to `v`.  (Signed overflow is undefined
in the C++ standard; wrap-around is what the compiled program does.) -/
def wrap_int (v : Int) : Int :=
  (v + 2147483648) % 4294967296 - 2147483648

/-- The values of type `int`: from `INT_MIN` to `INT_MAX`. -/
def IsInt (v : Int) : Prop :=
  -2147483648 ≤ v ∧ v ≤ 2147483647

/-- The library function `abs` on `int`. -/
def abs_int (v : Int) : Int :=
  wrap_int (if v < 0 then -v else v)

namespace Machine

/-- The function `heuristic`: `abs(x1 - x2) + abs(y1 - y2)` in `int` arithmetic. -/
def heuristic (x1 y1 x2 y2 : Int) : Int :=
  wrap_int (abs_int (wrap_int (x1 - x2)) + abs_int (wrap_int (y1 - y2)))

/-- The comparator `compare`, the two sums `node[2] + node[3]` in `int` arithmetic. -/
def compare (node1 node2 : Node) : Bool :=
  let f1 := wrap_int (node1.g + node1.h)
  let f2 := wrap_int (node2.g + node2.h)
  decide (f1 > f2)

/-- The function `cell_sort`: `sort(v->begin(), v->end(), compare)`. -/
def cell_sort (stdsort : (Node → Node → Bool) → List Node → List Node)
    (v : List Node) : List Node :=
  stdsort compare v

/-- One pass of the body of the `for (auto delta: deltas)` loop of
`expand_neighbors`, the three additions in `int` arithmetic. -/
def expand_step (x y g : Int) (goal : Int × Int) (delta : Int × Int)
    (openv : List Node) (grid : Grid) : Option (List Node × Grid) :=
  let dx := delta.1
  let dy := delta.2
  let next_x := wrap_int (x + dx)
  let next_y := wrap_int (y + dy)
  let next_g := wrap_int (g + 1)
  let next_h := heuristic next_x next_y goal.1 goal.2
  match check_valid_cell next_x next_y grid with
  | none => none
  | some true => add_to_open next_x next_y next_g next_h openv grid
  | some false => some (openv, grid)

/-- The `for` loop of `expand_neighbors` over a list of deltas. -/
def expand_loop (x y g : Int) (goal : Int × Int) :
    List (Int × Int) → List Node → Grid → Option (List Node × Grid)
  | [], openv, grid => some (openv, grid)
  | delta :: rest, openv, grid =>
    match expand_step x y g goal delta openv grid with
    | none => none
    | some (openv1, grid1) => expand_loop x y g goal rest openv1 grid1

/-- The function `expand_neighbors`. -/
def expand_neighbors (curr_node : Node) (goal : Int × Int) (openv : List Node)
    (grid : Grid) : Option (List Node × Grid) :=
  expand_loop curr_node.x curr_node.y curr_node.g goal deltas openv grid

/-- What the C++ standard promises of `std::sort` called with `compare`. -/
def SortContract (stdsort : (Node → Node → Bool) → List Node → List Node) : Prop :=
  ∀ v : List Node, (stdsort compare v).Perm v ∧
    (stdsort compare v).Pairwise (fun a b => compare b a = false)

end Machine

/-! ## The library sort as libstdc++ implements it

`std::sort` of libstdc++ (`bits/stl_algo.h`): an introsort that partitions
ranges of more than 16 elements around a median of three and finishes with an
insertion sort.  Iterators are positions in the list; a read or write outside
the vector is `none`.  The heap sort that takes over when the depth limit is
used up is not modelled: such a run is `none` as well. -/

/-- The function `std::__lg`: the floor of the binary logarithm of `n`. -/
def lg (n : Nat) : Nat :=
  ((List.range n).filter (fun k => decide (2 ^ (k + 1) ≤ n))).length

/-- The function `std::iter_swap`. -/
def iter_swap (i j : Nat) (v : List Node) : Option (List Node) :=
  match v[i]?, v[j]? with
  | some a, some b => some ((v.set i b).set j a)
  | _, _ => none

/-- The loop of `__unguarded_linear_insert`, `val` being the element taken from
the position where the insertion started and the first argument the current
`last`: while `val` compares before the element at `last - 1`, that element
moves up to `last`. -/
def unguarded_linear_insert_loop (comp : Node → Node → Bool) (val : Node) :
    Nat → List Node → Option (List Node)
  | 0, _ => none
  | next + 1, v =>
    match v[next]? with
    | none => none
    | some e =>
      if comp val e then unguarded_linear_insert_loop comp val next (v.set (next + 1) e)
      else some (v.set (next + 1) val)

/-- The function `__unguarded_linear_insert(last, comp)`. -/
def unguarded_linear_insert (comp : Node → Node → Bool) (last : Nat) (v : List Node) :
    Option (List Node) :=
  match v[last]? with
  | none => none
  | some val => unguarded_linear_insert_loop comp val last v

/-- One pass of the `for` loop of `__insertion_sort`, at position `i`: an element
that compares before the first one is moved to the front, the others between
moving up by one; any other element is inserted by `__unguarded_linear_insert`. -/
def insertion_sort_step (comp : Node → Node → Bool) (first i : Nat) (v : List Node) :
    Option (List Node) :=
  match v[i]?, v[first]? with
  | some vi, some vf =>
    if comp vi vf then
      some (v.take first ++ vi :: (v.drop first).take (i - first) ++ v.drop (i + 1))
    else unguarded_linear_insert comp i v
  | _, _ => none

/-- The function `__insertion_sort(first, last, comp)`. -/
def insertion_sort (comp : Node → Node → Bool) (first last : Nat) (v : List Node) :
    Option (List Node) :=
  if first = last then some v
  else (List.range' (first + 1) (last - (first + 1))).foldlM
    (fun w i => insertion_sort_step comp first i w) v

/-- The function `__unguarded_insertion_sort(first, last, comp)`. -/
def unguarded_insertion_sort (comp : Node → Node → Bool) (first last : Nat)
    (v : List Node) : Option (List Node) :=
  (List.range' first (last - first)).foldlM (fun w i => unguarded_linear_insert comp i w) v

/-- The function `__final_insertion_sort(first, last, comp)`, with the threshold
`_S_threshold = 16`. -/
def final_insertion_sort (comp : Node → Node → Bool) (first last : Nat) (v : List Node) :
    Option (List Node) :=
  if last - first > 16 then
    match insertion_sort comp first (first + 16) v with
    | none => none
    | some v1 => unguarded_insertion_sort comp (first + 16) last v1
  else insertion_sort comp first last v

/-- The function `__move_median_to_first(result, a, b, c, comp)`. -/
def move_median_to_first (comp : Node → Node → Bool) (result a b c : Nat)
    (v : List Node) : Option (List Node) :=
  match v[a]?, v[b]?, v[c]? with
  | some ea, some eb, some ec =>
    if comp ea eb then
      if comp eb ec then iter_swap result b v
      else if comp ea ec then iter_swap result c v
      else iter_swap result a v
    else if comp ea ec then iter_swap result a v
    else if comp eb ec then iter_swap result c v
    else iter_swap result b v
  | _, _, _ => none

/-- The loop `while (comp(first, pivot)) ++first;` of `__unguarded_partition`,
run over the elements from position `first` on; the result is the new `first`. -/
def scan_up (comp : Node → Node → Bool) (pivot : Node) : List Node → Nat → Option Nat
  | [], _ => none
  | e :: rest, first =>
    if comp e pivot then scan_up comp pivot rest (first + 1) else some first

/-- The loop `while (comp(pivot, last)) --last;` of `__unguarded_partition`; the
result is the new `last`. -/
def scan_down (comp : Node → Node → Bool) (pivot : Node) (v : List Node) : Nat → Option Nat
  | 0 =>
    match v[0]? with
    | none => none
    | some e => if comp pivot e then none else some 0
  | last + 1 =>
    match v[last + 1]? with
    | none => none
    | some e => if comp pivot e then scan_down comp pivot v last else some (last + 1)

/-- The function `__unguarded_partition(first, last, pivot, comp)`; the first
argument bounds the number of passes of its `while (true)` loop, each of which
advances `first`. -/
def unguarded_partition (comp : Node → Node → Bool) (pivot : Nat) :
    Nat → Nat → Nat → List Node → Option (Nat × List Node)
  | 0, _, _, _ => none
  | fuel + 1, first, last, v =>
    match v[pivot]? with
    | none => none
    | some p =>
      match scan_up comp p (v.drop first) first with
      | none => none
      | some first1 =>
        match last with
        | 0 => none
        | last0 + 1 =>
          match scan_down comp p v last0 with
          | none => none
          | some last1 =>
            if first1 < last1 then
              match iter_swap first1 last1 v with
              | none => none
              | some v1 => unguarded_partition comp pivot fuel (first1 + 1) last1 v1
            else some (first1, v)

/-- The function `__unguarded_partition_pivot(first, last, comp)`. -/
def unguarded_partition_pivot (comp : Node → Node → Bool) (first last : Nat)
    (v : List Node) : Option (Nat × List Node) :=
  let mid := first + (last - first) / 2
  match move_median_to_first comp first (first + 1) mid (last - 1) v with
  | none => none
  | some v1 => unguarded_partition comp first (v1.length + 1) (first + 1) last v1

/-- The function `__introsort_loop(first, last, depth_limit, comp)`, by recursion
on the depth limit, which every pass of its `while` loop decrements. -/
def introsort_loop (comp : Node → Node → Bool) :
    Nat → Nat → Nat → List Node → Option (List Node)
  | 0, first, last, v => if last - first > 16 then none else some v
  | depth_limit + 1, first, last, v =>
    if last - first > 16 then
      match unguarded_partition_pivot comp first last v with
      | none => none
      | some (cut, v1) =>
        match introsort_loop comp depth_limit cut last v1 with
        | none => none
        | some v2 => introsort_loop comp depth_limit first cut v2
    else some v

/-- The function `std::__sort(first, last, comp)` on the whole vector. -/
def libstdcxx_sort_run (comp : Node → Node → Bool) (v : List Node) : Option (List Node) :=
  if v.length = 0 then some v
  else
    match introsort_loop comp (lg v.length * 2) 0 v.length v with
    | none => none
    | some v1 => final_insertion_sort comp 0 v.length v1

/-- The library sort of libstdc++ as a function on vectors; where the run is not
modelled the vector is left as it is. -/
def libstdcxx_sort (comp : Node → Node → Bool) (v : List Node) : List Node :=
  (libstdcxx_sort_run comp v).getD v

/-! ## Properties of the grid operations -/

theorem setCell_eq_some {grid g1 : Grid} {x y : Int} {s : State}
    (h : setCell grid x y s = some g1) :
    0 ≤ x ∧ 0 ≤ y ∧ ∃ row, grid[x.toNat]? = some row ∧ y.toNat < row.length ∧
      g1 = grid.set x.toNat (row.set y.toNat s) := by
  unfold setCell at h
  split at h
  · rename_i hxy
    split at h
    · rename_i row hrow
      split at h
      · rename_i hy
        refine ⟨hxy.1, hxy.2, row, hrow, hy, ?_⟩
        simpa using h.symm
      · simp at h
    · simp at h
  · simp at h

theorem cellAt_eq_some {grid : Grid} {x y : Int} {t : State}
    (h : cellAt grid x y = some t) :
    0 ≤ x ∧ 0 ≤ y ∧ ∃ row, grid[x.toNat]? = some row ∧ row[y.toNat]? = some t := by
  unfold cellAt at h
  split at h
  · rename_i hxy
    split at h
    · rename_i row hrow
      exact ⟨hxy.1, hxy.2, row, hrow, h⟩
    · simp at h
  · simp at h

theorem setCell_of_cellAt {grid : Grid} {x y : Int} {t : State} (s : State)
    (h : cellAt grid x y = some t) : ∃ g1, setCell grid x y s = some g1 := by
  obtain ⟨hx, hy, row, hrow, ht⟩ := cellAt_eq_some h
  have hlt : y.toNat < row.length := (List.getElem?_eq_some.1 ht).1
  exact ⟨grid.set x.toNat (row.set y.toNat s), by simp [setCell, hx, hy, hrow, hlt]⟩

theorem cellAt_of_setCell {grid g1 : Grid} {x y : Int} {s : State}
    (h : setCell grid x y s = some g1) : ∃ t, cellAt grid x y = some t := by
  obtain ⟨hx, hy, row, hrow, hlt, -⟩ := setCell_eq_some h
  exact ⟨row[y.toNat], by simp [cellAt, hx, hy, hrow, hlt]⟩

theorem cellAt_setCell {grid g1 : Grid} {x y : Int} {s : State}
    (h : setCell grid x y s = some g1) (x1 y1 : Int) :
    cellAt g1 x1 y1 = if x1 = x ∧ y1 = y then some s else cellAt grid x1 y1 := by
  obtain ⟨hx, hy, row, hrow, hlt, rfl⟩ := setCell_eq_some h
  have hxl : x.toNat < grid.length := (List.getElem?_eq_some.1 hrow).1
  by_cases h1 : 0 ≤ x1 ∧ 0 ≤ y1
  · by_cases hxx : x1 = x
    · subst hxx
      by_cases hyy : y1 = y
      · subst hyy
        simp [cellAt, hx, hy, List.getElem?_set, hxl, hlt]
      · have : y.toNat ≠ y1.toNat := by omega
        simp [cellAt, h1, hyy, List.getElem?_set, hxl, hrow, this]
    · have : x.toNat ≠ x1.toNat := by omega
      simp [cellAt, h1, hxx, List.getElem?_set, this]
  · have hne : ¬ (x1 = x ∧ y1 = y) := by
      rintro ⟨rfl, rfl⟩
      exact h1 ⟨hx, hy⟩
    simp [cellAt, h1, hne]

theorem cellAt_setCell_self {grid g1 : Grid} {x y : Int} {s : State}
    (h : setCell grid x y s = some g1) : cellAt g1 x y = some s := by
  simp [cellAt_setCell h]

theorem cellAt_setCell_ne {grid g1 : Grid} {x y : Int} {s : State}
    (h : setCell grid x y s = some g1) {x1 y1 : Int} (hne : ¬ (x1 = x ∧ y1 = y)) :
    cellAt g1 x1 y1 = cellAt grid x1 y1 := by
  simp [cellAt_setCell h, hne]

theorem rect_setCell {grid g1 : Grid} {x y : Int} {s : State} {R C : Nat}
    (hr : Rect grid R C) (h : setCell grid x y s = some g1) : Rect g1 R C := by
  obtain ⟨hx, hy, row, hrow, hlt, rfl⟩ := setCell_eq_some h
  have hxl : x.toNat < grid.length := (List.getElem?_eq_some.1 hrow).1
  refine ⟨by simpa using hr.1, ?_⟩
  intro r hmem
  rcases List.mem_or_eq_of_mem_set hmem with hm | rfl
  · exact hr.2 r hm
  · simpa using hr.2 row (List.getElem?_mem hrow)

theorem cellAt_of_inBounds {grid : Grid} {R C : Nat} (hr : Rect grid R C) {x y : Int}
    (hb : InBounds R C (x, y)) : ∃ t, cellAt grid x y = some t := by
  obtain ⟨hx0, hx1, hy0, hy1⟩ := hb
  simp only at hx0 hx1 hy0 hy1
  have hxl : x.toNat < grid.length := by rw [hr.1]; omega
  have hrow : (grid[x.toNat]).length = C := hr.2 _ (List.getElem_mem hxl)
  have hyl : y.toNat < (grid[x.toNat]).length := by rw [hrow]; omega
  exact ⟨(grid[x.toNat])[y.toNat], by simp [cellAt, hx0, hy0, hxl, hyl]⟩

theorem inBounds_of_cellAt {grid : Grid} {R C : Nat} (hr : Rect grid R C) {x y : Int}
    {t : State} (h : cellAt grid x y = some t) : InBounds R C (x, y) := by
  obtain ⟨hx, hy, row, hrow, ht⟩ := cellAt_eq_some h
  have hxl : x.toNat < grid.length := (List.getElem?_eq_some.1 hrow).1
  have hyl : y.toNat < row.length := (List.getElem?_eq_some.1 ht).1
  have hlen : row.length = C := hr.2 row (List.getElem?_mem hrow)
  rw [hr.1] at hxl
  rw [hlen] at hyl
  refine ⟨hx, ?_, hy, ?_⟩ <;> simp only <;> omega

theorem countCells_set (p : State → Bool) :
    ∀ (grid : Grid) (i : Nat) (row row1 : List State), grid[i]? = some row →
      countCells p (grid.set i row1) + row.countP p = countCells p grid + row1.countP p
  | [], i, row, row1, h => by simp at h
  | r :: rest, 0, row, row1, h => by
    simp at h
    subst h
    simp [countCells]
    omega
  | r :: rest, i + 1, row, row1, h => by
    have ih := countCells_set p rest i row row1 (by simpa using h)
    simp only [countCells, List.set_cons_succ, List.map_cons, List.sum_cons] at ih ⊢
    omega

theorem countCells_setCell (p : State → Bool) {grid g1 : Grid} {x y : Int} {s t : State}
    (ht : cellAt grid x y = some t) (h : setCell grid x y s = some g1) :
    countCells p g1 + (if p t then 1 else 0) = countCells p grid + (if p s then 1 else 0) := by
  obtain ⟨hx, hy, row, hrow, hlt, rfl⟩ := setCell_eq_some h
  obtain ⟨-, -, row1, hrow1, ht1⟩ := cellAt_eq_some ht
  rw [hrow] at hrow1
  cases hrow1
  have hc := countCells_set p grid x.toNat row (row.set y.toNat s) hrow
  have hs := List.countP_set p row y.toNat s hlt
  have hle := List.boole_getElem_le_countP p row y.toNat hlt
  have hget : row[y.toNat] = t := by
    rw [List.getElem?_eq_getElem hlt] at ht1
    simpa using ht1
  rw [hget] at hs hle
  omega

theorem countCells_le (p : State → Bool) {R C : Nat} :
    ∀ {grid : Grid}, Rect grid R C → countCells p grid ≤ R * C := by
  intro grid
  induction grid generalizing R with
  | nil => intro _; simp [countCells]
  | cons r rest ih =>
    intro hr
    have hlen : rest.length + 1 = R := by simpa using hr.1
    have hrest : Rect rest rest.length C :=
      ⟨rfl, fun row hrow => hr.2 row (List.mem_cons_of_mem _ hrow)⟩
    have h1 := ih hrest
    have h2 : r.countP p ≤ C := by
      have := hr.2 r (List.mem_cons_self _ _)
      rw [← this]
      exact List.countP_le_length p
    simp only [countCells, List.map_cons, List.sum_cons] at h1 ⊢
    subst hlen
    rw [Nat.add_mul]
    omega

theorem check_valid_cell_rect {grid : Grid} {R C : Nat} (hr : Rect grid R C) (x y : Int) :
    check_valid_cell x y grid = some (decide (cellAt grid x y = some State.empty)) := by
  by_cases hb : InBounds R C (x, y)
  · obtain ⟨t, ht⟩ := cellAt_of_inBounds hr hb
    obtain ⟨hx0, hx1, hy0, hy1⟩ := hb
    simp only at hx0 hx1 hy0 hy1
    have h0 : 0 < grid.length := by rw [hr.1]; omega
    have hrow0 : (grid[0]).length = C := hr.2 _ (List.getElem_mem h0)
    have hxl : x < (grid.length : Int) := by rw [hr.1]; exact hx1
    simp [check_valid_cell, hx0, hy0, hxl, h0, hrow0, hy1, ht]
  · have hnone : cellAt grid x y = none := by
      cases hc : cellAt grid x y with
      | none => rfl
      | some t => exact absurd (inBounds_of_cellAt hr hc) hb
    unfold check_valid_cell
    rw [hnone]
    split
    · rename_i hc
      have h0 : 0 < grid.length := by omega
      have hrow0 : (grid[0]).length = C := hr.2 _ (List.getElem_mem h0)
      have hy : ¬ y < (C : Int) := by
        intro hy
        exact hb ⟨hc.1, by rw [← hr.1]; exact hc.2.1, hc.2.2, hy⟩
      simp [h0, hrow0, hy]
    · simp

theorem compare_eq_false_iff (a b : Node) : compare b a = false ↔ b.g + b.h ≤ a.g + a.h := by
  simp [compare]

theorem insertionSort_sorted (v : List Node) :
    (v.insertionSort (fun a b => compare b a = false)).Pairwise
      (fun a b => compare b a = false) := by
  haveI : IsTotal Node (fun a b => compare b a = false) :=
    ⟨fun a b => by simp only [compare_eq_false_iff]; omega⟩
  haveI : IsTrans Node (fun a b => compare b a = false) :=
    ⟨fun a b c => by simp only [compare_eq_false_iff]; omega⟩
  exact List.sorted_insertionSort (fun a b => compare b a = false) v

theorem stable_sort_model_contract : SortContract stable_sort_model := by
  intro v
  exact ⟨List.perm_insertionSort _ v, insertionSort_sorted v⟩

theorem reversing_sort_model_contract : SortContract reversing_sort_model := by
  intro v
  exact ⟨(List.perm_insertionSort _ v.reverse).trans (List.reverse_perm v),
    insertionSort_sorted v.reverse⟩

/-- What extraction does under the contract of the sort: the sorted vector is
`rest ++ [curr]`, a rearrangement of the open set, in non-increasing f order,
so `curr` has the least f-value. -/
theorem extract_spec {stdsort : (Node → Node → Bool) → List Node → List Node}
    (hs : SortContract stdsort) {openv : List Node} (hne : openv ≠ []) :
    ∃ curr, (cell_sort stdsort openv).getLast? = some curr ∧
      ((cell_sort stdsort openv).dropLast ++ [curr]).Perm openv ∧
      (∀ n ∈ (cell_sort stdsort openv).dropLast, curr.g + curr.h ≤ n.g + n.h) ∧
      ((cell_sort stdsort openv).dropLast ++ [curr]).Pairwise
        (fun a b => b.g + b.h ≤ a.g + a.h) := by
  obtain ⟨hperm, hsort⟩ := hs openv
  have hne1 : cell_sort stdsort openv ≠ [] := by
    intro h
    unfold cell_sort at h
    rw [h] at hperm
    exact hne (List.Perm.nil_eq hperm).symm
  have hlast := List.getLast?_eq_getLast _ hne1
  have hsplit := List.dropLast_concat_getLast hne1
  refine ⟨_, hlast, ?_, ?_, ?_⟩
  · rw [hsplit]; exact hperm
  · have hp : ((cell_sort stdsort openv).dropLast ++
        [(cell_sort stdsort openv).getLast hne1]).Pairwise
        (fun a b => compare b a = false) := by rw [hsplit]; exact hsort
    rw [List.pairwise_append] at hp
    intro n hn
    exact (compare_eq_false_iff _ _).1 (hp.2.2 n hn _ (List.mem_singleton_self _))
  · rw [hsplit]
    exact hsort.imp (fun h => (compare_eq_false_iff _ _).1 h)

theorem setCell_map_length {grid g1 : Grid} {x y : Int} {s : State}
    (h : setCell grid x y s = some g1) : g1.map List.length = grid.map List.length := by
  obtain ⟨hx, hy, row, hrow, hlt, rfl⟩ := setCell_eq_some h
  apply List.ext_getElem?
  intro i
  by_cases hi : x.toNat = i
  · subst hi
    obtain ⟨hxl, hget⟩ := List.getElem?_eq_some.1 hrow
    simp [List.getElem?_map, List.getElem?_set, hxl, hget]
  · simp [List.getElem?_map, List.getElem?_set, hi]

theorem check_valid_cell_congr {grid g1 : Grid} (hlen : g1.map List.length = grid.map List.length)
    {x y : Int} (hc : cellAt g1 x y = cellAt grid x y) :
    check_valid_cell x y g1 = check_valid_cell x y grid := by
  have h1 : g1.length = grid.length := by simpa using congrArg List.length hlen
  have h2 : (g1[0]?).map List.length = (grid[0]?).map List.length := by
    have := congrArg (fun l => l[0]?) hlen
    simpa [List.getElem?_map] using this
  unfold check_valid_cell
  rw [h1, hc]
  cases hg : grid[0]? with
  | none =>
    rw [hg] at h2
    cases hg1 : g1[0]? with
    | none => rfl
    | some r => rw [hg1] at h2; simp at h2
  | some r =>
    rw [hg] at h2
    cases hg1 : g1[0]? with
    | none => rw [hg1] at h2; simp at h2
    | some r1 =>
      rw [hg1] at h2
      have : r1.length = r.length := by simpa using h2
      simp [this]

theorem check_valid_cell_true {grid : Grid} {x y : Int}
    (h : check_valid_cell x y grid = some true) : cellAt grid x y = some State.empty := by
  unfold check_valid_cell at h
  split at h
  · split at h
    · simp at h
    · split at h
      · split at h
        · simp at h
        · rename_i s hs
          simp at h
          rw [hs, h]
      · simp at h
  · simp at h

/-- The two ways a pass of the `for` loop can complete: the neighbour is valid and
is queued and closed, or it is not valid and nothing changes. -/
theorem expand_step_some {x y g : Int} {goal d : Int × Int} {openv o2 : List Node}
    {grid g2 : Grid} (h : expand_step x y g goal d openv grid = some (o2, g2)) :
    (check_valid_cell (x + d.1) (y + d.2) grid = some true ∧
      o2 = openv ++ [⟨x + d.1, y + d.2, g + 1, heuristic (x + d.1) (y + d.2) goal.1 goal.2⟩] ∧
      setCell grid (x + d.1) (y + d.2) State.closed = some g2) ∨
    (check_valid_cell (x + d.1) (y + d.2) grid = some false ∧ o2 = openv ∧ g2 = grid) := by
  unfold expand_step at h
  simp only at h
  cases hv : check_valid_cell (x + d.1) (y + d.2) grid with
  | none => rw [hv] at h; simp at h
  | some b =>
    rw [hv] at h
    cases b with
    | true =>
      left
      simp only [add_to_open] at h
      cases hs : setCell grid (x + d.1) (y + d.2) State.closed with
      | none => rw [hs] at h; simp at h
      | some g3 =>
        rw [hs] at h
        simp at h
        exact ⟨rfl, h.1.symm, by rw [h.2]⟩
    | false =>
      right
      simp at h
      exact ⟨rfl, h.1.symm, h.2.symm⟩

theorem check_valid_cell_setCell {grid g1 : Grid} {a b : Int} {s : State}
    (h : setCell grid a b s = some g1) {x y : Int} (hne : ¬ (x = a ∧ y = b)) :
    check_valid_cell x y g1 = check_valid_cell x y grid :=
  check_valid_cell_congr (setCell_map_length h) (cellAt_setCell_ne h hne)

theorem validDeltas_setCell {grid g1 : Grid} {x y : Int} {d : Int × Int} {s : State}
    (h : setCell grid (x + d.1) (y + d.2) s = some g1) {rest : List (Int × Int)}
    (hd : d ∉ rest) : validDeltas x y g1 rest = validDeltas x y grid rest := by
  unfold validDeltas
  apply List.filter_congr
  intro e he
  have hne : ¬ (x + e.1 = x + d.1 ∧ y + e.2 = y + d.2) := by
    rintro ⟨h1, h2⟩
    apply hd
    have : e = d := Prod.ext (by omega) (by omega)
    rw [← this]
    exact he
  rw [check_valid_cell_setCell h hne]

theorem mem_validDeltas {x y : Int} {grid : Grid} {ds : List (Int × Int)} {d : Int × Int} :
    d ∈ validDeltas x y grid ds ↔
      d ∈ ds ∧ check_valid_cell (x + d.1) (y + d.2) grid = some true := by
  simp [validDeltas]

/-- What the `for` loop of `expand_neighbors` does when it completes, in terms of
the grid it starts from. -/
theorem expand_loop_spec (x y g : Int) (goal : Int × Int) :
    ∀ (ds : List (Int × Int)), ds.Nodup → ∀ (openv : List Node) (grid : Grid)
      (o2 : List Node) (g2 : Grid),
      expand_loop x y g goal ds openv grid = some (o2, g2) →
      o2 = openv ++ (validDeltas x y grid ds).map (nodeAt x y g goal) ∧
      g2.map List.length = grid.map List.length ∧
      (∀ d ∈ validDeltas x y grid ds, cellAt g2 (x + d.1) (y + d.2) = some State.closed) ∧
      (∀ a b, (∀ d ∈ validDeltas x y grid ds, ¬ (a = x + d.1 ∧ b = y + d.2)) →
        cellAt g2 a b = cellAt grid a b) := by
  intro ds
  induction ds with
  | nil =>
    intro _ openv grid o2 g2 h
    simp [expand_loop] at h
    obtain ⟨rfl, rfl⟩ := h
    simp [validDeltas]
  | cons d rest ih =>
    intro hnd openv grid o2 g2 h
    have hd : d ∉ rest := (List.nodup_cons.1 hnd).1
    have hnd1 : rest.Nodup := (List.nodup_cons.1 hnd).2
    simp only [expand_loop] at h
    cases hs : expand_step x y g goal d openv grid with
    | none => rw [hs] at h; simp at h
    | some res =>
      obtain ⟨o1, g1⟩ := res
      rw [hs] at h
      simp only at h
      obtain ⟨ho, hlen, hcl, hfr⟩ := ih hnd1 o1 g1 o2 g2 h
      rcases expand_step_some hs with ⟨hv, ho1, hset⟩ | ⟨hv, ho1, hg1⟩
      · have hvd : validDeltas x y grid (d :: rest) = d :: validDeltas x y grid rest := by
          simp [validDeltas, hv]
        rw [validDeltas_setCell hset hd] at ho hcl hfr
        rw [hvd]
        refine ⟨?_, ?_, ?_, ?_⟩
        · rw [ho, ho1]; simp [nodeAt]
        · rw [hlen, setCell_map_length hset]
        · intro e he
          rcases List.mem_cons.1 he with rfl | he1
          · by_cases hin : ∃ e1 ∈ validDeltas x y grid rest,
                (x + e.1 = x + e1.1 ∧ y + e.2 = y + e1.2)
            · obtain ⟨e1, he1, h1, h2⟩ := hin
              have : e = e1 := Prod.ext (by omega) (by omega)
              rw [this]
              exact hcl e1 he1
            · rw [hfr _ _ (fun e1 he1 hc => hin ⟨e1, he1, hc⟩)]
              exact cellAt_setCell_self hset
          · exact hcl e he1
        · intro a b hab
          rw [hfr a b (fun e he => hab e (List.mem_cons_of_mem _ he))]
          exact cellAt_setCell_ne hset (hab d (List.mem_cons_self _ _))
      · have hvd : validDeltas x y grid (d :: rest) = validDeltas x y grid rest := by
          simp [validDeltas, hv]
        rw [hvd]
        rw [hg1] at ho hlen hcl hfr
        exact ⟨by rw [ho, ho1], hlen, hcl, hfr⟩

theorem expand_loop_rect (x y g : Int) (goal : Int × Int) {R C : Nat} (p : State → Bool)
    (hp : p State.empty = p State.closed) :
    ∀ (ds : List (Int × Int)) (openv : List Node) (grid : Grid), Rect grid R C →
      ∃ o2 g2, expand_loop x y g goal ds openv grid = some (o2, g2) ∧ Rect g2 R C ∧
        countCells p g2 = countCells p grid := by
  intro ds
  induction ds with
  | nil =>
    intro openv grid hr
    exact ⟨openv, grid, rfl, hr, rfl⟩
  | cons d rest ih =>
    intro openv grid hr
    by_cases hv : cellAt grid (x + d.1) (y + d.2) = some State.empty
    · obtain ⟨g1, hset⟩ := setCell_of_cellAt State.closed hv
      have hstep : expand_step x y g goal d openv grid =
          some (openv ++ [nodeAt x y g goal d], g1) := by
        simp [expand_step, check_valid_cell_rect hr, hv, add_to_open, hset, nodeAt]
      obtain ⟨o2, g2, h2, hr2, hc2⟩ := ih (openv ++ [nodeAt x y g goal d]) g1
        (rect_setCell hr hset)
      refine ⟨o2, g2, by simp [expand_loop, hstep, h2], hr2, ?_⟩
      have := countCells_setCell p hv hset
      rw [hp] at this
      omega
    · have hstep : expand_step x y g goal d openv grid = some (openv, grid) := by
        simp [expand_step, check_valid_cell_rect hr, hv]
      obtain ⟨o2, g2, h2, hr2, hc2⟩ := ih openv grid hr
      exact ⟨o2, g2, by simp [expand_loop, hstep, h2], hr2, hc2⟩

theorem walk_enterable {grid0 : Grid} {init c : Int × Int} {k : Nat}
    (h : Walk grid0 init c k) : Enterable grid0 init c.1 c.2 := by
  cases h with
  | base => exact Or.inl ⟨rfl, rfl⟩
  | step d _ _ he => exact Or.inr he

theorem inv_init {grid0 : Grid} {R C : Nat} (init goal : Int × Int)
    (hr : Rect grid0 R C) (hi : InBounds R C init) :
    ∃ grid1, add_to_open init.1 init.2 0 (heuristic init.1 init.2 goal.1 goal.2) [] grid0 =
        some ([⟨init.1, init.2, 0, heuristic init.1 init.2 goal.1 goal.2⟩], grid1) ∧
      Inv grid0 init goal R C [⟨init.1, init.2, 0, heuristic init.1 init.2 goal.1 goal.2⟩] grid1 ∧
      setCell grid0 init.1 init.2 State.closed = some grid1 := by
  obtain ⟨t, ht⟩ := cellAt_of_inBounds hr hi
  obtain ⟨grid1, hset⟩ := setCell_of_cellAt State.closed ht
  refine ⟨grid1, by simp [add_to_open, hset], ?_, hset⟩
  constructor
  · exact rect_setCell hr hset
  · intro n hn
    simp at hn
    subst hn
    exact cellAt_setCell_self hset
  · simp
  · intro n hn
    simp at hn
    subst hn
    exact ⟨0, rfl, Walk.base⟩
  · intro n hn
    simp at hn
    subst hn
    simp
  · intro n hn
    simp at hn
    subst hn
    rfl
  · exact Or.inr ⟨_, rfl, rfl, rfl⟩
  · intro x y
    by_cases hxy : x = init.1 ∧ y = init.2
    · right
      obtain ⟨rfl, rfl⟩ := hxy
      exact ⟨Or.inl ⟨rfl, rfl⟩, Or.inl (cellAt_setCell_self hset)⟩
    · left
      exact cellAt_setCell_ne hset hxy
  · intro x y hc he
    by_cases hxy : x = init.1 ∧ y = init.2
    · exact ⟨_, List.mem_singleton_self _, hxy.1.symm, hxy.2.symm⟩
    · rw [cellAt_setCell_ne hset hxy] at hc
      rcases he with he | he
      · exact absurd he hxy
      · rw [hc] at he; simp at he
  · intro x y hc he
    by_cases hxy : x = init.1 ∧ y = init.2
    · obtain ⟨rfl, rfl⟩ := hxy
      rw [cellAt_setCell_self hset] at hc
      simp at hc
    · rw [cellAt_setCell_ne hset hxy] at hc
      rcases he with he | he
      · exact absurd he hxy
      · rw [hc] at he; simp at he

theorem deltas_nodup : deltas.Nodup := by decide

/-- After the extracted cell is marked `path` and its neighbours are expanded,
every cell is the extracted one, a newly queued neighbour, or untouched. -/
theorem expand_cell_cases {R C : Nat} {grid grid1 g2 : Grid} {curr : Node} {goal : Int × Int}
    {rest o2 : List Node} (hr : Rect grid R C)
    (hset : setCell grid curr.x curr.y State.path = some grid1)
    (hexp : expand_neighbors curr goal rest grid1 = some (o2, g2)) (a b : Int) :
    (a = curr.x ∧ b = curr.y ∧ cellAt g2 a b = some State.path) ∨
    (∃ d ∈ validDeltas curr.x curr.y grid1 deltas, a = curr.x + d.1 ∧ b = curr.y + d.2 ∧
      cellAt grid a b = some State.empty ∧ cellAt g2 a b = some State.closed) ∨
    (¬ (a = curr.x ∧ b = curr.y) ∧
      (∀ d ∈ deltas, a = curr.x + d.1 → b = curr.y + d.2 → cellAt grid a b ≠ some State.empty) ∧
      cellAt g2 a b = cellAt grid a b) := by
  obtain ⟨-, -, hcl, hfr⟩ := expand_loop_spec curr.x curr.y curr.g goal deltas deltas_nodup
    rest grid1 o2 g2 hexp
  have hr1 : Rect grid1 R C := rect_setCell hr hset
  by_cases hin : ∃ d ∈ validDeltas curr.x curr.y grid1 deltas, a = curr.x + d.1 ∧ b = curr.y + d.2
  · obtain ⟨d, hd, rfl, rfl⟩ := hin
    right; left
    have he1 := check_valid_cell_true (mem_validDeltas.1 hd).2
    have hne : ¬ (curr.x + d.1 = curr.x ∧ curr.y + d.2 = curr.y) := by
      intro hc
      rw [cellAt_setCell hset, if_pos hc] at he1
      simp at he1
    rw [cellAt_setCell_ne hset hne] at he1
    exact ⟨d, hd, rfl, rfl, he1, hcl d hd⟩
  · have hg2 : cellAt g2 a b = cellAt grid1 a b :=
      hfr a b (fun d hd hc => hin ⟨d, hd, hc⟩)
    by_cases hc : a = curr.x ∧ b = curr.y
    · left
      refine ⟨hc.1, hc.2, ?_⟩
      rw [hg2, cellAt_setCell hset, if_pos hc]
    · right; right
      rw [cellAt_setCell_ne hset hc] at hg2
      refine ⟨hc, ?_, hg2⟩
      intro d hd ha hb he
      apply hin
      refine ⟨d, mem_validDeltas.2 ⟨hd, ?_⟩, ha, hb⟩
      rw [check_valid_cell_rect hr1, ← ha, ← hb, cellAt_setCell_ne hset hc, he]
      simp

/-- Facts about the extracted node and the nodes left in the open vector. -/
theorem pop_facts {grid0 : Grid} {init goal : Int × Int} {R C : Nat} {openv : List Node}
    {grid : Grid} (hinv : Inv grid0 init goal R C openv grid) {curr : Node} {rest : List Node}
    (hperm : (rest ++ [curr]).Perm openv) :
    curr ∈ openv ∧ (∀ n ∈ rest, n ∈ openv) ∧
      (∀ n ∈ rest, ¬ (n.x = curr.x ∧ n.y = curr.y)) ∧
      (rest.map (fun n => (n.x, n.y))).Nodup ∧
      (∀ n ∈ openv, n ∈ rest ∨ n = curr) := by
  have hnd : ((rest ++ [curr]).map (fun n => (n.x, n.y))).Nodup :=
    (hperm.map _).nodup_iff.2 hinv.open_nodup
  rw [List.map_append, List.nodup_append] at hnd
  refine ⟨hperm.subset (by simp), fun n hn => hperm.subset (by simp [hn]), ?_, hnd.1, ?_⟩
  · intro n hn hc
    have h1 : (n.x, n.y) ∈ rest.map (fun n => (n.x, n.y)) := List.mem_map.2 ⟨n, hn, rfl⟩
    have h2 : (n.x, n.y) ∈ [curr].map (fun n => (n.x, n.y)) := by simp [hc.1, hc.2]
    exact hnd.2.2 h1 h2
  · intro n hn
    have := hperm.symm.subset hn
    simpa using this

theorem inv_step {grid0 : Grid} {init goal : Int × Int} {R C : Nat} {openv : List Node}
    {grid : Grid} (hinv : Inv grid0 init goal R C openv grid) {curr : Node} {rest : List Node}
    (hperm : (rest ++ [curr]).Perm openv) (hng : ¬ (curr.x = goal.1 ∧ curr.y = goal.2))
    {grid1 : Grid} (hset : setCell grid curr.x curr.y State.path = some grid1) :
    ∃ o2 g2, expand_neighbors curr goal rest grid1 = some (o2, g2) ∧
      Inv grid0 init goal R C o2 g2 ∧
      countCells isPath g2 = countCells isPath grid + 1 := by
  obtain ⟨hcm, hsub, hne, hnd, hmem⟩ := pop_facts hinv hperm
  have hcc := hinv.open_closed curr hcm
  have hr1 : Rect grid1 R C := rect_setCell hinv.rect hset
  have hcount1 : countCells isPath grid1 = countCells isPath grid + 1 := by
    have := countCells_setCell isPath hcc hset
    simpa [isPath] using this
  obtain ⟨o2, g2, hexp, hr2, hcount2⟩ := expand_loop_rect curr.x curr.y curr.g goal isPath
    (by simp [isPath]) deltas rest grid1 hr1
  have hexp1 : expand_neighbors curr goal rest grid1 = some (o2, g2) := hexp
  obtain ⟨ho2, -, -, -⟩ := expand_loop_spec curr.x curr.y curr.g goal deltas deltas_nodup
    rest grid1 o2 g2 hexp
  have hcases := expand_cell_cases hinv.rect hset hexp1
  obtain ⟨kc, hkc, hwc⟩ := hinv.open_walk curr hcm
  -- every newly queued neighbour is `empty` in the input grid
  have hnew0 : ∀ a b, cellAt grid a b = some State.empty → cellAt grid0 a b = some State.empty := by
    intro a b he
    rcases hinv.frame a b with h | ⟨-, h | h⟩
    · rw [← h]; exact he
    · rw [he] at h; simp at h
    · rw [he] at h; simp at h
  have hnewcell : ∀ d ∈ validDeltas curr.x curr.y grid1 deltas,
      cellAt grid (curr.x + d.1) (curr.y + d.2) = some State.empty ∧
      cellAt g2 (curr.x + d.1) (curr.y + d.2) = some State.closed := by
    intro d hd
    rcases hcases (curr.x + d.1) (curr.y + d.2) with ⟨h1, h2, -⟩ | ⟨e, -, -, -, h3, h4⟩ | ⟨-, h5, -⟩
    · exfalso
      have he1 := check_valid_cell_true (mem_validDeltas.1 hd).2
      rw [cellAt_setCell hset, if_pos ⟨h1, h2⟩] at he1
      simp at he1
    · exact ⟨h3, h4⟩
    · exfalso
      have he1 := check_valid_cell_true (mem_validDeltas.1 hd).2
      by_cases hc : curr.x + d.1 = curr.x ∧ curr.y + d.2 = curr.y
      · rw [cellAt_setCell hset, if_pos hc] at he1
        simp at he1
      · rw [cellAt_setCell_ne hset hc] at he1
        exact h5 d (mem_validDeltas.1 hd).1 rfl rfl he1
  have hmem2 : ∀ n, n ∈ o2 ↔ n ∈ rest ∨
      ∃ d ∈ validDeltas curr.x curr.y grid1 deltas, n = nodeAt curr.x curr.y curr.g goal d := by
    intro n
    rw [ho2, List.mem_append, List.mem_map]
    constructor
    · rintro (h | ⟨d, hd, rfl⟩)
      · exact Or.inl h
      · exact Or.inr ⟨d, hd, rfl⟩
    · rintro (h | ⟨d, hd, rfl⟩)
      · exact Or.inl h
      · exact Or.inr ⟨d, hd, rfl⟩
  refine ⟨o2, g2, hexp1, ?_, by rw [hcount2, hcount1]⟩
  constructor
  · exact hr2
  · -- open_closed
    intro n hn
    rcases (hmem2 n).1 hn with h | ⟨d, hd, rfl⟩
    · have hcl := hinv.open_closed n (hsub n h)
      rcases hcases n.x n.y with ⟨h1, h2, -⟩ | ⟨e, -, -, -, h3, -⟩ | ⟨-, -, h5⟩
      · exact absurd ⟨h1, h2⟩ (hne n h)
      · rw [hcl] at h3; simp at h3
      · rw [h5]; exact hcl
    · exact (hnewcell d hd).2
  · -- open_nodup
    rw [ho2, List.map_append, List.nodup_append]
    refine ⟨hnd, ?_, ?_⟩
    · rw [List.map_map]
      have hvn : (validDeltas curr.x curr.y grid1 deltas).Nodup :=
        deltas_nodup.filter _
      refine hvn.map_on ?_
      intro d1 _ d2 _ h
      simp only [Function.comp, nodeAt, Prod.mk.injEq] at h
      exact Prod.ext (by omega) (by omega)
    · intro c hc1 hc2
      obtain ⟨n, hn, rfl⟩ := List.mem_map.1 hc1
      rw [List.map_map] at hc2
      obtain ⟨d, hd, hdc⟩ := List.mem_map.1 hc2
      simp only [Function.comp, nodeAt, Prod.mk.injEq] at hdc
      have h1 := (hnewcell d hd).1
      rw [hdc.1, hdc.2, hinv.open_closed n (hsub n hn)] at h1
      simp at h1
  · -- open_walk
    intro n hn
    rcases (hmem2 n).1 hn with h | ⟨d, hd, rfl⟩
    · exact hinv.open_walk n (hsub n h)
    · refine ⟨kc + 1, by simp [nodeAt, hkc], ?_⟩
      exact Walk.step d hwc (mem_validDeltas.1 hd).1 (hnew0 _ _ (hnewcell d hd).1)
  · -- open_g
    intro n hn
    rw [hcount2, hcount1]
    rcases (hmem2 n).1 hn with h | ⟨d, hd, rfl⟩
    · have := hinv.open_g n (hsub n h)
      push_cast
      omega
    · have := hinv.open_g curr hcm
      simp only [nodeAt]
      push_cast
      omega
  · -- open_h
    intro n hn
    rcases (hmem2 n).1 hn with h | ⟨d, hd, rfl⟩
    · exact hinv.open_h n (hsub n h)
    · rfl
  · -- init_state
    left
    rcases hinv.init_state with h | ⟨n, hn, hx, hy⟩
    · rcases hcases init.1 init.2 with ⟨-, -, h3⟩ | ⟨e, -, -, -, h3, -⟩ | ⟨-, -, h5⟩
      · exact h3
      · rw [h] at h3; simp at h3
      · rw [h5]; exact h
    · have : curr = n := by
        rw [hn] at hcm
        simpa using hcm
      subst this
      rcases hcases init.1 init.2 with ⟨-, -, h3⟩ | ⟨e, -, -, -, h3, -⟩ | ⟨h4, -, -⟩
      · exact h3
      · rw [← hx, ← hy, hcc] at h3; simp at h3
      · exact absurd ⟨hx.symm, hy.symm⟩ h4
  · -- frame
    intro a b
    rcases hcases a b with ⟨h1, h2, h3⟩ | ⟨e, -, -, -, h3, h4⟩ | ⟨-, -, h5⟩
    · right
      subst h1 h2
      exact ⟨walk_enterable hwc, Or.inr h3⟩
    · right
      exact ⟨Or.inr (hnew0 a b h3), Or.inl h4⟩
    · rw [h5]; exact hinv.frame a b
  · -- closed_open
    intro a b hc he
    rcases hcases a b with ⟨-, -, h3⟩ | ⟨e, he1, h1, h2, -, -⟩ | ⟨h4, -, h5⟩
    · rw [hc] at h3; simp at h3
    · exact ⟨_, (hmem2 _).2 (Or.inr ⟨e, he1, rfl⟩), by simp [nodeAt, h1], by simp [nodeAt, h2]⟩
    · rw [h5] at hc
      obtain ⟨n, hn, hx, hy⟩ := hinv.closed_open a b hc he
      rcases hmem n hn with h | h
      · exact ⟨n, (hmem2 n).2 (Or.inl h), hx, hy⟩
      · subst h
        exact absurd ⟨hx.symm, hy.symm⟩ h4
  · -- expanded
    intro a b hp he
    have hmono : ∀ a1 b1, cellAt grid a1 b1 ≠ some State.empty →
        cellAt g2 a1 b1 ≠ some State.empty := by
      intro a1 b1 h1
      rcases hcases a1 b1 with ⟨-, -, h3⟩ | ⟨e, -, -, -, h3, -⟩ | ⟨-, -, h5⟩
      · rw [h3]; simp
      · exact absurd h3 h1
      · rw [h5]; exact h1
    rcases hcases a b with ⟨h1, h2, -⟩ | ⟨e, -, -, -, -, h4⟩ | ⟨-, -, h5⟩
    · subst h1 h2
      refine ⟨hng, ?_⟩
      intro d hd _
      rcases hcases (curr.x + d.1) (curr.y + d.2) with ⟨-, -, h3⟩ | ⟨e, -, -, -, -, h4⟩ | ⟨-, h6, h5⟩
      · rw [h3]; simp
      · rw [h4]; simp
      · rw [h5]; exact h6 d hd rfl rfl
    · rw [hp] at h4; simp at h4
    · rw [h5] at hp
      obtain ⟨hg, hall⟩ := hinv.expanded a b hp he
      exact ⟨hg, fun d hd h0 => hmono _ _ (hall d hd h0)⟩

theorem countCells_mono {p q : State → Bool} (h : ∀ s, p s = true → q s = true) :
    ∀ grid : Grid, countCells p grid ≤ countCells q grid
  | [] => by simp [countCells]
  | r :: rest => by
    have ih := countCells_mono h rest
    have h1 : r.countP p ≤ r.countP q := List.countP_mono_left (fun s _ => h s)
    simp only [countCells, List.map_cons, List.sum_cons] at ih ⊢
    omega

theorem inv_exhausted {grid0 : Grid} {init goal : Int × Int} {R C : Nat} {grid : Grid}
    (hinv : Inv grid0 init goal R C [] grid) : ¬ ∃ k, Walk grid0 init goal k := by
  have key : ∀ c k, Walk grid0 init c k → cellAt grid c.1 c.2 = some State.path := by
    intro c k hw
    induction hw with
    | base =>
      rcases hinv.init_state with h | ⟨n, hn, -, -⟩
      · exact h
      · simp at hn
    | step d hw hd he ih =>
      rename_i c k
      have hexp := (hinv.expanded c.1 c.2 ih (walk_enterable hw)).2 d hd he
      rcases hinv.frame (c.1 + d.1) (c.2 + d.2) with h | ⟨hen, h | h⟩
      · rw [h] at hexp; exact absurd he hexp
      · obtain ⟨n, hn, -, -⟩ := hinv.closed_open _ _ h hen
        simp at hn
      · exact h
  rintro ⟨k, hw⟩
  exact (hinv.expanded goal.1 goal.2 (key goal k hw) (walk_enterable hw)).1 ⟨rfl, rfl⟩

theorem inv_found {grid0 : Grid} {init goal : Int × Int} {R C : Nat} {openv : List Node}
    {grid : Grid} (hinv : Inv grid0 init goal R C openv grid) {curr : Node} {rest : List Node}
    (hperm : (rest ++ [curr]).Perm openv) (hg : curr.x = goal.1 ∧ curr.y = goal.2)
    {grid1 : Grid} (hset : setCell grid curr.x curr.y State.path = some grid1) :
    ∃ grid2 grid3, setCell grid1 init.1 init.2 State.start = some grid2 ∧
      setCell grid2 goal.1 goal.2 State.finish = some grid3 ∧
      Found grid0 init goal R C grid3 ∧
      countCells isMarked grid3 = countCells isMarked grid1 := by
  have hcm : curr ∈ openv := hperm.subset (by simp)
  have hcc := hinv.open_closed curr hcm
  obtain ⟨kc, hkc, hwc⟩ := hinv.open_walk curr hcm
  have hgoal : (curr.x, curr.y) = goal := Prod.ext hg.1 hg.2
  rw [hgoal] at hwc
  have hcount1 : countCells isPath grid1 = countCells isPath grid + 1 := by
    have := countCells_setCell isPath hcc hset
    simpa [isPath] using this
  -- the start cell is `path` once the extracted cell is marked
  have hinit1 : cellAt grid1 init.1 init.2 = some State.path := by
    rcases hinv.init_state with h | ⟨n, hn, hx, hy⟩
    · rw [cellAt_setCell hset]
      split
      · rfl
      · exact h
    · have : curr = n := by
        rw [hn] at hcm
        simpa using hcm
      subst this
      rw [← hx, ← hy]
      exact cellAt_setCell_self hset
  obtain ⟨grid2, hset2⟩ := setCell_of_cellAt State.start hinit1
  have hgoal2 : ∃ t, cellAt grid2 goal.1 goal.2 = some t ∧ isMarked t = true := by
    rw [cellAt_setCell hset2]
    split
    · exact ⟨_, rfl, by decide⟩
    · rw [← hg.1, ← hg.2, cellAt_setCell_self hset]
      exact ⟨_, rfl, by decide⟩
  obtain ⟨t, ht, htm⟩ := hgoal2
  obtain ⟨grid3, hset3⟩ := setCell_of_cellAt State.finish ht
  have hm2 : countCells isMarked grid2 = countCells isMarked grid1 := by
    have := countCells_setCell isMarked hinit1 hset2
    simpa [isMarked] using this
  have hm3 : countCells isMarked grid3 = countCells isMarked grid2 := by
    have := countCells_setCell isMarked ht hset3
    rw [htm] at this
    simpa [isMarked] using this
  have hpm : countCells isPath grid1 ≤ countCells isMarked grid1 :=
    countCells_mono (fun s hs => by simp [isPath] at hs; simp [isMarked, hs]) grid1
  refine ⟨grid2, grid3, hset2, hset3, ?_, by rw [hm3, hm2]⟩
  constructor
  · exact rect_setCell (rect_setCell (rect_setCell hinv.rect hset) hset2) hset3
  · exact cellAt_setCell_self hset3
  · intro hne
    rw [cellAt_setCell_ne hset3 hne]
    exact cellAt_setCell_self hset2
  · refine ⟨kc, hwc, ?_⟩
    have := hinv.open_g curr hcm
    rw [hkc] at this
    have h2 : kc ≤ countCells isPath grid := by exact_mod_cast this
    omega
  · intro a b
    rw [cellAt_setCell hset3]
    split
    · rename_i hab
      right
      obtain ⟨rfl, rfl⟩ := hab
      exact ⟨walk_enterable hwc, Or.inr (Or.inr (Or.inr rfl))⟩
    · rw [cellAt_setCell hset2]
      split
      · rename_i hab
        right
        exact ⟨Or.inl hab, Or.inr (Or.inr (Or.inl rfl))⟩
      · rw [cellAt_setCell hset]
        split
        · rename_i hab
          right
          obtain ⟨rfl, rfl⟩ := hab
          rw [hg.1, hg.2]
          exact ⟨walk_enterable hwc, Or.inr (Or.inl rfl)⟩
        · rcases hinv.frame a b with h | ⟨h1, h | h⟩
          · exact Or.inl h
          · exact Or.inr ⟨h1, Or.inl h⟩
          · exact Or.inr ⟨h1, Or.inr (Or.inl h)⟩

theorem search_iter_nil (stdsort : (Node → Node → Bool) → List Node → List Node)
    (init goal : Int × Int) (grid : Grid) :
    search_iter stdsort init goal [] grid = Step.ret [] := by
  simp [search_iter]

theorem search_iter_found {stdsort : (Node → Node → Bool) → List Node → List Node}
    {init goal : Int × Int} {openv : List Node} {grid grid1 grid2 grid3 : Grid} {curr : Node}
    (hne : openv ≠ []) (hlast : (cell_sort stdsort openv).getLast? = some curr)
    (hset : setCell grid curr.x curr.y State.path = some grid1)
    (hg : curr.x = goal.1 ∧ curr.y = goal.2)
    (hset2 : setCell grid1 init.1 init.2 State.start = some grid2)
    (hset3 : setCell grid2 goal.1 goal.2 State.finish = some grid3) :
    search_iter stdsort init goal openv grid = Step.ret grid3 := by
  have hset1 := hset
  rw [hg.1, hg.2] at hset1
  simp [search_iter, hne, hlast, hset1, hg, hset2, hset3]

theorem search_iter_next {stdsort : (Node → Node → Bool) → List Node → List Node}
    {init goal : Int × Int} {openv o2 : List Node} {grid grid1 g2 : Grid} {curr : Node}
    (hne : openv ≠ []) (hlast : (cell_sort stdsort openv).getLast? = some curr)
    (hset : setCell grid curr.x curr.y State.path = some grid1)
    (hg : ¬ (curr.x = goal.1 ∧ curr.y = goal.2))
    (hexp : expand_neighbors curr goal (cell_sort stdsort openv).dropLast grid1 = some (o2, g2)) :
    search_iter stdsort init goal openv grid = Step.next o2 g2 := by
  simp [search_iter, hne, hlast, hset, hg, hexp]

/-- One pass of the `while` loop from a state satisfying the invariant. -/
theorem search_iter_spec {stdsort : (Node → Node → Bool) → List Node → List Node}
    (hs : SortContract stdsort) {grid0 : Grid} {init goal : Int × Int} {R C : Nat}
    {openv : List Node} {grid : Grid} (hinv : Inv grid0 init goal R C openv grid) :
    (openv = [] ∧ search_iter stdsort init goal openv grid = Step.ret [] ∧
      ¬ ∃ k, Walk grid0 init goal k) ∨
    (openv ≠ [] ∧ ∃ res, search_iter stdsort init goal openv grid = Step.ret res ∧
      Found grid0 init goal R C res) ∨
    (openv ≠ [] ∧ ∃ o2 g2, search_iter stdsort init goal openv grid = Step.next o2 g2 ∧
      Inv grid0 init goal R C o2 g2 ∧
      countCells isPath g2 = countCells isPath grid + 1) := by
  by_cases hne : openv = []
  · subst hne
    exact Or.inl ⟨rfl, search_iter_nil _ _ _ _, inv_exhausted hinv⟩
  · right
    obtain ⟨curr, hlast, hperm, -, -⟩ := extract_spec hs hne
    have hcm : curr ∈ openv := hperm.subset (by simp)
    obtain ⟨grid1, hset⟩ := setCell_of_cellAt State.path (hinv.open_closed curr hcm)
    by_cases hg : curr.x = goal.1 ∧ curr.y = goal.2
    · left
      obtain ⟨grid2, grid3, hset2, hset3, hf, -⟩ := inv_found hinv hperm hg hset
      exact ⟨hne, grid3, search_iter_found hne hlast hset hg hset2 hset3, hf⟩
    · right
      obtain ⟨o2, g2, hexp, hinv2, hcnt⟩ := inv_step hinv hperm hg hset
      exact ⟨hne, o2, g2, search_iter_next hne hlast hset hg hexp, hinv2, hcnt⟩

/-- The loop, started from a state satisfying the invariant with enough fuel,
returns: the empty grid when no walk reaches the goal, a grid satisfying
`Found` otherwise. -/
theorem search_loop_spec {stdsort : (Node → Node → Bool) → List Node → List Node}
    (hs : SortContract stdsort) {grid0 : Grid} {init goal : Int × Int} {R C : Nat} :
    ∀ (fuel : Nat) (openv : List Node) (grid : Grid),
      Inv grid0 init goal R C openv grid →
      R * C + 1 ≤ fuel + countCells isPath grid →
      (search_loop stdsort init goal fuel openv grid = Outcome.returned [] ∧
        ¬ ∃ k, Walk grid0 init goal k) ∨
      (∃ res, search_loop stdsort init goal fuel openv grid = Outcome.returned res ∧
        Found grid0 init goal R C res) := by
  intro fuel
  induction fuel with
  | zero =>
    intro openv grid hinv hf
    have := countCells_le isPath hinv.rect
    omega
  | succ fuel ih =>
    intro openv grid hinv hf
    rcases search_iter_spec hs hinv with ⟨-, hit, hno⟩ | ⟨-, res, hit, hfound⟩ |
      ⟨-, o2, g2, hit, hinv2, hcnt⟩
    · left
      exact ⟨by simp [search_loop, hit], hno⟩
    · right
      exact ⟨res, by simp [search_loop, hit], hfound⟩
    · have := ih o2 g2 hinv2 (by omega)
      simpa [search_loop, hit] using this

/-- The function `search` on a rectangular grid with an in-bounds start, run
with at least `R * C + 1` units of fuel. -/
theorem search_spec {stdsort : (Node → Node → Bool) → List Node → List Node}
    (hs : SortContract stdsort) {grid0 : Grid} {R C : Nat} (hr : Rect grid0 R C)
    {init : Int × Int} (hi : InBounds R C init) (goal : Int × Int) {fuel : Nat}
    (hfuel : R * C + 1 ≤ fuel) :
    (search stdsort fuel grid0 init goal = Outcome.returned [] ∧
      ¬ ∃ k, Walk grid0 init goal k) ∨
    (∃ res, search stdsort fuel grid0 init goal = Outcome.returned res ∧
      Found grid0 init goal R C res) := by
  obtain ⟨grid1, hadd, hinv, -⟩ := inv_init init goal hr hi
  have := search_loop_spec hs fuel _ grid1 hinv (by omega)
  simpa [search, hadd] using this

theorem heuristic_step (a b c d : Int) {e : Int × Int} (he : e ∈ deltas) :
    heuristic a b (c + e.1) (d + e.2) ≤ heuristic a b c d + 1 := by
  simp only [deltas, List.mem_cons, List.mem_singleton, List.not_mem_nil, or_false] at he
  unfold heuristic
  rcases he with rfl | rfl | rfl | rfl <;> simp only <;> omega

/-- A walk has at least as many steps as the Manhattan distance between its ends. -/
theorem walk_ge_heuristic {grid : Grid} {init c : Int × Int} {k : Nat}
    (h : Walk grid init c k) : heuristic init.1 init.2 c.1 c.2 ≤ (k : Int) := by
  induction h with
  | base => simp [heuristic]
  | step d hw hd he ih =>
    rename_i c k
    have := heuristic_step init.1 init.2 c.1 c.2 hd
    push_cast
    omega

theorem cellAt_allEmpty {grid : Grid} {R C : Nat} (hr : Rect grid R C) (he : AllEmpty grid)
    {c : Int × Int} (hc : InBounds R C c) : cellAt grid c.1 c.2 = some State.empty := by
  obtain ⟨t, ht⟩ := cellAt_of_inBounds hr hc
  obtain ⟨-, -, row, hrow, hcell⟩ := cellAt_eq_some ht
  rw [ht, he row (List.getElem?_mem hrow) t (List.getElem?_mem hcell)]

/-- In a grid without obstacles a walk of Manhattan length joins any two cells. -/
theorem walk_allEmpty {grid : Grid} {R C : Nat} (hr : Rect grid R C) (he : AllEmpty grid)
    {init : Int × Int} (hi : InBounds R C init) :
    ∀ (n : Nat) (c : Int × Int), InBounds R C c → heuristic init.1 init.2 c.1 c.2 = (n : Int) →
      Walk grid init c n := by
  intro n
  induction n with
  | zero =>
    intro c _ hn
    have : c = init := by
      unfold heuristic at hn
      exact Prod.ext (by omega) (by omega)
    rw [this]
    exact Walk.base
  | succ n ih =>
    intro c hc hn
    obtain ⟨hi0, hi1, hi2, hi3⟩ := hi
    obtain ⟨hc0, hc1, hc2, hc3⟩ := id hc
    have hce := cellAt_allEmpty hr he hc
    unfold heuristic at hn
    -- step back from `c` towards `init`
    have hback : ∃ d ∈ deltas, InBounds R C (c.1 - d.1, c.2 - d.2) ∧
        heuristic init.1 init.2 (c.1 - d.1) (c.2 - d.2) = (n : Int) := by
      by_cases h1 : init.1 < c.1
      · refine ⟨(1, 0), by simp [deltas], ?_, ?_⟩
        · unfold InBounds; simp only [sub_zero]; omega
        · unfold heuristic; simp only [sub_zero]; omega
      · by_cases h2 : c.1 < init.1
        · refine ⟨(-1, 0), by simp [deltas], ?_, ?_⟩
          · unfold InBounds; simp only [sub_zero, sub_neg_eq_add]; omega
          · unfold heuristic; simp only [sub_zero, sub_neg_eq_add]; omega
        · by_cases h3 : init.2 < c.2
          · refine ⟨(0, 1), by simp [deltas], ?_, ?_⟩
            · unfold InBounds; simp only [sub_zero]; omega
            · unfold heuristic; simp only [sub_zero]; omega
          · refine ⟨(0, -1), by simp [deltas], ?_, ?_⟩
            · unfold InBounds; simp only [sub_zero, sub_neg_eq_add]; omega
            · unfold heuristic; simp only [sub_zero, sub_neg_eq_add]; omega
    obtain ⟨d, hd, hb, hh⟩ := hback
    have hw := ih (c.1 - d.1, c.2 - d.2) hb hh
    have hstep := Walk.step d hw hd (by simpa using hce)
    simpa using hstep

theorem neighbours_eq_map (x y : Int) :
    neighbours x y = deltas.map (fun d => (x + d.1, y + d.2)) := by
  simp [neighbours, deltas, sub_eq_add_neg]

theorem validDeltas_map (x y g : Int) (goal : Int × Int) (grid : Grid) :
    (validDeltas x y grid deltas).map (nodeAt x y g goal) =
      ((neighbours x y).filter
        (fun c => decide (check_valid_cell c.1 c.2 grid = some true))).map
        (fun c => (⟨c.1, c.2, g + 1, heuristic c.1 c.2 goal.1 goal.2⟩ : Node)) := by
  rw [neighbours_eq_map, List.filter_map, List.map_map]
  rfl

theorem found_ne_nil {grid0 : Grid} {init goal : Int × Int} {R C : Nat} {res : Grid}
    (hi : InBounds R C init) (hf : Found grid0 init goal R C res) : res ≠ [] := by
  intro h
  have := hf.rect.1
  rw [h] at this
  obtain ⟨h0, h1, -, -⟩ := hi
  simp at this
  omega

theorem neg_mem_deltas {d : Int × Int} (hd : d ∈ deltas) : (-d.1, -d.2) ∈ deltas := by
  simp only [deltas, List.mem_cons, List.mem_singleton, List.not_mem_nil, or_false] at hd
  rcases hd with rfl | rfl | rfl | rfl <;> decide

/-- No walk enters a goal all of whose neighbours are outside the grid or
obstacles other than the start cell. -/
theorem no_walk_of_enclosed {grid : Grid} {R C : Nat} (hr : Rect grid R C)
    {init goal : Int × Int} (hi : InBounds R C init) (hne : goal ≠ init)
    (hblock : ∀ d ∈ deltas, cellAt grid (goal.1 + d.1) (goal.2 + d.2) = none ∨
      (cellAt grid (goal.1 + d.1) (goal.2 + d.2) = some State.obstacle ∧
        (goal.1 + d.1, goal.2 + d.2) ≠ init)) :
    ¬ ∃ k, Walk grid init goal k := by
  rintro ⟨k, hw⟩
  generalize hgc : goal = c at hw
  cases hw with
  | base => exact hne hgc
  | step d hw hd he =>
    rename_i c0 k0
    have hen := walk_enterable hw
    have hc0 : goal.1 + (-d.1) = c0.1 ∧ goal.2 + (-d.2) = c0.2 := by
      rw [hgc]
      constructor <;> simp
    have hb := hblock (-d.1, -d.2) (neg_mem_deltas hd)
    simp only at hb
    rw [hc0.1, hc0.2] at hb
    rcases hb with hb | ⟨hb, hni⟩
    · rcases hen with ⟨h1, h2⟩ | hen
      · obtain ⟨t, ht⟩ := cellAt_of_inBounds hr hi
        rw [h1, h2, ht] at hb
        simp at hb
      · rw [hen] at hb; simp at hb
    · rcases hen with ⟨h1, h2⟩ | hen
      · exact hni (Prod.ext h1 h2)
      · rw [hen] at hb; simp at hb

theorem cell_sort_singleton {stdsort : (Node → Node → Bool) → List Node → List Node}
    (hs : SortContract stdsort) (n : Node) : cell_sort stdsort [n] = [n] :=
  List.perm_singleton.1 (hs [n]).1

/-- What `search` does when start and goal are the same in-bounds cell `s`, on
any grid: one pass of the loop, four writes to the cell `s`. -/
theorem search_same_cell {stdsort : (Node → Node → Bool) → List Node → List Node}
    (hs : SortContract stdsort) {grid : Grid} {s : Int × Int} {t : State}
    (hin : cellAt grid s.1 s.2 = some t) :
    ∃ res, (∀ fuel, search stdsort (fuel + 1) grid s s = Outcome.returned res) ∧
      res.map List.length = grid.map List.length ∧
      ∀ x y, cellAt res x y = if x = s.1 ∧ y = s.2 then some State.finish else cellAt grid x y := by
  obtain ⟨g1, h1⟩ := setCell_of_cellAt State.closed hin
  obtain ⟨g2, h2⟩ := setCell_of_cellAt State.path (cellAt_setCell_self h1)
  obtain ⟨g3, h3⟩ := setCell_of_cellAt State.start (cellAt_setCell_self h2)
  obtain ⟨g4, h4⟩ := setCell_of_cellAt State.finish (cellAt_setCell_self h3)
  have hiter : search_iter stdsort s s [⟨s.1, s.2, 0, heuristic s.1 s.2 s.1 s.2⟩] g1
      = Step.ret g4 := by
    simp [search_iter, cell_sort_singleton hs, h2, h3, h4]
  refine ⟨g4, fun fuel => by simp [search, add_to_open, h1, search_loop, hiter], ?_, ?_⟩
  · rw [setCell_map_length h4, setCell_map_length h3, setCell_map_length h2,
      setCell_map_length h1]
  · intro x y
    rw [cellAt_setCell h4]
    split
    · rfl
    · rename_i hxy
      rw [cellAt_setCell_ne h3 hxy, cellAt_setCell_ne h2 hxy, cellAt_setCell_ne h1 hxy]

theorem orderedInsert_all_not {α : Type} (r : α → α → Prop) [DecidableRel r] (a : α) :
    ∀ l : List α, (∀ b ∈ l, ¬ r a b) → List.orderedInsert r a l = l ++ [a]
  | [], _ => rfl
  | b :: l, h => by
    have hb : ¬ r a b := h b (List.mem_cons_self _ _)
    have ih := orderedInsert_all_not r a l (fun c hc => h c (List.mem_cons_of_mem _ hc))
    simp [List.orderedInsert, hb, ih]

theorem orderedInsert_append_last {α : Type} (r : α → α → Prop) [DecidableRel r] (a c : α)
    (h : r a c) : ∀ l : List α,
      List.orderedInsert r a (l ++ [c]) = List.orderedInsert r a l ++ [c]
  | [] => by simp [List.orderedInsert, h]
  | b :: l => by
    have ih := orderedInsert_append_last r a c h l
    by_cases hb : r a b
    · simp [List.orderedInsert, hb]
    · simp [List.orderedInsert, hb, ih]

/-- An insertion sort moves to the back an element that no later element
precedes and that every earlier element may precede. -/
theorem insertionSort_lead {α : Type} (r : α → α → Prop) [DecidableRel r] (n : α)
    (l2 : List α) (h2 : ∀ b ∈ l2, ¬ r n b) :
    ∀ l1 : List α, (∀ a ∈ l1, r a n) →
      List.insertionSort r (l1 ++ n :: l2) = List.insertionSort r (l1 ++ l2) ++ [n]
  | [], _ => by
    simp only [List.nil_append, List.insertionSort]
    apply orderedInsert_all_not
    intro b hb
    exact h2 b ((List.perm_insertionSort r l2).subset hb)
  | a :: l1, h1 => by
    have ih := insertionSort_lead r n l2 h2 l1 (fun c hc => h1 c (List.mem_cons_of_mem _ hc))
    show List.orderedInsert r a (List.insertionSort r (l1 ++ n :: l2)) =
      List.orderedInsert r a (List.insertionSort r (l1 ++ l2)) ++ [n]
    rw [ih]
    exact orderedInsert_append_last r a n (h1 a (List.mem_cons_self _ _)) _

/-- The order-preserving sort extracts the last node of least f-value. -/
theorem stable_extract {l1 l2 : List Node} {n : Node} {F : Int}
    (h1 : ∀ a ∈ l1, F ≤ a.g + a.h) (h2 : ∀ a ∈ l2, F < a.g + a.h) (hn : n.g + n.h = F) :
    ∃ rest, cell_sort stable_sort_model (l1 ++ n :: l2) = rest ++ [n] ∧
      rest.Perm (l1 ++ l2) := by
  refine ⟨List.insertionSort (fun a b => compare b a = false) (l1 ++ l2), ?_,
    List.perm_insertionSort _ _⟩
  unfold cell_sort stable_sort_model
  apply insertionSort_lead
  · intro b hb
    rw [compare_eq_false_iff]
    have := h2 b hb
    omega
  · intro a ha
    rw [compare_eq_false_iff]
    have := h1 a ha
    omega

theorem exists_last_split {α : Type} (P : α → Prop) :
    ∀ l : List α, (∃ a ∈ l, P a) →
      ∃ m1 a m2, l = m1 ++ a :: m2 ∧ P a ∧ ∀ b ∈ m2, ¬ P b
  | [], h => by simp at h
  | c :: l, h => by
    by_cases hl : ∃ a ∈ l, P a
    · obtain ⟨m1, a, m2, hsplit, ha, hm2⟩ := exists_last_split P l hl
      exact ⟨c :: m1, a, m2, by simp [hsplit], ha, hm2⟩
    · obtain ⟨a, ha, hpa⟩ := h
      rcases List.mem_cons.1 ha with rfl | ha1
      · exact ⟨[], a, l, rfl, hpa, fun b hb hpb => hl ⟨b, hb, hpb⟩⟩
      · exact absurd ⟨a, ha1, hpa⟩ hl

theorem heuristic_step_cases (x y : Int) (goal : Int × Int) {d : Int × Int} (hd : d ∈ deltas) :
    heuristic (x + d.1) (y + d.2) goal.1 goal.2 = heuristic x y goal.1 goal.2 - 1 ∨
    heuristic (x + d.1) (y + d.2) goal.1 goal.2 = heuristic x y goal.1 goal.2 + 1 := by
  simp only [deltas, List.mem_cons, List.mem_singleton, List.not_mem_nil, or_false] at hd
  unfold heuristic
  rcases hd with rfl | rfl | rfl | rfl <;> simp only <;> omega

theorem exists_step_towards {R C : Nat} {x y : Int} {goal : Int × Int}
    (hc : InBounds R C (x, y)) (hg : InBounds R C goal) (hne : ¬ (x = goal.1 ∧ y = goal.2)) :
    ∃ d ∈ deltas, InBounds R C (x + d.1, y + d.2) ∧
      heuristic (x + d.1) (y + d.2) goal.1 goal.2 = heuristic x y goal.1 goal.2 - 1 := by
  obtain ⟨hc0, hc1, hc2, hc3⟩ := hc
  obtain ⟨hg0, hg1, hg2, hg3⟩ := hg
  simp only at hc0 hc1 hc2 hc3
  by_cases h1 : x < goal.1
  · refine ⟨(1, 0), by simp [deltas], ?_, ?_⟩
    · unfold InBounds; simp only [add_zero]; omega
    · unfold heuristic; simp only [add_zero]; omega
  · by_cases h2 : goal.1 < x
    · refine ⟨(-1, 0), by simp [deltas], ?_, ?_⟩
      · unfold InBounds; simp only [add_zero]; omega
      · unfold heuristic; simp only [add_zero]; omega
    · by_cases h3 : y < goal.2
      · refine ⟨(0, 1), by simp [deltas], ?_, ?_⟩
        · unfold InBounds; simp only [add_zero]; omega
        · unfold heuristic; simp only [add_zero]; omega
      · refine ⟨(0, -1), by simp [deltas], ?_, ?_⟩
        · unfold InBounds; simp only [add_zero]; omega
        · unfold heuristic; simp only [add_zero]; omega

theorem countCells_congr {p q : State → Bool} {grid : Grid}
    (h : ∀ x y s, cellAt grid x y = some s → p s = q s) :
    countCells p grid = countCells q grid := by
  unfold countCells
  congr 1
  apply List.map_congr_left
  intro row hrow
  obtain ⟨i, hi⟩ := List.mem_iff_getElem?.1 hrow
  apply List.countP_congr
  intro s hs
  obtain ⟨j, hj⟩ := List.mem_iff_getElem?.1 hs
  have hc : cellAt grid (i : Int) (j : Int) = some s := by
    simp [cellAt, hi, hj]
  rw [h _ _ s hc]

/-- A pass of the loop under the order-preserving sort, from a state with a
leading node: either the leading node is the goal and exactly `F + 1` cells end
up marked, or the pass ends in a state with a leading node again. -/
theorem lead_step {grid0 : Grid} {init goal : Int × Int} {R C : Nat} {openv : List Node}
    {grid : Grid} {F : Int} (hi : InBounds R C init) (hg : InBounds R C goal)
    (hinv : Inv grid0 init goal R C openv grid) (hlead : Lead goal F openv grid) :
    (∃ res, search_iter stable_sort_model init goal openv grid = Step.ret res ∧ res ≠ [] ∧
      (countCells isMarked res : Int) = F + 1) ∨
    (∃ o2 g2, search_iter stable_sort_model init goal openv grid = Step.next o2 g2 ∧
      Inv grid0 init goal R C o2 g2 ∧ Lead goal F o2 g2 ∧
      countCells isPath g2 = countCells isPath grid + 1) := by
  obtain ⟨l1, n, l2, hopen, h1, h2, hnF, hng, hheur, hcells⟩ := hlead
  obtain ⟨rest, hsort, hrperm⟩ := stable_extract h1 h2 hnF
  subst hopen
  have hne : l1 ++ n :: l2 ≠ [] := by simp
  have hlast : (cell_sort stable_sort_model (l1 ++ n :: l2)).getLast? = some n := by
    rw [hsort]; simp
  have hdrop : (cell_sort stable_sort_model (l1 ++ n :: l2)).dropLast = rest := by
    rw [hsort]; simp
  have hperm : (rest ++ [n]).Perm (l1 ++ n :: l2) := by
    rw [← hsort]; exact (stable_sort_model_contract _).1
  have hcm : n ∈ l1 ++ n :: l2 := by simp
  have hncl := hinv.open_closed n hcm
  have hnh := hinv.open_h n hcm
  obtain ⟨grid1, hset⟩ := setCell_of_cellAt State.path hncl
  have hcount1 : countCells isPath grid1 = countCells isPath grid + 1 := by
    have := countCells_setCell isPath hncl hset
    simpa [isPath] using this
  by_cases hgoal : n.x = goal.1 ∧ n.y = goal.2
  · left
    obtain ⟨grid2, grid3, hset2, hset3, hf, hcnt⟩ := inv_found hinv hperm hgoal hset
    refine ⟨grid3, search_iter_found hne hlast hset hgoal hset2 hset3, found_ne_nil hi hf, ?_⟩
    have hmp : countCells isMarked grid1 = countCells isPath grid1 := by
      apply countCells_congr
      intro x y s hs
      rw [cellAt_setCell hset] at hs
      split at hs
      · simp at hs; subst hs; rfl
      · rcases hcells x y s hs with rfl | rfl | rfl <;> rfl
    have hh0 : n.h = 0 := by
      rw [hnh, hgoal.1, hgoal.2]
      simp [heuristic]
    rw [hcnt, hmp, hcount1]
    push_cast
    omega
  · right
    obtain ⟨o2, g2, hexp, hinv2, hcnt⟩ := inv_step hinv hperm hgoal hset
    have hit : search_iter stable_sort_model init goal (l1 ++ n :: l2) grid = Step.next o2 g2 :=
      search_iter_next hne hlast hset hgoal (by rw [hdrop]; exact hexp)
    refine ⟨o2, g2, hit, hinv2, ?_, hcnt⟩
    have hr1 : Rect grid1 R C := rect_setCell hinv.rect hset
    obtain ⟨ho2, -, -, -⟩ := expand_loop_spec n.x n.y n.g goal deltas deltas_nodup
      rest grid1 o2 g2 hexp
    have hcases := expand_cell_cases hinv.rect hset hexp
    -- the nodes queued by this pass
    have hnew : ∀ b ∈ (validDeltas n.x n.y grid1 deltas).map (nodeAt n.x n.y n.g goal),
        b.g = n.g + 1 ∧ (b.h = n.h - 1 ∨ b.h = n.h + 1) := by
      intro b hb
      obtain ⟨e, he, rfl⟩ := List.mem_map.1 hb
      refine ⟨rfl, ?_⟩
      have := heuristic_step_cases n.x n.y goal (mem_validDeltas.1 he).1
      rw [hnh]
      exact this
    -- one of them is a step towards the goal
    obtain ⟨d, hd, hdb, hdh⟩ := exists_step_towards (inBounds_of_cellAt hinv.rect hncl) hg hgoal
    have hdne : ¬ (n.x + d.1 = n.x ∧ n.y + d.2 = n.y) := by
      rintro ⟨e1, e2⟩
      rw [e1, e2] at hdh
      omega
    have hdv : d ∈ validDeltas n.x n.y grid1 deltas := by
      refine mem_validDeltas.2 ⟨hd, ?_⟩
      obtain ⟨s, hs⟩ := cellAt_of_inBounds hinv.rect hdb
      have hse : s = State.empty := by
        by_contra hse
        have := hheur _ _ s hs hse
        rw [hnh] at this
        omega
      rw [check_valid_cell_rect hr1, cellAt_setCell_ne hset hdne, hs, hse]
      simp
    have hex : ∃ a ∈ (validDeltas n.x n.y grid1 deltas).map (nodeAt n.x n.y n.g goal),
        a.g + a.h = F := by
      refine ⟨nodeAt n.x n.y n.g goal d, List.mem_map.2 ⟨d, hdv, rfl⟩, ?_⟩
      simp only [nodeAt]
      rw [hdh, ← hnh]
      omega
    obtain ⟨m1, a, m2, hsplit, haF, hm2⟩ := exists_last_split (fun a => a.g + a.h = F) _ hex
    have ham : a ∈ (validDeltas n.x n.y grid1 deltas).map (nodeAt n.x n.y n.g goal) := by
      rw [hsplit]; simp
    have hag := (hnew a ham).1
    refine ⟨rest ++ m1, a, m2, by rw [ho2, hsplit, List.append_assoc], ?_, ?_, haF, ?_, ?_, ?_⟩
    · intro b hb
      rcases List.mem_append.1 hb with hb | hb
      · rcases List.mem_append.1 (hrperm.subset hb) with hb1 | hb1
        · exact h1 b hb1
        · exact le_of_lt (h2 b hb1)
      · have := hnew b (by rw [hsplit]; simp [hb])
        omega
    · intro b hb
      have hb1 := hnew b (by rw [hsplit]; simp [hb])
      have hb2 := hm2 b hb
      simp only at hb2
      omega
    · rw [hag, hcnt, hng]
      push_cast
      rfl
    · intro x y s hs hse
      have hah : a.h = n.h - 1 := by omega
      rw [hah]
      rcases hcases x y with ⟨e1, e2, -⟩ | ⟨e, he, e1, e2, -, -⟩ | ⟨-, -, h5⟩
      · rw [e1, e2, ← hnh]; omega
      · have := heuristic_step_cases n.x n.y goal (mem_validDeltas.1 he).1
        rw [e1, e2, hnh]
        omega
      · rw [h5] at hs
        have := hheur x y s hs hse
        omega
    · intro x y s hs
      rcases hcases x y with ⟨-, -, h3⟩ | ⟨e, -, -, -, -, h4⟩ | ⟨-, -, h5⟩
      · rw [h3] at hs; simp at hs; subst hs; exact Or.inr (Or.inr rfl)
      · rw [h4] at hs; simp at hs; subst hs; exact Or.inr (Or.inl rfl)
      · rw [h5] at hs; exact hcells x y s hs

theorem lead_loop {grid0 : Grid} {init goal : Int × Int} {R C : Nat} {F : Int}
    (hi : InBounds R C init) (hg : InBounds R C goal) :
    ∀ (fuel : Nat) (openv : List Node) (grid : Grid),
      Inv grid0 init goal R C openv grid → Lead goal F openv grid →
      R * C + 1 ≤ fuel + countCells isPath grid →
      ∃ res, search_loop stable_sort_model init goal fuel openv grid = Outcome.returned res ∧
        res ≠ [] ∧ (countCells isMarked res : Int) = F + 1 := by
  intro fuel
  induction fuel with
  | zero =>
    intro openv grid hinv _ hf
    have := countCells_le isPath hinv.rect
    omega
  | succ fuel ih =>
    intro openv grid hinv hlead hf
    rcases lead_step hi hg hinv hlead with ⟨res, hit, hne, hcnt⟩ | ⟨o2, g2, hit, hinv2, hlead2, hcnt⟩
    · exact ⟨res, by simp [search_loop, hit], hne, hcnt⟩
    · obtain ⟨res, hrun, hne, hres⟩ := ih o2 g2 hinv2 hlead2 (by omega)
      exact ⟨res, by simp [search_loop, hit, hrun], hne, hres⟩

theorem cellAt_of_allEmpty {grid : Grid} (he : AllEmpty grid) {x y : Int} {s : State}
    (h : cellAt grid x y = some s) : s = State.empty := by
  obtain ⟨-, -, row, hrow, hcell⟩ := cellAt_eq_some h
  exact he row (List.getElem?_mem hrow) s (List.getElem?_mem hcell)

theorem countCells_allEmpty {grid : Grid} (he : AllEmpty grid) : countCells isPath grid = 0 := by
  have h : countCells isPath grid = countCells (fun _ => false) grid :=
    countCells_congr (fun x y s hs => by rw [cellAt_of_allEmpty he hs]; rfl)
  rw [h]
  unfold countCells
  induction grid with
  | nil => rfl
  | cons r rest ih =>
    have hrest : AllEmpty rest := fun row hrow => he row (List.mem_cons_of_mem _ hrow)
    have := ih hrest (countCells_congr (fun x y s hs => by rw [cellAt_of_allEmpty hrest hs]; rfl))
    simp only [List.map_cons, List.sum_cons, this]
    simp

theorem heuristic_eq_natAbs (init goal : Int × Int) :
    heuristic init.1 init.2 goal.1 goal.2 =
      (((init.1 - goal.1).natAbs + (init.2 - goal.2).natAbs : Nat) : Int) := by
  simp [heuristic]

theorem exists_shortestWalk {grid : Grid} {init goal : Int × Int}
    (h : ∃ k, Walk grid init goal k) : ∃ d, ShortestWalk grid init goal d := by
  classical
  exact ⟨Nat.find h, Nat.find_spec h, fun k hk => Nat.find_min' h hk⟩

theorem loop_passes_nil (stdsort : (Node → Node → Bool) → List Node → List Node)
    (init goal : Int × Int) (fuel : Nat) (grid : Grid) :
    loop_passes stdsort init goal fuel [] grid = [] := by
  cases fuel <;> simp [loop_passes]

theorem loop_passes_next {stdsort : (Node → Node → Bool) → List Node → List Node}
    {init goal : Int × Int} {openv o2 : List Node} {grid g2 : Grid} {curr : Node}
    (hne : openv ≠ []) (hlast : (cell_sort stdsort openv).getLast? = some curr)
    (hit : search_iter stdsort init goal openv grid = Step.next o2 g2) (fuel : Nat) :
    loop_passes stdsort init goal (fuel + 1) openv grid =
      ⟨openv, grid, curr⟩ :: loop_passes stdsort init goal fuel o2 g2 := by
  simp [loop_passes, hne, hlast, hit]

theorem loop_passes_ret {stdsort : (Node → Node → Bool) → List Node → List Node}
    {init goal : Int × Int} {openv : List Node} {grid res : Grid} {curr : Node}
    (hne : openv ≠ []) (hlast : (cell_sort stdsort openv).getLast? = some curr)
    (hit : search_iter stdsort init goal openv grid = Step.ret res) (fuel : Nat) :
    loop_passes stdsort init goal (fuel + 1) openv grid = [⟨openv, grid, curr⟩] := by
  simp [loop_passes, hne, hlast, hit]

/-- The extracted node has the least f-value of the open vector. -/
theorem extract_least {stdsort : (Node → Node → Bool) → List Node → List Node}
    (hs : SortContract stdsort) {openv : List Node} (hne : openv ≠ []) :
    ∃ curr, (cell_sort stdsort openv).getLast? = some curr ∧
      ((cell_sort stdsort openv).dropLast ++ [curr]).Perm openv ∧
      ∀ n ∈ openv, curr.g + curr.h ≤ n.g + n.h := by
  obtain ⟨curr, hlast, hperm, hmin, -⟩ := extract_spec hs hne
  refine ⟨curr, hlast, hperm, ?_⟩
  intro n hn
  have := hperm.symm.subset hn
  rcases List.mem_append.1 this with h | h
  · exact hmin n h
  · simp at h; subst h; exact le_refl _

/-- The three ways a pass of the loop can go from a state that satisfies the
invariant: the open vector is empty; the goal node is extracted and the search
returns; another node is extracted and expanded. -/
theorem pass_cases {stdsort : (Node → Node → Bool) → List Node → List Node}
    (hs : SortContract stdsort) {grid0 : Grid} {init goal : Int × Int} {R C : Nat}
    {openv : List Node} {grid : Grid} (hinv : Inv grid0 init goal R C openv grid) :
    (openv = [] ∧ search_iter stdsort init goal openv grid = Step.ret []) ∨
    (∃ curr res, openv ≠ [] ∧ (cell_sort stdsort openv).getLast? = some curr ∧
      search_iter stdsort init goal openv grid = Step.ret res ∧
      Found grid0 init goal R C res ∧ PassFound init goal openv grid curr res) ∨
    (∃ curr o2 g2, openv ≠ [] ∧ (cell_sort stdsort openv).getLast? = some curr ∧
      search_iter stdsort init goal openv grid = Step.next o2 g2 ∧
      Inv grid0 init goal R C o2 g2 ∧
      countCells isPath g2 = countCells isPath grid + 1 ∧
      PassNext goal openv grid curr o2 g2) := by
  by_cases hne : openv = []
  · subst hne
    exact Or.inl ⟨rfl, search_iter_nil _ _ _ _⟩
  · right
    obtain ⟨curr, hlast, hperm, hleast⟩ := extract_least hs hne
    have hcm : curr ∈ openv := hperm.subset (by simp)
    have hcc := hinv.open_closed curr hcm
    obtain ⟨grid1, hset⟩ := setCell_of_cellAt State.path hcc
    by_cases hg : curr.x = goal.1 ∧ curr.y = goal.2
    · left
      obtain ⟨grid2, grid3, hset2, hset3, hf, -⟩ := inv_found hinv hperm hg hset
      refine ⟨curr, grid3, hne, hlast, search_iter_found hne hlast hset hg hset2 hset3, hf,
        hcm, hg, hleast, ?_⟩
      intro x y
      by_cases h1 : x = goal.1 ∧ y = goal.2
      · left
        refine ⟨h1.1, h1.2, ?_⟩
        rw [h1.1, h1.2]
        exact cellAt_setCell_self hset3
      · right
        by_cases h2 : x = init.1 ∧ y = init.2
        · left
          refine ⟨h2.1, h2.2, ?_⟩
          rw [cellAt_setCell_ne hset3 h1, h2.1, h2.2]
          exact cellAt_setCell_self hset2
        · right
          refine ⟨h1, h2, ?_⟩
          rw [cellAt_setCell_ne hset3 h1, cellAt_setCell_ne hset2 h2]
          apply cellAt_setCell_ne hset
          rw [hg.1, hg.2]
          exact h1
    · right
      obtain ⟨o2, g2, hexp, hinv2, hcnt⟩ := inv_step hinv hperm hg hset
      obtain ⟨ho2, -, -, -⟩ := expand_loop_spec curr.x curr.y curr.g goal deltas deltas_nodup
        _ grid1 o2 g2 hexp
      have hcases := expand_cell_cases hinv.rect hset hexp
      obtain ⟨-, hsub, hnec, -, -⟩ := pop_facts hinv hperm
      refine ⟨curr, o2, g2, hne, hlast, search_iter_next hne hlast hset hg hexp, hinv2, hcnt,
        hcm, hg, hleast, ?_, ?_⟩
      · intro n hn
        rw [ho2] at hn
        rcases List.mem_append.1 hn with h | h
        · exact Or.inl ⟨hsub n h, hnec n h⟩
        · right
          obtain ⟨d, hd, rfl⟩ := List.mem_map.1 h
          refine ⟨d, (mem_validDeltas.1 hd).1, rfl, ?_⟩
          have he1 := check_valid_cell_true (mem_validDeltas.1 hd).2
          by_cases hc : curr.x + d.1 = curr.x ∧ curr.y + d.2 = curr.y
          · rw [cellAt_setCell hset, if_pos hc] at he1
            simp at he1
          · rw [cellAt_setCell_ne hset hc] at he1
            exact he1
      · intro x y
        rcases hcases x y with ⟨h1, h2, h3⟩ | ⟨e, -, -, -, h3, h4⟩ | ⟨h4, -, h5⟩
        · exact Or.inl ⟨h1, h2, h3⟩
        · exact Or.inr (Or.inl ⟨h3, h4⟩)
        · exact Or.inr (Or.inr ⟨h4, h5⟩)

/-- The passes of a run of `search` are those of the loop started after
`add_to_open` has queued and closed the start cell. -/
theorem search_passes_init {grid : Grid} {R C : Nat} (hr : Rect grid R C)
    {init : Int × Int} (hi : InBounds R C init) (goal : Int × Int) :
    ∃ grid1, setCell grid init.1 init.2 State.closed = some grid1 ∧
      Inv grid init goal R C [⟨init.1, init.2, 0, heuristic init.1 init.2 goal.1 goal.2⟩] grid1 ∧
      (∀ (stdsort : (Node → Node → Bool) → List Node → List Node) (fuel : Nat),
        search_passes stdsort fuel grid init goal = loop_passes stdsort init goal fuel
          [⟨init.1, init.2, 0, heuristic init.1 init.2 goal.1 goal.2⟩] grid1) ∧
      (∀ (stdsort : (Node → Node → Bool) → List Node → List Node) (fuel : Nat),
        search stdsort fuel grid init goal = search_loop stdsort init goal fuel
          [⟨init.1, init.2, 0, heuristic init.1 init.2 goal.1 goal.2⟩] grid1) := by
  obtain ⟨grid1, hadd, hinv, hset⟩ := inv_init init goal hr hi
  exact ⟨grid1, hset, hinv, fun stdsort fuel => by simp [search_passes, hadd],
    fun stdsort fuel => by simp [search, hadd]⟩

/-- Every pass of the loop starts from a state that satisfies the invariant and
extracts a node of least f-value from the open vector. -/
theorem loop_passes_inv {stdsort : (Node → Node → Bool) → List Node → List Node}
    (hs : SortContract stdsort) {grid0 : Grid} {init goal : Int × Int} {R C : Nat} :
    ∀ (fuel : Nat) (openv : List Node) (grid : Grid), Inv grid0 init goal R C openv grid →
      ∀ p ∈ loop_passes stdsort init goal fuel openv grid,
        Inv grid0 init goal R C p.openv p.grid ∧ p.curr ∈ p.openv ∧
        (∀ n ∈ p.openv, p.curr.g + p.curr.h ≤ n.g + n.h) := by
  intro fuel
  induction fuel with
  | zero => intro openv grid _ p hp; simp [loop_passes] at hp
  | succ fuel ih =>
    intro openv grid hinv p hp
    rcases pass_cases hs hinv with ⟨h0, -⟩ | ⟨curr, res, hne, hlast, hit, -, hpf⟩ |
      ⟨curr, o2, g2, hne, hlast, hit, hinv2, -, hpn⟩
    · rw [h0, loop_passes_nil] at hp
      simp at hp
    · rw [loop_passes_ret hne hlast hit] at hp
      simp at hp
      subst hp
      exact ⟨hinv, hpf.mem, hpf.least⟩
    · rw [loop_passes_next hne hlast hit] at hp
      rcases List.mem_cons.1 hp with rfl | hp
      · exact ⟨hinv, hpn.mem, hpn.least⟩
      · exact ih o2 g2 hinv2 p hp

/-- The number of extracting passes and the number of `path` cells together
never exceed the number of cells. -/
theorem loop_passes_length {stdsort : (Node → Node → Bool) → List Node → List Node}
    (hs : SortContract stdsort) {grid0 : Grid} {init goal : Int × Int} {R C : Nat} :
    ∀ (fuel : Nat) (openv : List Node) (grid : Grid), Inv grid0 init goal R C openv grid →
      (loop_passes stdsort init goal fuel openv grid).length + countCells isPath grid
        ≤ R * C := by
  intro fuel
  induction fuel with
  | zero =>
    intro openv grid hinv
    simpa [loop_passes] using countCells_le isPath hinv.rect
  | succ fuel ih =>
    intro openv grid hinv
    rcases pass_cases hs hinv with ⟨h0, -⟩ | ⟨curr, res, hne, hlast, hit, -, hpf⟩ |
      ⟨curr, o2, g2, hne, hlast, hit, hinv2, hcnt, hpn⟩
    · rw [h0, loop_passes_nil]
      simpa using countCells_le isPath hinv.rect
    · rw [loop_passes_ret hne hlast hit]
      have hcc := hinv.open_closed curr hpf.mem
      obtain ⟨grid1, hset⟩ := setCell_of_cellAt State.path hcc
      have h1 := countCells_setCell isPath hcc hset
      have h2 := countCells_le isPath (rect_setCell hinv.rect hset)
      simp [isPath] at h1
      simp only [List.length_singleton]
      omega
    · rw [loop_passes_next hne hlast hit]
      have := ih o2 g2 hinv2
      simp only [List.length_cons]
      omega

/-- With `R * C + 1` units of fuel or more the list of passes is that of the
whole run: more fuel adds no pass. -/
theorem loop_passes_complete {stdsort : (Node → Node → Bool) → List Node → List Node}
    (hs : SortContract stdsort) {grid0 : Grid} {init goal : Int × Int} {R C : Nat} :
    ∀ (fuel : Nat) (openv : List Node) (grid : Grid), Inv grid0 init goal R C openv grid →
      R * C + 1 ≤ fuel + countCells isPath grid →
      loop_passes stdsort init goal (fuel + 1) openv grid =
        loop_passes stdsort init goal fuel openv grid := by
  intro fuel
  induction fuel with
  | zero =>
    intro openv grid hinv hf
    have := countCells_le isPath hinv.rect
    omega
  | succ fuel ih =>
    intro openv grid hinv hf
    rcases pass_cases hs hinv with ⟨h0, -⟩ | ⟨curr, res, hne, hlast, hit, -, hpf⟩ |
      ⟨curr, o2, g2, hne, hlast, hit, hinv2, hcnt, hpn⟩
    · rw [h0, loop_passes_nil, loop_passes_nil]
    · rw [loop_passes_ret hne hlast hit, loop_passes_ret hne hlast hit]
    · rw [loop_passes_next hne hlast hit, loop_passes_next hne hlast hit,
        ih o2 g2 hinv2 (by omega)]

/-- A cell that is `path` at a loop test is `path` at every later loop test, and
a cell extracted in one pass is `path` at the loop test of every later pass. -/
theorem loop_passes_path {stdsort : (Node → Node → Bool) → List Node → List Node}
    (hs : SortContract stdsort) {grid0 : Grid} {init goal : Int × Int} {R C : Nat} :
    ∀ (fuel : Nat) (openv : List Node) (grid : Grid), Inv grid0 init goal R C openv grid →
      (∀ x y, cellAt grid x y = some State.path →
        ∀ q ∈ loop_passes stdsort init goal fuel openv grid,
          cellAt q.grid x y = some State.path) ∧
      (loop_passes stdsort init goal fuel openv grid).Pairwise
        (fun p q => cellAt q.grid p.curr.x p.curr.y = some State.path) := by
  intro fuel
  induction fuel with
  | zero => intro openv grid _; simp [loop_passes]
  | succ fuel ih =>
    intro openv grid hinv
    rcases pass_cases hs hinv with ⟨h0, -⟩ | ⟨curr, res, hne, hlast, hit, -, hpf⟩ |
      ⟨curr, o2, g2, hne, hlast, hit, hinv2, -, hpn⟩
    · rw [h0, loop_passes_nil]
      simp
    · rw [loop_passes_ret hne hlast hit]
      simp
    · rw [loop_passes_next hne hlast hit]
      obtain ⟨ih1, ih2⟩ := ih o2 g2 hinv2
      have hmono : ∀ x y, cellAt grid x y = some State.path →
          cellAt g2 x y = some State.path := by
        intro x y hp
        rcases hpn.cells x y with ⟨-, -, h⟩ | ⟨h, -⟩ | ⟨-, h⟩
        · exact h
        · rw [hp] at h; simp at h
        · rw [h]; exact hp
      have hcurr : cellAt g2 curr.x curr.y = some State.path := by
        rcases hpn.cells curr.x curr.y with ⟨-, -, h⟩ | ⟨h, -⟩ | ⟨h, -⟩
        · exact h
        · rw [hinv.open_closed curr hpn.mem] at h; simp at h
        · exact absurd ⟨rfl, rfl⟩ h
      constructor
      · intro x y hp q hq
        rcases List.mem_cons.1 hq with rfl | hq
        · exact hp
        · exact ih1 x y (hmono x y hp) q hq
      · rw [List.pairwise_cons]
        exact ⟨fun q hq => ih1 curr.x curr.y hcurr q hq, ih2⟩

/-- Once every node of the open vector has f-value at least `F`, so has every
node of every later open vector, and every node of an open vector has f-value
at least that of each node extracted before. -/
theorem loop_passes_f {stdsort : (Node → Node → Bool) → List Node → List Node}
    (hs : SortContract stdsort) {grid0 : Grid} {init goal : Int × Int} {R C : Nat} :
    ∀ (fuel : Nat) (openv : List Node) (grid : Grid) (F : Int),
      Inv grid0 init goal R C openv grid → (∀ n ∈ openv, F ≤ n.g + n.h) →
      (∀ q ∈ loop_passes stdsort init goal fuel openv grid, ∀ n ∈ q.openv, F ≤ n.g + n.h) ∧
      (loop_passes stdsort init goal fuel openv grid).Pairwise
        (fun p q => ∀ n ∈ q.openv, p.curr.g + p.curr.h ≤ n.g + n.h) := by
  intro fuel
  induction fuel with
  | zero => intro openv grid F _ _; simp [loop_passes]
  | succ fuel ih =>
    intro openv grid F hinv hF
    rcases pass_cases hs hinv with ⟨h0, -⟩ | ⟨curr, res, hne, hlast, hit, -, hpf⟩ |
      ⟨curr, o2, g2, hne, hlast, hit, hinv2, -, hpn⟩
    · rw [h0, loop_passes_nil]
      simp
    · rw [loop_passes_ret hne hlast hit]
      simpa using hF
    · rw [loop_passes_next hne hlast hit]
      have hch := hinv.open_h curr hpn.mem
      have h2 : ∀ n ∈ o2, curr.g + curr.h ≤ n.g + n.h := by
        intro n hn
        rcases hpn.nodes n hn with ⟨hm, -⟩ | ⟨d, hd, rfl, -⟩
        · exact hpn.least n hm
        · have := heuristic_step_cases curr.x curr.y goal hd
          simp only [nodeAt]
          rw [hch]
          omega
      obtain ⟨ih1, ih2⟩ := ih o2 g2 (curr.g + curr.h) hinv2 h2
      constructor
      · intro q hq n hn
        rcases List.mem_cons.1 hq with rfl | hq
        · exact hF n hn
        · have := ih1 q hq n hn
          have := hF curr hpn.mem
          omega
      · rw [List.pairwise_cons]
        exact ⟨fun q hq => ih1 q hq, ih2⟩

theorem pathWalk_mono {g g2 : Grid} {init c : Int × Int}
    (hmono : ∀ x y, cellAt g x y = some State.path → cellAt g2 x y = some State.path)
    (h : PathWalk g init c) : PathWalk g2 init c := by
  induction h with
  | base => exact PathWalk.base
  | step d _ hp hd ih => exact PathWalk.step d ih (hmono _ _ hp) hd

/-- A `PathWalk` laid out as a list of cells. -/
theorem pathWalk_route {g : Grid} {init c : Int × Int} (h : PathWalk g init c) :
    ∃ route : List (Int × Int), route.head? = some init ∧ route.getLast? = some c ∧
      route.Chain' (fun a b => ∃ d ∈ deltas, b = (a.1 + d.1, a.2 + d.2)) ∧
      ∀ a ∈ route.dropLast, cellAt g a.1 a.2 = some State.path := by
  induction h with
  | base => exact ⟨[init], rfl, rfl, List.chain'_singleton _, by simp⟩
  | step d hw hp hd ih =>
    rename_i c
    obtain ⟨route, hhead, hlast, hchain, hpath⟩ := ih
    obtain ⟨ys, hys⟩ := List.getLast?_eq_some_iff.1 hlast
    refine ⟨route ++ [(c.1 + d.1, c.2 + d.2)], ?_, ?_, ?_, ?_⟩
    · simp [hhead]
    · simp
    · refine hchain.append (List.chain'_singleton _) ?_
      intro x hx y hy
      rw [hlast] at hx
      simp at hx hy
      subst hx hy
      exact ⟨d, hd, rfl⟩
    · intro a ha
      rw [List.dropLast_concat] at ha
      rw [hys] at ha hpath
      rw [List.dropLast_concat] at hpath
      rcases List.mem_append.1 ha with h1 | h1
      · exact hpath a h1
      · simp at h1
        subst h1
        exact hp

/-- A successful run of the loop leaves a route of marked cells from the start
to the goal, when every node of the open vector is reached by a walk whose
earlier cells are `path`. -/
theorem search_loop_route {stdsort : (Node → Node → Bool) → List Node → List Node}
    (hs : SortContract stdsort) {grid0 : Grid} {init goal : Int × Int} {R C : Nat} :
    ∀ (fuel : Nat) (openv : List Node) (grid : Grid), Inv grid0 init goal R C openv grid →
      (∀ n ∈ openv, PathWalk grid init (n.x, n.y)) →
      ∀ res, search_loop stdsort init goal fuel openv grid = Outcome.returned res →
        res ≠ [] → MarkedRoute res init goal := by
  intro fuel
  induction fuel with
  | zero => intro openv grid _ _ res h; simp [search_loop] at h
  | succ fuel ih =>
    intro openv grid hinv hpw res hres hne
    rcases pass_cases hs hinv with ⟨-, hit⟩ | ⟨curr, res1, -, -, hit, -, hpf⟩ |
      ⟨curr, o2, g2, -, -, hit, hinv2, -, hpn⟩
    · simp [search_loop, hit] at hres
      exact absurd hres hne
    · simp [search_loop, hit] at hres
      subst hres
      have hw := hpw curr hpf.mem
      have hgoal : (curr.x, curr.y) = goal := Prod.ext hpf.at_goal.1 hpf.at_goal.2
      rw [hgoal] at hw
      obtain ⟨route, hhead, hlast, hchain, hpath⟩ := pathWalk_route hw
      refine ⟨route, hhead, hlast, hchain, ?_⟩
      obtain ⟨ys, hys⟩ := List.getLast?_eq_some_iff.1 hlast
      intro c hc
      rw [hys] at hc hpath
      rw [List.dropLast_concat] at hpath
      rcases hpf.cells c.1 c.2 with ⟨-, -, h⟩ | ⟨-, -, h⟩ | ⟨hng, -, h⟩
      · exact ⟨_, h, by decide⟩
      · exact ⟨_, h, by decide⟩
      · rcases List.mem_append.1 hc with h1 | h1
        · rw [hpath c h1] at h
          exact ⟨_, h, by decide⟩
        · simp at h1
          exact absurd ⟨by rw [h1], by rw [h1]⟩ hng
    · have hmono : ∀ x y, cellAt grid x y = some State.path →
          cellAt g2 x y = some State.path := by
        intro x y hp
        rcases hpn.cells x y with ⟨-, -, h⟩ | ⟨h, -⟩ | ⟨-, h⟩
        · exact h
        · rw [hp] at h; simp at h
        · rw [h]; exact hp
      have hcurr : cellAt g2 curr.x curr.y = some State.path := by
        rcases hpn.cells curr.x curr.y with ⟨-, -, h⟩ | ⟨h, -⟩ | ⟨h, -⟩
        · exact h
        · rw [hinv.open_closed curr hpn.mem] at h; simp at h
        · exact absurd ⟨rfl, rfl⟩ h
      have hpw2 : ∀ n ∈ o2, PathWalk g2 init (n.x, n.y) := by
        intro n hn
        rcases hpn.nodes n hn with ⟨hm, -⟩ | ⟨d, hd, rfl, -⟩
        · exact pathWalk_mono hmono (hpw n hm)
        · exact PathWalk.step d (pathWalk_mono hmono (hpw curr hpn.mem)) hcurr hd
      simp [search_loop, hit] at hres
      exact ih o2 g2 hinv2 hpw2 res hres hne

theorem loop_passes_head (stdsort : (Node → Node → Bool) → List Node → List Node)
    (init goal : Int × Int) (fuel : Nat) (openv : List Node) (grid : Grid) :
    ∀ q ∈ (loop_passes stdsort init goal fuel openv grid).head?,
      q.openv = openv ∧ q.grid = grid := by
  intro q hq
  cases fuel with
  | zero => simp [loop_passes] at hq
  | succ fuel =>
    unfold loop_passes at hq
    split at hq
    · simp at hq
    · split at hq
      · simp at hq
      · simp at hq
        subst hq
        exact ⟨rfl, rfl⟩

/-- From one pass to the next, every node of the open vector was already there
or is a neighbour of the node just expanded, with `g` one larger. -/
theorem loop_passes_parent {stdsort : (Node → Node → Bool) → List Node → List Node}
    (hs : SortContract stdsort) {grid0 : Grid} {init goal : Int × Int} {R C : Nat} :
    ∀ (fuel : Nat) (openv : List Node) (grid : Grid), Inv grid0 init goal R C openv grid →
      (loop_passes stdsort init goal fuel openv grid).Chain'
        (fun p q => ∀ n ∈ q.openv, n ∈ p.openv ∨
          ∃ d ∈ deltas, n.x = p.curr.x + d.1 ∧ n.y = p.curr.y + d.2 ∧ n.g = p.curr.g + 1) := by
  intro fuel
  induction fuel with
  | zero => intro openv grid _; simp [loop_passes]
  | succ fuel ih =>
    intro openv grid hinv
    rcases pass_cases hs hinv with ⟨h0, -⟩ | ⟨curr, res, hne, hlast, hit, -, hpf⟩ |
      ⟨curr, o2, g2, hne, hlast, hit, hinv2, -, hpn⟩
    · rw [h0, loop_passes_nil]
      exact List.chain'_nil
    · rw [loop_passes_ret hne hlast hit]
      exact List.chain'_singleton _
    · rw [loop_passes_next hne hlast hit]
      refine (ih o2 g2 hinv2).cons' ?_
      intro q hq n hn
      rw [(loop_passes_head stdsort init goal fuel o2 g2 q hq).1] at hn
      rcases hpn.nodes n hn with ⟨hm, -⟩ | ⟨d, hd, rfl, -⟩
      · exact Or.inl hm
      · exact Or.inr ⟨d, hd, rfl, rfl, rfl⟩

theorem wrap_int_of_isInt {v : Int} (h : IsInt v) : wrap_int v = v := by
  unfold IsInt at h
  unfold wrap_int
  omega

theorem wrap_int_isInt (v : Int) : IsInt (wrap_int v) := by
  unfold IsInt wrap_int
  omega

/-- Within the range where the distance fits in an `int`, the `int` version of
`heuristic` is the exact one. -/
theorem machine_heuristic_eq {x1 y1 x2 y2 : Int}
    (h : heuristic x1 y1 x2 y2 ≤ 2147483647) :
    Machine.heuristic x1 y1 x2 y2 = heuristic x1 y1 x2 y2 := by
  unfold heuristic at *
  unfold Machine.heuristic abs_int wrap_int
  split <;> split <;> omega

theorem machine_heuristic_isInt (x1 y1 x2 y2 : Int) :
    IsInt (Machine.heuristic x1 y1 x2 y2) :=
  wrap_int_isInt _

theorem heuristic_eq_abs (x1 y1 x2 y2 : Int) :
    heuristic x1 y1 x2 y2 = |x1 - x2| + |y1 - y2| := by
  unfold heuristic
  rw [Int.natCast_natAbs, Int.natCast_natAbs]

/-- When the two sums fit in an `int`, the `int` version of `compare` is the
exact one. -/
theorem machine_compare_eq {a b : Node} (ha : IsInt (a.g + a.h)) (hb : IsInt (b.g + b.h)) :
    Machine.compare a b = compare a b := by
  unfold Machine.compare compare
  simp only [wrap_int_of_isInt ha, wrap_int_of_isInt hb]

theorem machine_compare_eq_false_iff (a b : Node) :
    Machine.compare b a = false ↔ wrap_int (b.g + b.h) ≤ wrap_int (a.g + a.h) := by
  simp [Machine.compare]

theorem machine_insertionSort_sorted (v : List Node) :
    (v.insertionSort (fun a b => Machine.compare b a = false)).Pairwise
      (fun a b => Machine.compare b a = false) := by
  haveI : IsTotal Node (fun a b => Machine.compare b a = false) :=
    ⟨fun a b => by simp only [machine_compare_eq_false_iff]; omega⟩
  haveI : IsTrans Node (fun a b => Machine.compare b a = false) :=
    ⟨fun a b c => by simp only [machine_compare_eq_false_iff]; omega⟩
  exact List.sorted_insertionSort (fun a b => Machine.compare b a = false) v

theorem stable_sort_model_machine_contract : Machine.SortContract stable_sort_model := by
  intro v
  exact ⟨List.perm_insertionSort _ v, machine_insertionSort_sorted v⟩

/-- When its three additions fit in an `int`, a pass of the loop of
`expand_neighbors` works on the exact neighbour and the exact `g + 1`. -/
theorem machine_expand_step_eq {x y g : Int} {goal d : Int × Int}
    (hx : IsInt (x + d.1)) (hy : IsInt (y + d.2)) (hg : IsInt (g + 1))
    (openv : List Node) (grid : Grid) :
    Machine.expand_step x y g goal d openv grid =
      match check_valid_cell (x + d.1) (y + d.2) grid with
      | none => none
      | some true => add_to_open (x + d.1) (y + d.2) (g + 1)
          (Machine.heuristic (x + d.1) (y + d.2) goal.1 goal.2) openv grid
      | some false => some (openv, grid) := by
  unfold Machine.expand_step
  simp only [wrap_int_of_isInt hx, wrap_int_of_isInt hy, wrap_int_of_isInt hg]

theorem machine_expand_step_some {x y g : Int} {goal d : Int × Int} {openv o2 : List Node}
    {grid g2 : Grid} (hx : IsInt (x + d.1)) (hy : IsInt (y + d.2)) (hg : IsInt (g + 1))
    (h : Machine.expand_step x y g goal d openv grid = some (o2, g2)) :
    (check_valid_cell (x + d.1) (y + d.2) grid = some true ∧
      o2 = openv ++ [⟨x + d.1, y + d.2, g + 1,
        Machine.heuristic (x + d.1) (y + d.2) goal.1 goal.2⟩] ∧
      setCell grid (x + d.1) (y + d.2) State.closed = some g2) ∨
    (check_valid_cell (x + d.1) (y + d.2) grid = some false ∧ o2 = openv ∧ g2 = grid) := by
  rw [machine_expand_step_eq hx hy hg] at h
  cases hv : check_valid_cell (x + d.1) (y + d.2) grid with
  | none => rw [hv] at h; simp at h
  | some b =>
    rw [hv] at h
    cases b with
    | true =>
      left
      simp only [add_to_open] at h
      cases hs : setCell grid (x + d.1) (y + d.2) State.closed with
      | none => rw [hs] at h; simp at h
      | some g3 =>
        rw [hs] at h
        simp at h
        exact ⟨rfl, h.1.symm, by rw [h.2]⟩
    | false =>
      right
      simp at h
      exact ⟨rfl, h.1.symm, h.2.symm⟩

/-- What the `for` loop of `expand_neighbors` does in `int` arithmetic when it
completes and no addition overflows, in terms of the grid it starts from. -/
theorem machine_expand_loop_spec (x y g : Int) (goal : Int × Int) (hg : IsInt (g + 1)) :
    ∀ (ds : List (Int × Int)), ds.Nodup → (∀ d ∈ ds, IsInt (x + d.1) ∧ IsInt (y + d.2)) →
      ∀ (openv : List Node) (grid : Grid) (o2 : List Node) (g2 : Grid),
      Machine.expand_loop x y g goal ds openv grid = some (o2, g2) →
      o2 = openv ++ (validDeltas x y grid ds).map
        (fun d => (⟨x + d.1, y + d.2, g + 1,
          Machine.heuristic (x + d.1) (y + d.2) goal.1 goal.2⟩ : Node)) ∧
      g2.map List.length = grid.map List.length ∧
      (∀ d ∈ validDeltas x y grid ds, cellAt g2 (x + d.1) (y + d.2) = some State.closed) ∧
      (∀ a b, (∀ d ∈ validDeltas x y grid ds, ¬ (a = x + d.1 ∧ b = y + d.2)) →
        cellAt g2 a b = cellAt grid a b) := by
  intro ds
  induction ds with
  | nil =>
    intro _ _ openv grid o2 g2 h
    simp [Machine.expand_loop] at h
    obtain ⟨rfl, rfl⟩ := h
    simp [validDeltas]
  | cons d rest ih =>
    intro hnd hov openv grid o2 g2 h
    have hd : d ∉ rest := (List.nodup_cons.1 hnd).1
    have hnd1 : rest.Nodup := (List.nodup_cons.1 hnd).2
    have hovd := hov d (List.mem_cons_self _ _)
    have hov1 : ∀ e ∈ rest, IsInt (x + e.1) ∧ IsInt (y + e.2) :=
      fun e he => hov e (List.mem_cons_of_mem _ he)
    simp only [Machine.expand_loop] at h
    cases hs : Machine.expand_step x y g goal d openv grid with
    | none => rw [hs] at h; simp at h
    | some res =>
      obtain ⟨o1, g1⟩ := res
      rw [hs] at h
      simp only at h
      obtain ⟨ho, hlen, hcl, hfr⟩ := ih hnd1 hov1 o1 g1 o2 g2 h
      rcases machine_expand_step_some hovd.1 hovd.2 hg hs with
        ⟨hv, ho1, hset⟩ | ⟨hv, ho1, hg1⟩
      · have hvd : validDeltas x y grid (d :: rest) = d :: validDeltas x y grid rest := by
          simp [validDeltas, hv]
        rw [validDeltas_setCell hset hd] at ho hcl hfr
        rw [hvd]
        refine ⟨?_, ?_, ?_, ?_⟩
        · rw [ho, ho1]; simp
        · rw [hlen, setCell_map_length hset]
        · intro e he
          rcases List.mem_cons.1 he with rfl | he1
          · by_cases hin : ∃ e1 ∈ validDeltas x y grid rest,
                (x + e.1 = x + e1.1 ∧ y + e.2 = y + e1.2)
            · obtain ⟨e1, he1, h1, h2⟩ := hin
              have : e = e1 := Prod.ext (by omega) (by omega)
              rw [this]
              exact hcl e1 he1
            · rw [hfr _ _ (fun e1 he1 hc => hin ⟨e1, he1, hc⟩)]
              exact cellAt_setCell_self hset
          · exact hcl e he1
        · intro a b hab
          rw [hfr a b (fun e he => hab e (List.mem_cons_of_mem _ he))]
          exact cellAt_setCell_ne hset (hab d (List.mem_cons_self _ _))
      · have hvd : validDeltas x y grid (d :: rest) = validDeltas x y grid rest := by
          simp [validDeltas, hv]
        rw [hvd]
        rw [hg1] at ho hlen hcl hfr
        exact ⟨by rw [ho, ho1], hlen, hcl, hfr⟩

/-- On a rectangular grid the loop of `expand_neighbors` completes when no
addition overflows. -/
theorem machine_expand_loop_rect (x y g : Int) (goal : Int × Int) {R C : Nat}
    (hg : IsInt (g + 1)) :
    ∀ (ds : List (Int × Int)), (∀ d ∈ ds, IsInt (x + d.1) ∧ IsInt (y + d.2)) →
      ∀ (openv : List Node) (grid : Grid), Rect grid R C →
      ∃ o2 g2, Machine.expand_loop x y g goal ds openv grid = some (o2, g2) ∧ Rect g2 R C := by
  intro ds
  induction ds with
  | nil =>
    intro _ openv grid hr
    exact ⟨openv, grid, rfl, hr⟩
  | cons d rest ih =>
    intro hov openv grid hr
    have hovd := hov d (List.mem_cons_self _ _)
    have hov1 : ∀ e ∈ rest, IsInt (x + e.1) ∧ IsInt (y + e.2) :=
      fun e he => hov e (List.mem_cons_of_mem _ he)
    by_cases hv : cellAt grid (x + d.1) (y + d.2) = some State.empty
    · obtain ⟨g1, hset⟩ := setCell_of_cellAt State.closed hv
      have hstep : Machine.expand_step x y g goal d openv grid =
          some (openv ++ [⟨x + d.1, y + d.2, g + 1,
            Machine.heuristic (x + d.1) (y + d.2) goal.1 goal.2⟩], g1) := by
        rw [machine_expand_step_eq hovd.1 hovd.2 hg]
        simp [check_valid_cell_rect hr, hv, add_to_open, hset]
      obtain ⟨o2, g2, h2, hr2⟩ := ih hov1
        (openv ++ [⟨x + d.1, y + d.2, g + 1,
          Machine.heuristic (x + d.1) (y + d.2) goal.1 goal.2⟩]) g1 (rect_setCell hr hset)
      exact ⟨o2, g2, by simp [Machine.expand_loop, hstep, h2], hr2⟩
    · have hstep : Machine.expand_step x y g goal d openv grid = some (openv, grid) := by
        rw [machine_expand_step_eq hovd.1 hovd.2 hg]
        simp [check_valid_cell_rect hr, hv]
      obtain ⟨o2, g2, h2, hr2⟩ := ih hov1 openv grid hr
      exact ⟨o2, g2, by simp [Machine.expand_loop, hstep, h2], hr2⟩

theorem deltas_isInt {x y : Int} (hx : IsInt (x - 1) ∧ IsInt (x + 1))
    (hy : IsInt (y - 1) ∧ IsInt (y + 1)) :
    ∀ d ∈ deltas, IsInt (x + d.1) ∧ IsInt (y + d.2) := by
  intro d hd
  simp only [deltas, List.mem_cons, List.mem_singleton, List.not_mem_nil, or_false] at hd
  unfold IsInt at *
  rcases hd with rfl | rfl | rfl | rfl <;> simp only <;> omega

/-- When its additions and the neighbour's distance fit in an `int`, a pass of
the loop of `expand_neighbors` in `int` arithmetic is the exact one. -/
theorem machine_expand_step_exact {x y g : Int} {goal d : Int × Int}
    (hx : IsInt (x + d.1)) (hy : IsInt (y + d.2)) (hg : IsInt (g + 1))
    (hh : heuristic (x + d.1) (y + d.2) goal.1 goal.2 ≤ 2147483647)
    (openv : List Node) (grid : Grid) :
    Machine.expand_step x y g goal d openv grid = expand_step x y g goal d openv grid := by
  rw [machine_expand_step_eq hx hy hg, machine_heuristic_eq hh]
  rfl

theorem machine_expand_loop_exact {x y g : Int} {goal : Int × Int} (hg : IsInt (g + 1)) :
    ∀ (ds : List (Int × Int)),
      (∀ d ∈ ds, IsInt (x + d.1) ∧ IsInt (y + d.2) ∧
        heuristic (x + d.1) (y + d.2) goal.1 goal.2 ≤ 2147483647) →
      ∀ (openv : List Node) (grid : Grid),
      Machine.expand_loop x y g goal ds openv grid = expand_loop x y g goal ds openv grid := by
  intro ds
  induction ds with
  | nil => intro _ openv grid; rfl
  | cons d rest ih =>
    intro h openv grid
    obtain ⟨hx, hy, hh⟩ := h d (List.mem_cons_self _ _)
    simp only [Machine.expand_loop, expand_loop, machine_expand_step_exact hx hy hg hh]
    cases expand_step x y g goal d openv grid with
    | none => rfl
    | some r =>
      obtain ⟨o1, g1⟩ := r
      exact ih (fun e he => h e (List.mem_cons_of_mem _ he)) o1 g1

/-- On a rectangular grid whose row, column and cell counts together fit in an
`int`, with start and goal in bounds, no `int` operation of a search overflows:
the first heuristic is exact, and at every loop test the 32-bit `compare` agrees
with the exact one on the nodes of the open vector, every sum `g + h` fits in an
`int`, and the 32-bit `expand_neighbors` on the extracted node is the exact
one. -/
theorem search_within_int {stdsort : (Node → Node → Bool) → List Node → List Node}
    (hs : SortContract stdsort) {grid : Grid} {R C : Nat} (hr : Rect grid R C)
    {init goal : Int × Int} (hi : InBounds R C init) (hgb : InBounds R C goal)
    (hsize : R * C + R + C ≤ 2147483647) (fuel : Nat) :
    Machine.heuristic init.1 init.2 goal.1 goal.2 = heuristic init.1 init.2 goal.1 goal.2 ∧
    ∀ p ∈ search_passes stdsort fuel grid init goal,
      (∀ n ∈ p.openv, IsInt n.x ∧ IsInt n.y ∧ IsInt n.g ∧ IsInt n.h ∧ IsInt (n.g + n.h)) ∧
      (∀ a ∈ p.openv, ∀ b ∈ p.openv, Machine.compare a b = compare a b) ∧
      (∀ (o : List Node) (g : Grid),
        Machine.expand_neighbors p.curr goal o g = expand_neighbors p.curr goal o g) := by
  obtain ⟨grid1, -, hinv, hpasses, -⟩ := search_passes_init hr hi goal
  have hP : ∃ P : Int, (R : Int) * C = P ∧ 0 ≤ P ∧ P + R + C ≤ 2147483647 :=
    ⟨_, rfl, by positivity, by exact_mod_cast hsize⟩
  obtain ⟨P, hPe, hP0, hPle⟩ := hP
  have hR0 : (0 : Int) ≤ R := by positivity
  have hC0 : (0 : Int) ≤ C := by positivity
  have hheur : ∀ x y : Int, -1 ≤ x → x ≤ R → -1 ≤ y → y ≤ C →
      heuristic x y goal.1 goal.2 ≤ (R : Int) + C ∧ 0 ≤ heuristic x y goal.1 goal.2 := by
    intro x y h1 h2 h3 h4
    obtain ⟨g1, g2, g3, g4⟩ := hgb
    unfold heuristic
    omega
  constructor
  · obtain ⟨i1, i2, i3, i4⟩ := hi
    have := (hheur init.1 init.2 (by omega) (by omega) (by omega) (by omega)).1
    exact machine_heuristic_eq (by omega)
  · intro p hp
    rw [hpasses] at hp
    obtain ⟨hinvp, hcurr, -⟩ := loop_passes_inv hs fuel _ grid1 hinv p hp
    have hcnt : (countCells isPath p.grid : Int) ≤ P := by
      rw [← hPe]
      exact_mod_cast countCells_le isPath hinvp.rect
    have hnode : ∀ n ∈ p.openv, 0 ≤ n.x ∧ n.x < R ∧ 0 ≤ n.y ∧ n.y < C ∧ 0 ≤ n.g ∧
        n.g ≤ P ∧ 0 ≤ n.h ∧ n.h ≤ (R : Int) + C := by
      intro n hn
      obtain ⟨b1, b2, b3, b4⟩ := inBounds_of_cellAt hinvp.rect (hinvp.open_closed n hn)
      obtain ⟨k, hk, -⟩ := hinvp.open_walk n hn
      have hgle := hinvp.open_g n hn
      have hh := hinvp.open_h n hn
      have := hheur n.x n.y (by simp only at b1; omega) (by simp only at b2; omega)
        (by simp only at b3; omega) (by simp only at b4; omega)
      simp only at b1 b2 b3 b4
      refine ⟨b1, b2, b3, b4, by omega, by omega, by omega, by omega⟩
    have hint : ∀ n ∈ p.openv, IsInt n.x ∧ IsInt n.y ∧ IsInt n.g ∧ IsInt n.h ∧
        IsInt (n.g + n.h) := by
      intro n hn
      obtain ⟨a1, a2, a3, a4, a5, a6, a7, a8⟩ := hnode n hn
      unfold IsInt
      refine ⟨⟨by omega, by omega⟩, ⟨by omega, by omega⟩, ⟨by omega, by omega⟩,
        ⟨by omega, by omega⟩, ⟨by omega, by omega⟩⟩
    refine ⟨hint, fun a ha b hb => machine_compare_eq (hint a ha).2.2.2.2 (hint b hb).2.2.2.2, ?_⟩
    intro o g
    obtain ⟨a1, a2, a3, a4, a5, a6, a7, a8⟩ := hnode p.curr hcurr
    unfold Machine.expand_neighbors expand_neighbors
    apply machine_expand_loop_exact
    · unfold IsInt; omega
    · intro d hd
      have hd2 : -1 ≤ d.1 ∧ d.1 ≤ 1 ∧ -1 ≤ d.2 ∧ d.2 ≤ 1 := by
        simp only [deltas, List.mem_cons, List.mem_singleton, List.not_mem_nil, or_false] at hd
        rcases hd with rfl | rfl | rfl | rfl <;> simp
      have := hheur (p.curr.x + d.1) (p.curr.y + d.2) (by omega) (by omega) (by omega)
        (by omega)
      unfold IsInt
      refine ⟨⟨by omega, by omega⟩, ⟨by omega, by omega⟩, by omega⟩

/-! ## The claims -/

/-- C1, as the claim puts it, fails: on this 3 by 3 grid a walk of 5 steps leads
from `(0, 0)` to `(1, 2)`, so the least number of steps `d` is at most 5, and
the search marks 7 cells, the dead end `(0, 1)` among them.  The dead end has a
smaller f-value than the cells of the way round, so it is extracted whatever
the order of nodes of equal f-value; both sort models return the same grid. -/
theorem C1_marked_cells_counterexample :
    ∃ res, search stable_sort_model 10
        [[State.empty, State.empty, State.obstacle],
         [State.empty, State.obstacle, State.empty],
         [State.empty, State.empty, State.empty]] (0, 0) (1, 2) = Outcome.returned res ∧
      search reversing_sort_model 10
        [[State.empty, State.empty, State.obstacle],
         [State.empty, State.obstacle, State.empty],
         [State.empty, State.empty, State.empty]] (0, 0) (1, 2) = Outcome.returned res ∧
      res ≠ [] ∧ cellAt res 0 1 = some State.path ∧ countCells isMarked res = 7 ∧
      Walk
        [[State.empty, State.empty, State.obstacle],
         [State.empty, State.obstacle, State.empty],
         [State.empty, State.empty, State.empty]] (0, 0) (1, 2) 5 ∧
      (∃ d, ShortestWalk
        [[State.empty, State.empty, State.obstacle],
         [State.empty, State.obstacle, State.empty],
         [State.empty, State.empty, State.empty]] (0, 0) (1, 2) d) ∧
      ∀ d, ShortestWalk
        [[State.empty, State.empty, State.obstacle],
         [State.empty, State.obstacle, State.empty],
         [State.empty, State.empty, State.empty]] (0, 0) (1, 2) d →
        countCells isMarked res ≠ 1 + d := by
  have w1 : Walk [[State.empty, State.empty, State.obstacle],
       [State.empty, State.obstacle, State.empty],
       [State.empty, State.empty, State.empty]] (0, 0) (1, 0) 1 :=
    Walk.step (1, 0) Walk.base (by decide) (by decide)
  have w2 : Walk [[State.empty, State.empty, State.obstacle],
       [State.empty, State.obstacle, State.empty],
       [State.empty, State.empty, State.empty]] (0, 0) (2, 0) 2 :=
    Walk.step (1, 0) w1 (by decide) (by decide)
  have w3 : Walk [[State.empty, State.empty, State.obstacle],
       [State.empty, State.obstacle, State.empty],
       [State.empty, State.empty, State.empty]] (0, 0) (2, 1) 3 :=
    Walk.step (0, 1) w2 (by decide) (by decide)
  have w4 : Walk [[State.empty, State.empty, State.obstacle],
       [State.empty, State.obstacle, State.empty],
       [State.empty, State.empty, State.empty]] (0, 0) (2, 2) 4 :=
    Walk.step (0, 1) w3 (by decide) (by decide)
  have w5 : Walk [[State.empty, State.empty, State.obstacle],
       [State.empty, State.obstacle, State.empty],
       [State.empty, State.empty, State.empty]] (0, 0) (1, 2) 5 := by
    have w := Walk.step (-1, 0) w4 (by decide) (by decide)
    simpa using w
  refine ⟨[[State.start, State.path, State.obstacle],
         [State.path, State.obstacle, State.finish],
         [State.path, State.path, State.path]], by decide, by decide, by decide, by decide,
         by decide, w5, exists_shortestWalk ⟨5, w5⟩, ?_⟩
  intro d hd
  have h5 := hd.2 5 w5
  have h7 : countCells isMarked [[State.start, State.path, State.obstacle],
         [State.path, State.obstacle, State.finish],
         [State.path, State.path, State.path]] = 7 := by decide
  rw [h7]
  omega

/-- C1: on a rectangular grid with an in-bounds start, `search` run with
`R * C + 1` units of fuel or more returns, and when it succeeds the cells marked
`path`, `start` or `finish` in the returned grid include the start and the goal
and number at least `1 + d`, where `d` is the least number of steps of a walk
from start to goal through cells `empty` in the input. -/
theorem C1_marked_cells_at_least_shortest
    (stdsort : (Node → Node → Bool) → List Node → List Node)
    (hs : SortContract stdsort) (grid : Grid) (R C : Nat) (hr : Rect grid R C)
    (init goal : Int × Int) (hi : InBounds R C init) (fuel : Nat) (hf : R * C + 1 ≤ fuel) :
    ∃ res, search stdsort fuel grid init goal = Outcome.returned res ∧
      (res ≠ [] →
        (∃ s, cellAt res init.1 init.2 = some s ∧ isMarked s = true) ∧
        (∃ s, cellAt res goal.1 goal.2 = some s ∧ isMarked s = true) ∧
        ∀ d, ShortestWalk grid init goal d → 1 + d ≤ countCells isMarked res) := by
  rcases search_spec hs hr hi goal hf with ⟨h, -⟩ | ⟨res, h, hfound⟩
  · exact ⟨[], h, fun hne => absurd rfl hne⟩
  · refine ⟨res, h, fun _ => ⟨?_, ⟨_, hfound.goal_finish, by decide⟩, ?_⟩⟩
    · by_cases hig : init.1 = goal.1 ∧ init.2 = goal.2
      · rw [hig.1, hig.2]
        exact ⟨_, hfound.goal_finish, by decide⟩
      · exact ⟨_, hfound.init_start hig, by decide⟩
    · intro d hd
      obtain ⟨k, hw, hk⟩ := hfound.walk
      have := hd.2 k hw
      omega

/-- C1, on the 1 by 2 empty grid from the left cell to the right cell, where the
search succeeds and marks both cells. -/
theorem C1_marked_cells_at_least_shortest_witness :
    search stable_sort_model 3 [[State.empty, State.empty]] (0, 0) (0, 1)
        = Outcome.returned [[State.start, State.finish]] ∧
    ∃ res, search stable_sort_model 3 [[State.empty, State.empty]] (0, 0) (0, 1)
        = Outcome.returned res ∧
      (res ≠ [] →
        (∃ s, cellAt res 0 0 = some s ∧ isMarked s = true) ∧
        (∃ s, cellAt res 0 1 = some s ∧ isMarked s = true) ∧
        ∀ d, ShortestWalk [[State.empty, State.empty]] (0, 0) (0, 1) d →
          1 + d ≤ countCells isMarked res) :=
  ⟨by decide, C1_marked_cells_at_least_shortest stable_sort_model stable_sort_model_contract
    [[State.empty, State.empty]] 1 2 (by unfold Rect; decide) (0, 0) (0, 1)
    (by unfold InBounds; decide) 3 (by decide)⟩

/-- C2, as the claim puts it, fails on the empty 10 by 10 grid from `(0, 0)` to
`(9, 9)` with the library sort of libstdc++: once the open vector holds 17
nodes the sort partitions it and no longer keeps nodes of equal f-value in
order, the node at `(1, 0)` is extracted, and 20 cells are marked instead of
`1 + 9 + 9`.  Every sort of the run is within the modelled part of the library
routine. -/
theorem C2_empty_grid_counterexample :
    AllEmpty (List.replicate 10 (List.replicate 10 State.empty)) ∧
    search libstdcxx_sort 101 (List.replicate 10 (List.replicate 10 State.empty))
        (0, 0) (9, 9)
      = Outcome.returned
        [[State.start, State.path, State.path, State.path, State.path,
            State.path, State.path, State.path, State.path, State.path],
         [State.path, State.closed, State.closed, State.closed, State.closed,
            State.closed, State.closed, State.closed, State.closed, State.path],
         [State.closed, State.empty, State.empty, State.empty, State.empty,
            State.empty, State.empty, State.empty, State.closed, State.path],
         [State.empty, State.empty, State.empty, State.empty, State.empty,
            State.empty, State.empty, State.empty, State.closed, State.path],
         [State.empty, State.empty, State.empty, State.empty, State.empty,
            State.empty, State.empty, State.empty, State.closed, State.path],
         [State.empty, State.empty, State.empty, State.empty, State.empty,
            State.empty, State.empty, State.empty, State.closed, State.path],
         [State.empty, State.empty, State.empty, State.empty, State.empty,
            State.empty, State.empty, State.empty, State.closed, State.path],
         [State.empty, State.empty, State.empty, State.empty, State.empty,
            State.empty, State.empty, State.empty, State.closed, State.path],
         [State.empty, State.empty, State.empty, State.empty, State.empty,
            State.empty, State.empty, State.empty, State.closed, State.path],
         [State.empty, State.empty, State.empty, State.empty, State.empty,
            State.empty, State.empty, State.empty, State.empty, State.finish]] ∧
    countCells isMarked
        [[State.start, State.path, State.path, State.path, State.path,
            State.path, State.path, State.path, State.path, State.path],
         [State.path, State.closed, State.closed, State.closed, State.closed,
            State.closed, State.closed, State.closed, State.closed, State.path],
         [State.closed, State.empty, State.empty, State.empty, State.empty,
            State.empty, State.empty, State.empty, State.closed, State.path],
         [State.empty, State.empty, State.empty, State.empty, State.empty,
            State.empty, State.empty, State.empty, State.closed, State.path],
         [State.empty, State.empty, State.empty, State.empty, State.empty,
            State.empty, State.empty, State.empty, State.closed, State.path],
         [State.empty, State.empty, State.empty, State.empty, State.empty,
            State.empty, State.empty, State.empty, State.closed, State.path],
         [State.empty, State.empty, State.empty, State.empty, State.empty,
            State.empty, State.empty, State.empty, State.closed, State.path],
         [State.empty, State.empty, State.empty, State.empty, State.empty,
            State.empty, State.empty, State.empty, State.closed, State.path],
         [State.empty, State.empty, State.empty, State.empty, State.empty,
            State.empty, State.empty, State.empty, State.closed, State.path],
         [State.empty, State.empty, State.empty, State.empty, State.empty,
            State.empty, State.empty, State.empty, State.empty, State.finish]] = 20 ∧
    (20 : Nat) ≠ 1 + ((0 : Int) - 9).natAbs + ((0 : Int) - 9).natAbs ∧
    (∀ p ∈ search_passes libstdcxx_sort 101
        (List.replicate 10 (List.replicate 10 State.empty)) (0, 0) (9, 9),
      (libstdcxx_sort_run compare p.openv).isSome = true) ∧
    (∃ p ∈ search_passes libstdcxx_sort 101
        (List.replicate 10 (List.replicate 10 State.empty)) (0, 0) (9, 9),
      p.openv.length = 17 ∧ p.curr.x = 1 ∧ p.curr.y = 0) := by
  refine ⟨by unfold AllEmpty; decide, by decide, by decide, by decide, by decide, by decide⟩

/-- C2: on a rectangular grid without obstacles, with in-bounds start and goal,
`search` run with `R * C + 1` units of fuel or more succeeds whatever the order
`std::sort` gives to nodes of equal f-value, and marks at least
`1 + |start.x - goal.x| + |start.y - goal.y|` cells; when the sort keeps the
previous order of nodes of equal f-value it marks exactly that many. -/
theorem C2_empty_grid_manhattan (grid : Grid) (R C : Nat) (hr : Rect grid R C)
    (he : AllEmpty grid) (init goal : Int × Int) (hi : InBounds R C init)
    (hg : InBounds R C goal) (fuel : Nat) (hf : R * C + 1 ≤ fuel) :
    (∀ stdsort : (Node → Node → Bool) → List Node → List Node, SortContract stdsort →
      ∃ res, search stdsort fuel grid init goal = Outcome.returned res ∧ res ≠ [] ∧
        1 + (init.1 - goal.1).natAbs + (init.2 - goal.2).natAbs ≤ countCells isMarked res) ∧
    (∃ res, search stable_sort_model fuel grid init goal = Outcome.returned res ∧ res ≠ [] ∧
      countCells isMarked res = 1 + (init.1 - goal.1).natAbs + (init.2 - goal.2).natAbs) := by
  constructor
  · intro stdsort hs
    rcases search_spec hs hr hi goal hf with ⟨-, hno⟩ | ⟨res, h, hfound⟩
    · exact absurd ⟨_, walk_allEmpty hr he hi _ goal hg (heuristic_eq_natAbs init goal)⟩ hno
    · refine ⟨res, h, found_ne_nil hi hfound, ?_⟩
      obtain ⟨k, hw, hk⟩ := hfound.walk
      have := walk_ge_heuristic hw
      rw [heuristic_eq_natAbs] at this
      have h2 : (init.1 - goal.1).natAbs + (init.2 - goal.2).natAbs ≤ k := by exact_mod_cast this
      omega
  · obtain ⟨grid1, hadd, hinv, hset⟩ := inv_init init goal hr hi
    obtain ⟨t, ht⟩ := cellAt_of_inBounds hr hi
    have hte : t = State.empty := cellAt_of_allEmpty he ht
    have hc1 : countCells isPath grid1 = 0 := by
      have := countCells_setCell isPath ht hset
      rw [countCells_allEmpty he, hte] at this
      simpa [isPath] using this
    have hlead : Lead goal (heuristic init.1 init.2 goal.1 goal.2)
        [⟨init.1, init.2, 0, heuristic init.1 init.2 goal.1 goal.2⟩] grid1 := by
      refine ⟨[], _, [], rfl, by simp, by simp, by simp, by simp [hc1], ?_, ?_⟩
      · intro x y s hs hse
        rw [cellAt_setCell hset] at hs
        split at hs
        · rename_i hxy
          rw [hxy.1, hxy.2]
        · exact absurd (cellAt_of_allEmpty he hs) hse
      · intro x y s hs
        rw [cellAt_setCell hset] at hs
        split at hs
        · simp at hs; subst hs; exact Or.inr (Or.inl rfl)
        · exact Or.inl (cellAt_of_allEmpty he hs)
    obtain ⟨res, hrun, hne, hcnt⟩ := lead_loop hi hg fuel _ grid1 hinv hlead (by omega)
    refine ⟨res, by simp [search, hadd, hrun], hne, ?_⟩
    rw [heuristic_eq_natAbs] at hcnt
    have : countCells isMarked res = (init.1 - goal.1).natAbs + (init.2 - goal.2).natAbs + 1 := by
      exact_mod_cast hcnt
    omega

/-- C2, on the empty grid of 5 rows and 6 columns from `(0, 0)` to `(4, 5)`: at
least 10 cells are marked under every sort, exactly 10 under the
order-preserving sort, and exactly 10 under the library sort of libstdc++, for
which the open vector stays short enough to be sorted by insertion. -/
theorem C2_empty_grid_manhattan_witness :
    (1 + ((0 : Int) - 4).natAbs + ((0 : Int) - 5).natAbs = 10) ∧
    (search libstdcxx_sort 31 (List.replicate 5 (List.replicate 6 State.empty)) (0, 0) (4, 5)
      = Outcome.returned
        [[State.start, State.path, State.path, State.path, State.path, State.path],
         [State.closed, State.closed, State.closed, State.closed, State.closed, State.path],
         [State.empty, State.empty, State.empty, State.empty, State.closed, State.path],
         [State.empty, State.empty, State.empty, State.empty, State.closed, State.path],
         [State.empty, State.empty, State.empty, State.empty, State.empty, State.finish]]) ∧
    (countCells isMarked
        [[State.start, State.path, State.path, State.path, State.path, State.path],
         [State.closed, State.closed, State.closed, State.closed, State.closed, State.path],
         [State.empty, State.empty, State.empty, State.empty, State.closed, State.path],
         [State.empty, State.empty, State.empty, State.empty, State.closed, State.path],
         [State.empty, State.empty, State.empty, State.empty, State.empty, State.finish]]
      = 10) ∧
    (∀ p ∈ search_passes libstdcxx_sort 31
        (List.replicate 5 (List.replicate 6 State.empty)) (0, 0) (4, 5),
      (libstdcxx_sort_run compare p.openv).isSome = true ∧ p.openv.length ≤ 16) ∧
    (∀ stdsort : (Node → Node → Bool) → List Node → List Node, SortContract stdsort →
      ∃ res, search stdsort 31 (List.replicate 5 (List.replicate 6 State.empty)) (0, 0) (4, 5)
          = Outcome.returned res ∧ res ≠ [] ∧
        1 + ((0 : Int) - 4).natAbs + ((0 : Int) - 5).natAbs ≤ countCells isMarked res) ∧
    (∃ res, search stable_sort_model 31 (List.replicate 5 (List.replicate 6 State.empty))
          (0, 0) (4, 5) = Outcome.returned res ∧ res ≠ [] ∧
      countCells isMarked res = 1 + ((0 : Int) - 4).natAbs + ((0 : Int) - 5).natAbs) :=
  ⟨by decide, by decide, by decide, by decide,
    C2_empty_grid_manhattan (List.replicate 5 (List.replicate 6 State.empty)) 5 6
      (by unfold Rect; decide) (by unfold AllEmpty; decide) (0, 0) (4, 5)
      (by unfold InBounds; decide) (by unfold InBounds; decide) 31 (by decide)⟩

/-- C3: on a rectangular grid with an in-bounds start, `search` run with
`R * C + 1` units of fuel or more returns; it returns the empty grid exactly
when the goal differs from the start and no walk of 4-directional unit steps
through cells that are `empty` in the input leads from the start to the goal;
otherwise it returns a non-empty grid of the shape of the input in which every
cell is unchanged or is an entered cell now `closed`, `path`, `start` or
`finish`. -/
theorem C3_empty_grid_iff_no_path (stdsort : (Node → Node → Bool) → List Node → List Node)
    (hs : SortContract stdsort) (grid : Grid) (R C : Nat) (hr : Rect grid R C)
    (init goal : Int × Int) (hi : InBounds R C init) (fuel : Nat) (hf : R * C + 1 ≤ fuel) :
    ∃ res, search stdsort fuel grid init goal = Outcome.returned res ∧
      (res = [] ↔ (goal ≠ init ∧ ¬ ∃ k, Walk grid init goal k)) ∧
      (res ≠ [] → Rect res R C ∧ ∀ x y, cellAt res x y = cellAt grid x y ∨
        (Enterable grid init x y ∧
          (cellAt res x y = some State.closed ∨ cellAt res x y = some State.path ∨
            cellAt res x y = some State.start ∨ cellAt res x y = some State.finish))) := by
  rcases search_spec hs hr hi goal hf with ⟨h, hno⟩ | ⟨res, h, hfound⟩
  · refine ⟨[], h, ?_, fun hne => absurd rfl hne⟩
    constructor
    · intro _
      refine ⟨?_, hno⟩
      intro hgi
      apply hno
      rw [hgi]
      exact ⟨0, Walk.base⟩
    · intro _; rfl
  · have hne := found_ne_nil hi hfound
    refine ⟨res, h, ?_, fun _ => ⟨hfound.rect, hfound.frame⟩⟩
    constructor
    · intro h0; exact absurd h0 hne
    · rintro ⟨-, hno⟩
      obtain ⟨k, hw, -⟩ := hfound.walk
      exact absurd ⟨k, hw⟩ hno

/-- C3, on the 2 by 2 grid whose goal corner is cut off by two obstacles. -/
theorem C3_empty_grid_iff_no_path_witness :
    ∃ res, search stable_sort_model 5
        [[State.empty, State.obstacle], [State.obstacle, State.empty]] (0, 0) (1, 1)
        = Outcome.returned res ∧
      (res = [] ↔ (((1, 1) : Int × Int) ≠ (0, 0) ∧
        ¬ ∃ k, Walk [[State.empty, State.obstacle], [State.obstacle, State.empty]]
          (0, 0) (1, 1) k)) ∧
      (res ≠ [] → Rect res 2 2 ∧ ∀ x y, cellAt res x y =
          cellAt [[State.empty, State.obstacle], [State.obstacle, State.empty]] x y ∨
        (Enterable [[State.empty, State.obstacle], [State.obstacle, State.empty]] (0, 0) x y ∧
          (cellAt res x y = some State.closed ∨ cellAt res x y = some State.path ∨
            cellAt res x y = some State.start ∨ cellAt res x y = some State.finish))) :=
  C3_empty_grid_iff_no_path stable_sort_model stable_sort_model_contract
    [[State.empty, State.obstacle], [State.obstacle, State.empty]] 2 2
    (by unfold Rect; decide) (0, 0) (1, 1) (by unfold InBounds; decide) 5 (by decide)

/-- C4, as the claim puts it, fails when the start is itself an obstacle cell
next to the goal: every neighbour of the goal `(0, 1)` is outside the grid or
an obstacle, and the search from `(0, 0)` still reaches the goal. -/
theorem C4_enclosed_goal_counterexample :
    ((0, 1) : Int × Int) ≠ (0, 0) ∧
    (∀ d ∈ deltas, cellAt [[State.obstacle, State.empty]] (0 + d.1) (1 + d.2) = none ∨
      cellAt [[State.obstacle, State.empty]] (0 + d.1) (1 + d.2) = some State.obstacle) ∧
    search stable_sort_model 3 [[State.obstacle, State.empty]] (0, 0) (0, 1)
      = Outcome.returned [[State.start, State.finish]] := by
  decide

/-- C4: on a rectangular grid with an in-bounds start and a goal different from
the start, if each of the goal's four neighbours is outside the grid or is an
obstacle cell other than the start cell, then `search` run with `R * C + 1`
units of fuel or more returns the empty grid. -/
theorem C4_enclosed_goal_returns_empty
    (stdsort : (Node → Node → Bool) → List Node → List Node)
    (hs : SortContract stdsort) (grid : Grid) (R C : Nat) (hr : Rect grid R C)
    (init goal : Int × Int) (hi : InBounds R C init) (hne : goal ≠ init)
    (hblock : ∀ d ∈ deltas, cellAt grid (goal.1 + d.1) (goal.2 + d.2) = none ∨
      (cellAt grid (goal.1 + d.1) (goal.2 + d.2) = some State.obstacle ∧
        (goal.1 + d.1, goal.2 + d.2) ≠ init))
    (fuel : Nat) (hf : R * C + 1 ≤ fuel) :
    search stdsort fuel grid init goal = Outcome.returned [] := by
  rcases search_spec hs hr hi goal hf with ⟨h, -⟩ | ⟨res, -, hfound⟩
  · exact h
  · obtain ⟨k, hw, -⟩ := hfound.walk
    exact absurd ⟨k, hw⟩ (no_walk_of_enclosed hr hi hne hblock)

/-- C4, on a 3 by 3 grid whose goal corner `(2, 2)` is walled in by two obstacles. -/
theorem C4_enclosed_goal_returns_empty_witness :
    search stable_sort_model 10
      [[State.empty, State.empty, State.empty],
       [State.empty, State.empty, State.obstacle],
       [State.empty, State.obstacle, State.empty]] (0, 0) (2, 2) = Outcome.returned [] :=
  C4_enclosed_goal_returns_empty stable_sort_model stable_sort_model_contract
    [[State.empty, State.empty, State.empty],
     [State.empty, State.empty, State.obstacle],
     [State.empty, State.obstacle, State.empty]] 3 3 (by unfold Rect; decide) (0, 0) (2, 2)
    (by unfold InBounds; decide) (by decide) (by decide) 10 (by decide)

/-- C5: on every grid, rectangular or not, and every in-bounds coordinate `s`,
`search(grid, s, s)` returns in its first pass through the loop (one unit of
fuel is enough, so no neighbour is expanded): the returned grid is not empty,
has the shape of the input, has state `finish` at `s` and the input's state at
every other cell; so `s` is its only marked cell on every grid that holds no
marked cell elsewhere before the call, as is every grid `read_board` builds
(`parse_line` produces `empty` and `obstacle` cells only). -/
theorem C5_same_cell_immediate (stdsort : (Node → Node → Bool) → List Node → List Node)
    (hs : SortContract stdsort) (grid : Grid) (s : Int × Int) (t : State)
    (hin : cellAt grid s.1 s.2 = some t) (fuel : Nat) (hf : 1 ≤ fuel) :
    ∃ res, search stdsort 1 grid s s = Outcome.returned res ∧
      search stdsort fuel grid s s = Outcome.returned res ∧
      res ≠ [] ∧ res.map List.length = grid.map List.length ∧
      cellAt res s.1 s.2 = some State.finish ∧
      (∀ x y, ¬ (x = s.1 ∧ y = s.2) → cellAt res x y = cellAt grid x y) ∧
      ((∀ x y u, cellAt grid x y = some u → isMarked u = true → x = s.1 ∧ y = s.2) →
        ∀ x y u, cellAt res x y = some u → isMarked u = true → x = s.1 ∧ y = s.2) := by
  obtain ⟨res, hrun, hlen, hcell⟩ := search_same_cell hs hin
  have hfe : fuel - 1 + 1 = fuel := by omega
  have h2 := hrun (fuel - 1)
  rw [hfe] at h2
  refine ⟨res, hrun 0, h2, ?_, hlen, by simp [hcell], fun x y hxy => by simp [hcell, hxy], ?_⟩
  · intro h0
    rw [h0] at hcell
    have := hcell s.1 s.2
    simp [cellAt] at this
  · intro hgrid x y u hu hm
    by_cases hxy : x = s.1 ∧ y = s.2
    · exact hxy
    · rw [hcell, if_neg hxy] at hu
      exact hgrid x y u hu hm

/-- C5, on a ragged grid with rows of lengths 1 and 2 and `s` in the longer row:
the input holds no marked cell, so `s` is the only marked cell returned. -/
theorem C5_same_cell_immediate_witness :
    ∃ res, search stable_sort_model 1 [[State.obstacle], [State.empty, State.empty]] (1, 1) (1, 1)
        = Outcome.returned res ∧
      search stable_sort_model 4 [[State.obstacle], [State.empty, State.empty]] (1, 1) (1, 1)
        = Outcome.returned res ∧
      res ≠ [] ∧
      res.map List.length = [[State.obstacle], [State.empty, State.empty]].map List.length ∧
      cellAt res 1 1 = some State.finish ∧
      (∀ x y, ¬ (x = 1 ∧ y = 1) →
        cellAt res x y = cellAt [[State.obstacle], [State.empty, State.empty]] x y) ∧
      (∀ x y u, cellAt res x y = some u → isMarked u = true → x = 1 ∧ y = 1) := by
  obtain ⟨res, h1, h2, h3, h4, h5, h6, h7⟩ :=
    C5_same_cell_immediate stable_sort_model stable_sort_model_contract
      [[State.obstacle], [State.empty, State.empty]] (1, 1) State.empty (by decide) 4
      (by decide)
  refine ⟨res, h1, h2, h3, h4, h5, h6, h7 ?_⟩
  intro x y u hu hm
  obtain ⟨-, -, row, hrow, hcell⟩ := cellAt_eq_some hu
  have hr := List.getElem?_mem hrow
  have hc := List.getElem?_mem hcell
  simp only [List.mem_cons, List.mem_singleton, List.not_mem_nil, or_false] at hr
  rcases hr with rfl | rfl <;>
    simp only [List.mem_cons, List.mem_singleton, List.not_mem_nil, or_false] at hc
  · subst hc; simp [isMarked] at hm
  · rcases hc with rfl | rfl <;> simp [isMarked] at hm

/-- C6, as the claim puts it, fails when start and goal coincide: on the
one-cell grid the returned cell is `finish`, not `start`. -/
theorem C6_start_overwritten_counterexample :
    search stable_sort_model 2 [[State.empty]] (0, 0) (0, 0)
        = Outcome.returned [[State.finish]] ∧
      cellAt [[State.finish]] 0 0 ≠ some State.start := by
  decide

/-- C6: on a rectangular grid with an in-bounds start, `search` run with
`R * C + 1` units of fuel or more returns, and when it succeeds (the returned
grid is not empty) that grid has state `finish` at the goal coordinate and,
when start and goal differ, state `start` at the start coordinate. -/
theorem C6_endpoints_marked (stdsort : (Node → Node → Bool) → List Node → List Node)
    (hs : SortContract stdsort) (grid : Grid) (R C : Nat) (hr : Rect grid R C)
    (init goal : Int × Int) (hi : InBounds R C init) (fuel : Nat) (hf : R * C + 1 ≤ fuel) :
    ∃ res, search stdsort fuel grid init goal = Outcome.returned res ∧
      (res ≠ [] → cellAt res goal.1 goal.2 = some State.finish ∧
        (init ≠ goal → cellAt res init.1 init.2 = some State.start)) := by
  rcases search_spec hs hr hi goal hf with ⟨h, -⟩ | ⟨res, h, hfound⟩
  · exact ⟨[], h, fun hne => absurd rfl hne⟩
  · refine ⟨res, h, fun _ => ⟨hfound.goal_finish, fun hig => hfound.init_start ?_⟩⟩
    rintro ⟨h1, h2⟩
    exact hig (Prod.ext h1 h2)

/-- C6, on the 1 by 2 empty grid from the left cell to the right cell, where the
search succeeds. -/
theorem C6_endpoints_marked_witness :
    search stable_sort_model 3 [[State.empty, State.empty]] (0, 0) (0, 1)
        = Outcome.returned [[State.start, State.finish]] ∧
    ∃ res, search stable_sort_model 3 [[State.empty, State.empty]] (0, 0) (0, 1)
        = Outcome.returned res ∧
      (res ≠ [] → cellAt res 0 1 = some State.finish ∧
        (((0, 0) : Int × Int) ≠ (0, 1) → cellAt res 0 0 = some State.start)) :=
  ⟨by decide, C6_endpoints_marked stable_sort_model stable_sort_model_contract
    [[State.empty, State.empty]] 1 2 (by unfold Rect; decide) (0, 0) (0, 1)
    (by unfold InBounds; decide) 3 (by decide)⟩

/-- C7: on the ragged grid with rows of lengths 1 and 2, the cell `(1, 1)` exists
and is `empty`, yet `check_valid_cell` answers false: the column bound is taken
from row 0 instead of row `x`. -/
theorem C7_check_valid_cell_ragged_false :
    cellAt [[State.empty], [State.empty, State.empty]] 1 1 = some State.empty ∧
    check_valid_cell 1 1 [[State.empty], [State.empty, State.empty]] = some false := by
  decide

/-- C8: on the ragged grid with rows of lengths 2 and 1, the bounds test of
`check_valid_cell` passes for `(1, 1)` because row 0 has two cells, and the
read of `grid[1][1]` that follows is outside row 1. -/
theorem C8_check_valid_cell_ragged_out_of_bounds :
    cellAt [[State.empty, State.empty], [State.empty]] 1 1 = none ∧
    check_valid_cell 1 1 [[State.empty, State.empty], [State.empty]] = none := by
  decide

/-- C9, as the claim puts it, fails in two places.  On a grid whose row 1 is
shorter than row 0, once the neighbour `(0, 0)` of `(0, 1)` is queued, the
neighbour `(1, 1)` passes the bounds test taken from row 0 and `grid[1][1]` is
read outside row 1: the call is undefined.
And for a node with `g = 2147483647` the addition `g + 1` wraps round: the node
queued has `g = -2147483648`. -/
theorem C9_expand_neighbors_counterexample :
    Machine.expand_neighbors ⟨0, 1, 0, 1⟩ (0, 0) []
        [[State.empty, State.empty], [State.empty]] = none ∧
    check_valid_cell (0 + 1) (1 + 0) [[State.empty, State.closed], [State.empty]] = none ∧
    cellAt [[State.empty, State.empty], [State.empty]] 1 1 = none ∧
    IsInt 2147483647 ∧
    Machine.expand_neighbors ⟨0, 0, 2147483647, 1⟩ (0, 1) []
        [[State.path, State.empty]]
      = some ([⟨0, 1, -2147483648, 0⟩], [[State.path, State.closed]]) ∧
    (-2147483648 : Int) ≠ 2147483647 + 1 := by
  refine ⟨by decide, by decide, by decide, by unfold IsInt; decide, by decide, by decide⟩

/-- C9: on a rectangular grid, for a popped node for which `x - 1`, `x + 1`,
`y - 1`, `y + 1` and `g + 1` fit in an `int`, `expand_neighbors` completes; the
open vector is the old one followed, in the order up, left, down, right, by a
node `{nx, ny, g + 1, heuristic(nx, ny, goal)}` for exactly the neighbours that
pass `check_valid_cell`; exactly those neighbours' cells become `closed`, every
other cell keeps its state and the rows keep their lengths.  The check made when
a neighbour's turn comes agrees with the check on the grid at the call, because
the passes before it only wrote other cells. -/
theorem C9_expand_neighbors_spec (curr : Node) (goal : Int × Int) (openv : List Node)
    (grid : Grid) (R C : Nat) (hr : Rect grid R C)
    (hx : IsInt (curr.x - 1) ∧ IsInt (curr.x + 1))
    (hy : IsInt (curr.y - 1) ∧ IsInt (curr.y + 1)) (hg : IsInt (curr.g + 1)) :
    ∃ o2 g2, Machine.expand_neighbors curr goal openv grid = some (o2, g2) ∧
      o2 = openv ++ ((neighbours curr.x curr.y).filter
        (fun c => decide (check_valid_cell c.1 c.2 grid = some true))).map
        (fun c => (⟨c.1, c.2, curr.g + 1, Machine.heuristic c.1 c.2 goal.1 goal.2⟩ : Node)) ∧
      g2.map List.length = grid.map List.length ∧
      (∀ x y, cellAt g2 x y =
        if (x, y) ∈ neighbours curr.x curr.y ∧ check_valid_cell x y grid = some true
        then some State.closed else cellAt grid x y) ∧
      (∀ (k : Nat) (d : Int × Int), deltas[k]? = some d →
        ∃ o1 g1, Machine.expand_loop curr.x curr.y curr.g goal (deltas.take k) openv grid
            = some (o1, g1) ∧
          check_valid_cell (curr.x + d.1) (curr.y + d.2) g1 =
            check_valid_cell (curr.x + d.1) (curr.y + d.2) grid) := by
  have hov := deltas_isInt hx hy
  obtain ⟨o2, g2, h, -⟩ := machine_expand_loop_rect curr.x curr.y curr.g goal hg deltas hov
    openv grid hr
  obtain ⟨ho, hlen, hcl, hfr⟩ := machine_expand_loop_spec curr.x curr.y curr.g goal hg deltas
    deltas_nodup hov openv grid o2 g2 h
  refine ⟨o2, g2, h, ?_, hlen, ?_, ?_⟩
  · rw [ho, neighbours_eq_map, List.filter_map, List.map_map]
    rfl
  · intro x y
    split
    · rename_i hc
      obtain ⟨hm, hv⟩ := hc
      rw [neighbours_eq_map] at hm
      obtain ⟨d, hd, hxy⟩ := List.mem_map.1 hm
      simp only [Prod.mk.injEq] at hxy
      obtain ⟨rfl, rfl⟩ := hxy
      exact hcl d (mem_validDeltas.2 ⟨hd, hv⟩)
    · rename_i hc
      apply hfr
      intro d hd hxy
      apply hc
      obtain ⟨rfl, rfl⟩ := hxy
      refine ⟨?_, (mem_validDeltas.1 hd).2⟩
      rw [neighbours_eq_map]
      exact List.mem_map.2 ⟨d, (mem_validDeltas.1 hd).1, rfl⟩
  · intro k d hk
    have hsub : (deltas.take k).Sublist deltas := List.take_sublist k deltas
    have hovk : ∀ e ∈ deltas.take k, IsInt (curr.x + e.1) ∧ IsInt (curr.y + e.2) :=
      fun e he => hov e (hsub.subset he)
    obtain ⟨o1, g1, h1, -⟩ := machine_expand_loop_rect curr.x curr.y curr.g goal hg
      (deltas.take k) hovk openv grid hr
    refine ⟨o1, g1, h1, ?_⟩
    obtain ⟨-, hlen1, -, hfr1⟩ := machine_expand_loop_spec curr.x curr.y curr.g goal hg
      (deltas.take k) (deltas_nodup.sublist hsub) hovk openv grid o1 g1 h1
    apply check_valid_cell_congr hlen1
    apply hfr1
    intro e he hxy
    have he1 : e ∈ deltas.take k := (mem_validDeltas.1 he).1
    have hde : d = e := Prod.ext (by omega) (by omega)
    subst hde
    have hlt : k < 4 := (List.getElem?_eq_some.1 hk).1
    interval_cases k <;> simp [deltas] at hk he1 <;> subst hk <;> simp at he1

/-- C9, at a concrete call: from the node at `(0, 0)` of a 2 by 2 grid the loop
completes and queues the neighbours below and to the right, in that order. -/
theorem C9_expand_neighbors_spec_witness :
    Machine.expand_neighbors ⟨0, 0, 0, 2⟩ (1, 1) []
        [[State.path, State.empty], [State.empty, State.empty]]
      = some ([⟨1, 0, 1, 1⟩, ⟨0, 1, 1, 1⟩],
          [[State.path, State.closed], [State.closed, State.empty]]) ∧
    ∃ o2 g2, Machine.expand_neighbors ⟨0, 0, 0, 2⟩ (1, 1) []
        [[State.path, State.empty], [State.empty, State.empty]] = some (o2, g2) ∧
      o2 = ([] : List Node) ++ ((neighbours 0 0).filter
        (fun c => decide (check_valid_cell c.1 c.2
          [[State.path, State.empty], [State.empty, State.empty]] = some true))).map
        (fun c => (⟨c.1, c.2, (0 : Int) + 1, Machine.heuristic c.1 c.2 1 1⟩ : Node)) :=
  ⟨by decide, by
    obtain ⟨o2, g2, h1, h2, -⟩ := C9_expand_neighbors_spec ⟨0, 0, 0, 2⟩ (1, 1) []
      [[State.path, State.empty], [State.empty, State.empty]] 2 2 (by unfold Rect; decide)
      (by unfold IsInt; decide) (by unfold IsInt; decide) (by unfold IsInt; decide)
    exact ⟨o2, g2, h1, h2⟩⟩

/-- C10, as the claim puts it, fails where a sum `g + h` does not fit in an
`int`: for the node `{0, 0, 2147483647, 1}` the sum wraps round to
`-2147483648`, so `compare` ranks the node `{0, 0, 0, 0}` before it and the
node extracted is the one whose `g + h` is the larger. -/
theorem C10_extract_overflow_counterexample :
    IsInt 2147483647 ∧ IsInt 1 ∧ IsInt 0 ∧
    Machine.compare ⟨0, 0, 0, 0⟩ ⟨0, 0, 2147483647, 1⟩ = true ∧
    Machine.cell_sort libstdcxx_sort [⟨0, 0, 0, 0⟩, ⟨0, 0, 2147483647, 1⟩]
      = [⟨0, 0, 0, 0⟩, ⟨0, 0, 2147483647, 1⟩] ∧
    libstdcxx_sort_run Machine.compare [⟨0, 0, 0, 0⟩, ⟨0, 0, 2147483647, 1⟩]
      = some [⟨0, 0, 0, 0⟩, ⟨0, 0, 2147483647, 1⟩] ∧
    Machine.cell_sort stable_sort_model [⟨0, 0, 0, 0⟩, ⟨0, 0, 2147483647, 1⟩]
      = [⟨0, 0, 0, 0⟩, ⟨0, 0, 2147483647, 1⟩] ∧
    ([⟨0, 0, 0, 0⟩, ⟨0, 0, 2147483647, 1⟩] : List Node).getLast?
      = some ⟨0, 0, 2147483647, 1⟩ ∧
    ¬ ((2147483647 : Int) + 1 ≤ 0 + 0) := by
  refine ⟨by unfold IsInt; decide, by unfold IsInt; decide, by unfold IsInt; decide,
    by decide, by decide, by decide, by decide, by decide, by decide⟩

/-- C10: for a non-empty open vector, `cell_sort` followed by `back` and
`pop_back` extracts a node whose f-value, the `int` sum `g + h` that `compare`
computes, is at most that of every node left; the nodes left together with the
extracted node are a rearrangement of the open vector; `cell_sort` itself
yields a rearrangement in non-increasing order of that f-value.  When `g + h`
fits in an `int` for every node of the vector, the f-value is `g + h` itself. -/
theorem C10_extract_least_f (stdsort : (Node → Node → Bool) → List Node → List Node)
    (hs : Machine.SortContract stdsort) (openv : List Node) (hne : openv ≠ []) :
    ∃ curr, (Machine.cell_sort stdsort openv).getLast? = some curr ∧
      ((Machine.cell_sort stdsort openv).dropLast ++ [curr]).Perm openv ∧
      (Machine.cell_sort stdsort openv).Perm openv ∧
      (∀ n ∈ (Machine.cell_sort stdsort openv).dropLast,
        wrap_int (curr.g + curr.h) ≤ wrap_int (n.g + n.h)) ∧
      (Machine.cell_sort stdsort openv).Pairwise
        (fun a b => wrap_int (b.g + b.h) ≤ wrap_int (a.g + a.h)) ∧
      ((∀ n ∈ openv, IsInt (n.g + n.h)) →
        (∀ n ∈ (Machine.cell_sort stdsort openv).dropLast, curr.g + curr.h ≤ n.g + n.h) ∧
        (Machine.cell_sort stdsort openv).Pairwise (fun a b => b.g + b.h ≤ a.g + a.h)) := by
  obtain ⟨hperm, hsort⟩ := hs openv
  have hne1 : Machine.cell_sort stdsort openv ≠ [] := by
    intro h
    unfold Machine.cell_sort at h
    rw [h] at hperm
    exact hne (List.Perm.nil_eq hperm).symm
  have hlast := List.getLast?_eq_getLast _ hne1
  have hsplit := List.dropLast_concat_getLast hne1
  have hsorted : (Machine.cell_sort stdsort openv).Pairwise
      (fun a b => wrap_int (b.g + b.h) ≤ wrap_int (a.g + a.h)) :=
    hsort.imp (fun h => (machine_compare_eq_false_iff _ _).1 h)
  have hmin : ∀ n ∈ (Machine.cell_sort stdsort openv).dropLast,
      wrap_int (((Machine.cell_sort stdsort openv).getLast hne1).g +
        ((Machine.cell_sort stdsort openv).getLast hne1).h) ≤ wrap_int (n.g + n.h) := by
    have hp := hsorted
    rw [← hsplit, List.pairwise_append] at hp
    intro n hn
    exact hp.2.2 n hn _ (List.mem_singleton_self _)
  have hmem : ∀ n ∈ Machine.cell_sort stdsort openv, n ∈ openv :=
    fun n hn => hperm.mem_iff.1 hn
  refine ⟨_, hlast, ?_, hperm, hmin, hsorted, ?_⟩
  · rw [hsplit]; exact hperm
  · intro hint
    constructor
    · intro n hn
      have h1 := hmin n hn
      rw [wrap_int_of_isInt (hint n (hmem n (List.mem_of_mem_dropLast hn))),
        wrap_int_of_isInt (hint _ (hmem _ (List.getLast_mem hne1)))] at h1
      exact h1
    · refine hsorted.imp_of_mem ?_
      intro a b ha hb hab
      rw [wrap_int_of_isInt (hint a (hmem a ha)), wrap_int_of_isInt (hint b (hmem b hb))] at hab
      exact hab

/-- C10, at a concrete open vector sorted by the order-preserving sort. -/
theorem C10_extract_least_f_witness :
    (∀ n ∈ ([⟨0, 0, 1, 5⟩, ⟨0, 1, 1, 3⟩, ⟨1, 0, 2, 4⟩] : List Node), IsInt (n.g + n.h)) ∧
    ∃ curr, (Machine.cell_sort stable_sort_model
          [⟨0, 0, 1, 5⟩, ⟨0, 1, 1, 3⟩, ⟨1, 0, 2, 4⟩]).getLast? = some curr ∧
      ((Machine.cell_sort stable_sort_model
          [⟨0, 0, 1, 5⟩, ⟨0, 1, 1, 3⟩, ⟨1, 0, 2, 4⟩]).dropLast
        ++ [curr]).Perm [⟨0, 0, 1, 5⟩, ⟨0, 1, 1, 3⟩, ⟨1, 0, 2, 4⟩] ∧
      (Machine.cell_sort stable_sort_model [⟨0, 0, 1, 5⟩, ⟨0, 1, 1, 3⟩, ⟨1, 0, 2, 4⟩]).Perm
        [⟨0, 0, 1, 5⟩, ⟨0, 1, 1, 3⟩, ⟨1, 0, 2, 4⟩] ∧
      (∀ n ∈ (Machine.cell_sort stable_sort_model
          [⟨0, 0, 1, 5⟩, ⟨0, 1, 1, 3⟩, ⟨1, 0, 2, 4⟩]).dropLast,
        curr.g + curr.h ≤ n.g + n.h) ∧
      (Machine.cell_sort stable_sort_model [⟨0, 0, 1, 5⟩, ⟨0, 1, 1, 3⟩, ⟨1, 0, 2, 4⟩]).Pairwise
        (fun a b => b.g + b.h ≤ a.g + a.h) := by
  have hint : ∀ n ∈ ([⟨0, 0, 1, 5⟩, ⟨0, 1, 1, 3⟩, ⟨1, 0, 2, 4⟩] : List Node),
      IsInt (n.g + n.h) := by
    unfold IsInt
    decide
  obtain ⟨curr, h1, h2, h3, -, -, h6⟩ :=
    C10_extract_least_f stable_sort_model stable_sort_model_machine_contract
      [⟨0, 0, 1, 5⟩, ⟨0, 1, 1, 3⟩, ⟨1, 0, 2, 4⟩] (by decide)
  exact ⟨hint, curr, h1, h2, h3, (h6 hint).1, (h6 hint).2⟩

/-- C11: on a rectangular grid with an in-bounds start, `search` terminates (it
returns once it is given `R * C + 1` units of fuel), and the number of passes
of the loop that extract a node is at most the number of cells `R * C`; the
passes listed with `R * C + 1` units of fuel are those of the whole run. -/
theorem C11_search_terminates (stdsort : (Node → Node → Bool) → List Node → List Node)
    (hs : SortContract stdsort) (grid : Grid) (R C : Nat) (hr : Rect grid R C)
    (init goal : Int × Int) (hi : InBounds R C init) :
    (∀ fuel, R * C + 1 ≤ fuel →
      ∃ res, search stdsort fuel grid init goal = Outcome.returned res) ∧
    (∀ fuel, (search_passes stdsort fuel grid init goal).length ≤ R * C) ∧
    (∀ fuel, R * C + 1 ≤ fuel →
      search_passes stdsort fuel grid init goal =
        search_passes stdsort (R * C + 1) grid init goal) := by
  obtain ⟨grid1, -, hinv, hpasses, -⟩ := search_passes_init hr hi goal
  refine ⟨?_, ?_, ?_⟩
  · intro fuel hf
    rcases search_spec hs hr hi goal hf with ⟨h, -⟩ | ⟨res, h, -⟩
    · exact ⟨[], h⟩
    · exact ⟨res, h⟩
  · intro fuel
    rw [hpasses]
    have := loop_passes_length hs fuel _ grid1 hinv
    omega
  · intro fuel hf
    rw [hpasses, hpasses]
    have key : ∀ k : Nat, loop_passes stdsort init goal (R * C + 1 + k)
        [⟨init.1, init.2, 0, heuristic init.1 init.2 goal.1 goal.2⟩] grid1 =
        loop_passes stdsort init goal (R * C + 1)
          [⟨init.1, init.2, 0, heuristic init.1 init.2 goal.1 goal.2⟩] grid1 := by
      intro k
      induction k with
      | zero => rfl
      | succ k ih =>
        rw [← ih]
        exact loop_passes_complete hs (R * C + 1 + k) _ grid1 hinv (by omega)
    obtain ⟨k, rfl⟩ := Nat.exists_eq_add_of_le hf
    exact key k

/-- C11, on the empty 2 by 2 grid: the search returns and extracts at most 4 nodes. -/
theorem C11_search_terminates_witness :
    (∀ fuel, 2 * 2 + 1 ≤ fuel →
      ∃ res, search stable_sort_model fuel [[State.empty, State.empty],
        [State.empty, State.empty]] (0, 0) (1, 1) = Outcome.returned res) ∧
    (∀ fuel, (search_passes stable_sort_model fuel [[State.empty, State.empty],
        [State.empty, State.empty]] (0, 0) (1, 1)).length ≤ 2 * 2) ∧
    (∀ fuel, 2 * 2 + 1 ≤ fuel →
      search_passes stable_sort_model fuel [[State.empty, State.empty],
        [State.empty, State.empty]] (0, 0) (1, 1) =
      search_passes stable_sort_model (2 * 2 + 1) [[State.empty, State.empty],
        [State.empty, State.empty]] (0, 0) (1, 1)) :=
  C11_search_terminates stable_sort_model stable_sort_model_contract
    [[State.empty, State.empty], [State.empty, State.empty]] 2 2 (by unfold Rect; decide)
    (0, 0) (1, 1) (by unfold InBounds; decide)

/-- C12, as the claim puts it, fails when the start cell is an obstacle:
`add_to_open` overwrites it, so on this grid the obstacle at `(0, 0)` is
`closed` at the first loop test and `start` in the returned grid. -/
theorem C12_obstacle_start_counterexample :
    cellAt [[State.obstacle, State.empty]] 0 0 = some State.obstacle ∧
    (search_passes stable_sort_model 3 [[State.obstacle, State.empty]] (0, 0) (0, 1)).map
        (fun p => p.grid)
      = [[[State.closed, State.empty]], [[State.path, State.closed]]] ∧
    search stable_sort_model 3 [[State.obstacle, State.empty]] (0, 0) (0, 1)
      = Outcome.returned [[State.start, State.finish]] ∧
    cellAt [[State.start, State.finish]] 0 0 ≠ some State.obstacle := by
  decide

/-- C12: on a rectangular grid with an in-bounds start, every cell other than
the start cell that is `obstacle` in the input grid is `obstacle` at every
loop test of `search` and in the grid that `search` returns on success. -/
theorem C12_obstacles_stay (stdsort : (Node → Node → Bool) → List Node → List Node)
    (hs : SortContract stdsort) (grid : Grid) (R C : Nat) (hr : Rect grid R C)
    (init goal : Int × Int) (hi : InBounds R C init) :
    (∀ fuel, ∀ p ∈ search_passes stdsort fuel grid init goal, ∀ x y,
      cellAt grid x y = some State.obstacle → ¬ (x = init.1 ∧ y = init.2) →
      cellAt p.grid x y = some State.obstacle) ∧
    (∀ fuel, R * C + 1 ≤ fuel →
      ∃ res, search stdsort fuel grid init goal = Outcome.returned res ∧
        (res ≠ [] → ∀ x y,
          cellAt grid x y = some State.obstacle → ¬ (x = init.1 ∧ y = init.2) →
          cellAt res x y = some State.obstacle)) := by
  obtain ⟨grid1, -, hinv, hpasses, -⟩ := search_passes_init hr hi goal
  constructor
  · intro fuel p hp x y hob hni
    rw [hpasses] at hp
    obtain ⟨hinvp, -, -⟩ := loop_passes_inv hs fuel _ grid1 hinv p hp
    rcases hinvp.frame x y with h | ⟨hen, -⟩
    · rw [h]; exact hob
    · rcases hen with hen | hen
      · exact absurd hen hni
      · rw [hob] at hen; simp at hen
  · intro fuel hf
    rcases search_spec hs hr hi goal hf with ⟨h, -⟩ | ⟨res, h, hfound⟩
    · exact ⟨[], h, fun hne => absurd rfl hne⟩
    · refine ⟨res, h, fun _ x y hob hni => ?_⟩
      rcases hfound.frame x y with h1 | ⟨hen, -⟩
      · rw [h1]; exact hob
      · rcases hen with hen | hen
        · exact absurd hen hni
        · rw [hob] at hen; simp at hen

/-- C12, on a 2 by 2 grid with one obstacle, which the search goes round. -/
theorem C12_obstacles_stay_witness :
    search stable_sort_model 5 [[State.empty, State.obstacle], [State.empty, State.empty]]
        (0, 0) (1, 1)
      = Outcome.returned [[State.start, State.obstacle], [State.path, State.finish]] ∧
    (∀ fuel, ∀ p ∈ search_passes stable_sort_model fuel
        [[State.empty, State.obstacle], [State.empty, State.empty]] (0, 0) (1, 1), ∀ x y,
      cellAt [[State.empty, State.obstacle], [State.empty, State.empty]] x y
        = some State.obstacle → ¬ (x = 0 ∧ y = 0) →
      cellAt p.grid x y = some State.obstacle) ∧
    (∀ fuel, 2 * 2 + 1 ≤ fuel →
      ∃ res, search stable_sort_model fuel
          [[State.empty, State.obstacle], [State.empty, State.empty]] (0, 0) (1, 1)
          = Outcome.returned res ∧
        (res ≠ [] → ∀ x y,
          cellAt [[State.empty, State.obstacle], [State.empty, State.empty]] x y
            = some State.obstacle → ¬ (x = 0 ∧ y = 0) →
          cellAt res x y = some State.obstacle)) :=
  ⟨by decide, C12_obstacles_stay stable_sort_model stable_sort_model_contract
    [[State.empty, State.obstacle], [State.empty, State.empty]] 2 2 (by unfold Rect; decide)
    (0, 0) (1, 1) (by unfold InBounds; decide)⟩

/-- C13, as the claim puts it, fails where the distance does not fit in an
`int`: at `(2147483647, 0)` and `(-1, 0)` the subtraction wraps round and
`heuristic` returns `-2147483648`, while the Manhattan distance is
`2147483648`. -/
theorem C13_heuristic_overflow_counterexample :
    IsInt 2147483647 ∧ IsInt (-1) ∧ IsInt 0 ∧
    Machine.heuristic 2147483647 0 (-1) 0 = -2147483648 ∧
    |(2147483647 : Int) - (-1)| + |(0 : Int) - 0| = 2147483648 ∧
    ¬ (0 ≤ Machine.heuristic 2147483647 0 (-1) 0) := by
  refine ⟨by unfold IsInt; decide, by unfold IsInt; decide, by unfold IsInt; decide,
    by decide, by decide, by decide⟩

/-- C13: `heuristic` returns the Manhattan distance `|x1 - x2| + |y1 - y2|`
exactly when that distance is at most `2147483647`, the largest `int`, and its
result is then non-negative. -/
theorem C13_heuristic_manhattan (x1 y1 x2 y2 : Int) :
    (Machine.heuristic x1 y1 x2 y2 = |x1 - x2| + |y1 - y2| ↔
      |x1 - x2| + |y1 - y2| ≤ 2147483647) ∧
    (|x1 - x2| + |y1 - y2| ≤ 2147483647 → 0 ≤ Machine.heuristic x1 y1 x2 y2) := by
  rw [← heuristic_eq_abs]
  have hrange := machine_heuristic_isInt x1 y1 x2 y2
  have hnn : 0 ≤ heuristic x1 y1 x2 y2 := by unfold heuristic; omega
  unfold IsInt at hrange
  refine ⟨⟨fun h => by omega, fun h => machine_heuristic_eq h⟩, fun h => ?_⟩
  rw [machine_heuristic_eq h]
  exact hnn

/-- C13, at `(3, 7)` and `(5, 2)`: the distance is 7. -/
theorem C13_heuristic_manhattan_witness :
    Machine.heuristic 3 7 5 2 = 7 ∧ 0 ≤ Machine.heuristic 3 7 5 2 :=
  ⟨by
      have h := ((C13_heuristic_manhattan 3 7 5 2).1).2 (by decide)
      rw [h]; decide,
    (C13_heuristic_manhattan 3 7 5 2).2 (by decide)⟩

/-- C14: `heuristic` is symmetric in its two coordinate pairs, at all arguments:
where a subtraction wraps round, it does so on both sides. -/
theorem C14_heuristic_symmetric (x1 y1 x2 y2 : Int) :
    Machine.heuristic x1 y1 x2 y2 = Machine.heuristic x2 y2 x1 y1 := by
  unfold Machine.heuristic abs_int wrap_int
  split <;> split <;> split <;> split <;> omega

/-- C15, as the claim puts it, fails where a distance does not fit in an `int`:
with the goal at `(-2147483647, 0)` the cell `(0, 0)` has heuristic
`2147483647`, and its neighbour `(1, 0)` has heuristic `-2147483648`. -/
theorem C15_heuristic_step_counterexample :
    IsInt (-2147483647) ∧ ((1, 0) : Int × Int) ∈ deltas ∧
    Machine.heuristic 0 0 (-2147483647) 0 = 2147483647 ∧
    Machine.heuristic (0 + 1) (0 + 0) (-2147483647) 0 = -2147483648 ∧
    ¬ (Machine.heuristic 0 0 (-2147483647) 0
        ≤ 1 + Machine.heuristic (0 + 1) (0 + 0) (-2147483647) 0) := by
  refine ⟨by unfold IsInt; decide, by decide, by decide, by decide, by decide⟩

/-- C15: `heuristic` is 0 at the goal; it drops by at most 1 along each of the
four deltas whenever the neighbour's Manhattan distance to the goal is at most
`2147483647`; and it never exceeds the number of steps of a 4-directional walk
to the goal. -/
theorem C15_heuristic_consistent :
    (∀ gx gy : Int, Machine.heuristic gx gy gx gy = 0) ∧
    (∀ (x y gx gy : Int), ∀ d ∈ deltas,
      |x + d.1 - gx| + |y + d.2 - gy| ≤ 2147483647 →
      Machine.heuristic x y gx gy ≤ 1 + Machine.heuristic (x + d.1) (y + d.2) gx gy) ∧
    (∀ (x y gx gy : Int) (k : Nat), UnitWalk (x, y) (gx, gy) k →
      Machine.heuristic x y gx gy ≤ (k : Int)) := by
  have hle : ∀ x1 y1 x2 y2 : Int,
      Machine.heuristic x1 y1 x2 y2 ≤ heuristic x1 y1 x2 y2 := by
    intro x1 y1 x2 y2
    by_cases h : heuristic x1 y1 x2 y2 ≤ 2147483647
    · rw [machine_heuristic_eq h]
    · have := (machine_heuristic_isInt x1 y1 x2 y2).2
      omega
  refine ⟨fun gx gy => by rw [machine_heuristic_eq] <;> simp [heuristic], ?_, ?_⟩
  · intro x y gx gy d hd hb
    rw [← heuristic_eq_abs] at hb
    rw [machine_heuristic_eq hb]
    have h1 := hle x y gx gy
    have h2 : heuristic x y gx gy ≤ 1 + heuristic (x + d.1) (y + d.2) gx gy := by
      simp only [deltas, List.mem_cons, List.mem_singleton, List.not_mem_nil, or_false] at hd
      unfold heuristic
      rcases hd with rfl | rfl | rfl | rfl <;> simp only <;> omega
    omega
  · intro x y gx gy k hw
    have key : ∀ (a c : Int × Int) (n : Nat), UnitWalk a c n →
        heuristic a.1 a.2 c.1 c.2 ≤ (n : Int) := by
      intro a c n h
      induction h with
      | refl => simp [heuristic]
      | step d hw hd ih =>
        rename_i a c n
        have := heuristic_step a.1 a.2 c.1 c.2 hd
        push_cast
        omega
    have := key (x, y) (gx, gy) k hw
    have := hle x y gx gy
    simp only at *
    omega

/-- C15, at concrete cells: one step down from `(0, 0)` reaches `(1, 0)`. -/
theorem C15_heuristic_consistent_witness :
    Machine.heuristic 0 0 1 0 ≤ 1 + Machine.heuristic (0 + 1) (0 + 0) 1 0 ∧
    Machine.heuristic 0 0 1 0 ≤ ((1 : Nat) : Int) :=
  ⟨C15_heuristic_consistent.2.1 0 0 1 0 (1, 0) (by decide) (by decide),
    C15_heuristic_consistent.2.2 0 0 1 0 1
      (by
        have w := UnitWalk.step (1, 0) (UnitWalk.refl (0, 0)) (by decide)
        simpa using w)⟩

/-- C16: on the 3 by 5 grid with one obstacle at `(1, 1)`, from `(0, 4)` to
`(1, 0)`, the shortest walk has 5 steps, and under the order-preserving sort
the loop extracts the goal node with `g = 7`: the cell `(0, 2)` was queued and
closed from `(1, 2)` with `g = 4` before `(0, 3)` could reach it with `g = 2`.
On a second grid a walk of 7 steps exists and both sort models extract the goal
node with `g = 9`. -/
theorem C16_goal_cost_not_shortest :
    ShortestWalk
      [[State.empty, State.empty, State.empty, State.empty, State.empty],
       [State.empty, State.obstacle, State.empty, State.empty, State.empty],
       [State.empty, State.empty, State.empty, State.empty, State.empty]] (0, 4) (1, 0) 5 ∧
    (∃ p ∈ search_passes stable_sort_model 16
      [[State.empty, State.empty, State.empty, State.empty, State.empty],
       [State.empty, State.obstacle, State.empty, State.empty, State.empty],
       [State.empty, State.empty, State.empty, State.empty, State.empty]] (0, 4) (1, 0),
      p.curr.x = 1 ∧ p.curr.y = 0 ∧ p.curr.g = 7) ∧
    Walk
      [[State.empty, State.obstacle, State.empty, State.empty, State.empty],
       [State.empty, State.obstacle, State.empty, State.obstacle, State.empty],
       [State.empty, State.empty, State.empty, State.empty, State.empty]] (1, 4) (0, 0) 7 ∧
    (∃ p ∈ search_passes stable_sort_model 16
      [[State.empty, State.obstacle, State.empty, State.empty, State.empty],
       [State.empty, State.obstacle, State.empty, State.obstacle, State.empty],
       [State.empty, State.empty, State.empty, State.empty, State.empty]] (1, 4) (0, 0),
      p.curr.x = 0 ∧ p.curr.y = 0 ∧ p.curr.g = 9) ∧
    (∃ p ∈ search_passes reversing_sort_model 16
      [[State.empty, State.obstacle, State.empty, State.empty, State.empty],
       [State.empty, State.obstacle, State.empty, State.obstacle, State.empty],
       [State.empty, State.empty, State.empty, State.empty, State.empty]] (1, 4) (0, 0),
      p.curr.x = 0 ∧ p.curr.y = 0 ∧ p.curr.g = 9) := by
  refine ⟨⟨?_, ?_⟩, by decide, ?_, by decide, by decide⟩
  · have w1 : Walk
        [[State.empty, State.empty, State.empty, State.empty, State.empty],
         [State.empty, State.obstacle, State.empty, State.empty, State.empty],
         [State.empty, State.empty, State.empty, State.empty, State.empty]] (0, 4) (0, 3) 1 := by
      have w0 : Walk
        [[State.empty, State.empty, State.empty, State.empty, State.empty],
         [State.empty, State.obstacle, State.empty, State.empty, State.empty],
         [State.empty, State.empty, State.empty, State.empty, State.empty]] (0, 4) (0, 4) 0 := Walk.base
      have w := Walk.step (0, -1) w0 (by decide) (by decide)
      simpa using w
    have w2 : Walk
        [[State.empty, State.empty, State.empty, State.empty, State.empty],
         [State.empty, State.obstacle, State.empty, State.empty, State.empty],
         [State.empty, State.empty, State.empty, State.empty, State.empty]] (0, 4) (0, 2) 2 := by
      have w := Walk.step (0, -1) w1 (by decide) (by decide)
      simpa using w
    have w3 : Walk
        [[State.empty, State.empty, State.empty, State.empty, State.empty],
         [State.empty, State.obstacle, State.empty, State.empty, State.empty],
         [State.empty, State.empty, State.empty, State.empty, State.empty]] (0, 4) (0, 1) 3 := by
      have w := Walk.step (0, -1) w2 (by decide) (by decide)
      simpa using w
    have w4 : Walk
        [[State.empty, State.empty, State.empty, State.empty, State.empty],
         [State.empty, State.obstacle, State.empty, State.empty, State.empty],
         [State.empty, State.empty, State.empty, State.empty, State.empty]] (0, 4) (0, 0) 4 := by
      have w := Walk.step (0, -1) w3 (by decide) (by decide)
      simpa using w
    have w := Walk.step (1, 0) w4 (by decide) (by decide)
    simpa using w
  · intro k hk
    have := walk_ge_heuristic hk
    simp [heuristic] at this
    exact_mod_cast this
  · have w1 : Walk
        [[State.empty, State.obstacle, State.empty, State.empty, State.empty],
         [State.empty, State.obstacle, State.empty, State.obstacle, State.empty],
         [State.empty, State.empty, State.empty, State.empty, State.empty]] (1, 4) (2, 4) 1 := by
      have w0 : Walk
        [[State.empty, State.obstacle, State.empty, State.empty, State.empty],
         [State.empty, State.obstacle, State.empty, State.obstacle, State.empty],
         [State.empty, State.empty, State.empty, State.empty, State.empty]] (1, 4) (1, 4) 0 := Walk.base
      have w := Walk.step (1, 0) w0 (by decide) (by decide)
      simpa using w
    have w2 : Walk
        [[State.empty, State.obstacle, State.empty, State.empty, State.empty],
         [State.empty, State.obstacle, State.empty, State.obstacle, State.empty],
         [State.empty, State.empty, State.empty, State.empty, State.empty]] (1, 4) (2, 3) 2 := by
      have w := Walk.step (0, -1) w1 (by decide) (by decide)
      simpa using w
    have w3 : Walk
        [[State.empty, State.obstacle, State.empty, State.empty, State.empty],
         [State.empty, State.obstacle, State.empty, State.obstacle, State.empty],
         [State.empty, State.empty, State.empty, State.empty, State.empty]] (1, 4) (2, 2) 3 := by
      have w := Walk.step (0, -1) w2 (by decide) (by decide)
      simpa using w
    have w4 : Walk
        [[State.empty, State.obstacle, State.empty, State.empty, State.empty],
         [State.empty, State.obstacle, State.empty, State.obstacle, State.empty],
         [State.empty, State.empty, State.empty, State.empty, State.empty]] (1, 4) (2, 1) 4 := by
      have w := Walk.step (0, -1) w3 (by decide) (by decide)
      simpa using w
    have w5 : Walk
        [[State.empty, State.obstacle, State.empty, State.empty, State.empty],
         [State.empty, State.obstacle, State.empty, State.obstacle, State.empty],
         [State.empty, State.empty, State.empty, State.empty, State.empty]] (1, 4) (2, 0) 5 := by
      have w := Walk.step (0, -1) w4 (by decide) (by decide)
      simpa using w
    have w6 : Walk
        [[State.empty, State.obstacle, State.empty, State.empty, State.empty],
         [State.empty, State.obstacle, State.empty, State.obstacle, State.empty],
         [State.empty, State.empty, State.empty, State.empty, State.empty]] (1, 4) (1, 0) 6 := by
      have w := Walk.step (-1, 0) w5 (by decide) (by decide)
      simpa using w
    have w := Walk.step (-1, 0) w6 (by decide) (by decide)
    simpa using w

/-- C17: on a rectangular grid with an in-bounds start, at every loop test of
`search` the open vector holds no two nodes with the same coordinates and every
node in it refers to a `closed` cell; a cell extracted in one pass is `path`
from then on, so no later open vector holds a node at its coordinates: no
coordinate is queued twice. -/
theorem C17_open_nodes_distinct_closed
    (stdsort : (Node → Node → Bool) → List Node → List Node)
    (hs : SortContract stdsort) (grid : Grid) (R C : Nat) (hr : Rect grid R C)
    (init goal : Int × Int) (hi : InBounds R C init) (fuel : Nat) :
    (∀ p ∈ search_passes stdsort fuel grid init goal,
      (p.openv.map (fun n => (n.x, n.y))).Nodup ∧
      ∀ n ∈ p.openv, cellAt p.grid n.x n.y = some State.closed) ∧
    (search_passes stdsort fuel grid init goal).Pairwise
      (fun p q => cellAt q.grid p.curr.x p.curr.y = some State.path ∧
        ∀ n ∈ q.openv, ¬ (n.x = p.curr.x ∧ n.y = p.curr.y)) := by
  obtain ⟨grid1, -, hinv, hpasses, -⟩ := search_passes_init hr hi goal
  rw [hpasses]
  constructor
  · intro p hp
    obtain ⟨hinvp, -, -⟩ := loop_passes_inv hs fuel _ grid1 hinv p hp
    exact ⟨hinvp.open_nodup, hinvp.open_closed⟩
  · have hpw := (loop_passes_path hs fuel _ grid1 hinv).2
    have hall : ∀ q ∈ loop_passes stdsort init goal fuel
        [⟨init.1, init.2, 0, heuristic init.1 init.2 goal.1 goal.2⟩] grid1,
        ∀ n ∈ q.openv, cellAt q.grid n.x n.y = some State.closed :=
      fun q hq => (loop_passes_inv hs fuel _ grid1 hinv q hq).1.open_closed
    refine hpw.imp_of_mem ?_
    intro p q _ hq hpq
    refine ⟨hpq, fun n hn hc => ?_⟩
    have := hall q hq n hn
    rw [hc.1, hc.2, hpq] at this
    simp at this

/-- C17, on the empty 2 by 2 grid. -/
theorem C17_open_nodes_distinct_closed_witness :
    (∀ p ∈ search_passes stable_sort_model 5
        [[State.empty, State.empty], [State.empty, State.empty]] (0, 0) (1, 1),
      (p.openv.map (fun n => (n.x, n.y))).Nodup ∧
      ∀ n ∈ p.openv, cellAt p.grid n.x n.y = some State.closed) ∧
    (search_passes stable_sort_model 5
        [[State.empty, State.empty], [State.empty, State.empty]] (0, 0) (1, 1)).Pairwise
      (fun p q => cellAt q.grid p.curr.x p.curr.y = some State.path ∧
        ∀ n ∈ q.openv, ¬ (n.x = p.curr.x ∧ n.y = p.curr.y)) :=
  C17_open_nodes_distinct_closed stable_sort_model stable_sort_model_contract
    [[State.empty, State.empty], [State.empty, State.empty]] 2 2 (by unfold Rect; decide)
    (0, 0) (1, 1) (by unfold InBounds; decide) 5

/-- C18: on a rectangular grid with an in-bounds start, from one pass of the loop
to the next every node of the open vector was already there or is new, and a new
node is 4-adjacent to the node just expanded and has `g` exactly one larger;
and when `search` succeeds the returned grid holds a sequence of cells from
the start to the goal, consecutive cells one 4-directional unit step apart, all
marked `path`, `start` or `finish`. -/
theorem C18_parent_adjacent_marked_route
    (stdsort : (Node → Node → Bool) → List Node → List Node)
    (hs : SortContract stdsort) (grid : Grid) (R C : Nat) (hr : Rect grid R C)
    (init goal : Int × Int) (hi : InBounds R C init) :
    (∀ fuel, (search_passes stdsort fuel grid init goal).Chain'
      (fun p q => ∀ n ∈ q.openv, n ∈ p.openv ∨
        ∃ d ∈ deltas, n.x = p.curr.x + d.1 ∧ n.y = p.curr.y + d.2 ∧ n.g = p.curr.g + 1)) ∧
    (∀ fuel, R * C + 1 ≤ fuel →
      ∃ res, search stdsort fuel grid init goal = Outcome.returned res ∧
        (res ≠ [] → MarkedRoute res init goal)) := by
  obtain ⟨grid1, -, hinv, hpasses, hsearch⟩ := search_passes_init hr hi goal
  constructor
  · intro fuel
    rw [hpasses]
    exact loop_passes_parent hs fuel _ grid1 hinv
  · intro fuel hf
    have hres : ∃ res, search stdsort fuel grid init goal = Outcome.returned res := by
      rcases search_spec hs hr hi goal hf with ⟨h, -⟩ | ⟨res, h, -⟩
      · exact ⟨[], h⟩
      · exact ⟨res, h⟩
    obtain ⟨res, hres⟩ := hres
    refine ⟨res, hres, fun hne => ?_⟩
    rw [hsearch] at hres
    refine search_loop_route hs fuel _ grid1 hinv ?_ res hres hne
    intro n hn
    simp at hn
    subst hn
    exact PathWalk.base

/-- C18, on the 1 by 3 empty grid from the left end to the right end: the route
is the whole row. -/
theorem C18_parent_adjacent_marked_route_witness :
    search stable_sort_model 4 [[State.empty, State.empty, State.empty]] (0, 0) (0, 2)
      = Outcome.returned [[State.start, State.path, State.finish]] ∧
    (∀ fuel, (search_passes stable_sort_model fuel
        [[State.empty, State.empty, State.empty]] (0, 0) (0, 2)).Chain'
      (fun p q => ∀ n ∈ q.openv, n ∈ p.openv ∨
        ∃ d ∈ deltas, n.x = p.curr.x + d.1 ∧ n.y = p.curr.y + d.2 ∧ n.g = p.curr.g + 1)) ∧
    (∀ fuel, 1 * 3 + 1 ≤ fuel →
      ∃ res, search stable_sort_model fuel
          [[State.empty, State.empty, State.empty]] (0, 0) (0, 2) = Outcome.returned res ∧
        (res ≠ [] → MarkedRoute res (0, 0) (0, 2))) :=
  ⟨by decide, C18_parent_adjacent_marked_route stable_sort_model stable_sort_model_contract
    [[State.empty, State.empty, State.empty]] 1 3 (by unfold Rect; decide)
    (0, 0) (0, 2) (by unfold InBounds; decide)⟩

/-- C20: on a rectangular grid with an in-bounds start, the f-values `g + h` of
the nodes extracted by the successive passes of the loop are in non-decreasing
order, and at every loop test every node of the open vector has an f-value at
least that of every node extracted before, the most recent one included. -/
theorem C20_extracted_f_monotone (stdsort : (Node → Node → Bool) → List Node → List Node)
    (hs : SortContract stdsort) (grid : Grid) (R C : Nat) (hr : Rect grid R C)
    (init goal : Int × Int) (hi : InBounds R C init) (fuel : Nat) :
    ((search_passes stdsort fuel grid init goal).map
      (fun p => p.curr.g + p.curr.h)).Pairwise (fun a b => a ≤ b) ∧
    (search_passes stdsort fuel grid init goal).Pairwise
      (fun p q => ∀ n ∈ q.openv, p.curr.g + p.curr.h ≤ n.g + n.h) := by
  obtain ⟨grid1, -, hinv, hpasses, -⟩ := search_passes_init hr hi goal
  rw [hpasses]
  have hpw := (loop_passes_f hs fuel _ grid1 (heuristic init.1 init.2 goal.1 goal.2) hinv
    (by simp)).2
  refine ⟨?_, hpw⟩
  rw [List.pairwise_map]
  refine hpw.imp_of_mem ?_
  intro p q _ hq hpq
  exact hpq q.curr (loop_passes_inv hs fuel _ grid1 hinv q hq).2.1

/-- C20, on a 3 by 3 grid with two obstacles, where the f-values extracted go
from 3 to 5. -/
theorem C20_extracted_f_monotone_witness :
    (search_passes stable_sort_model 10
        [[State.empty, State.empty, State.obstacle],
         [State.empty, State.obstacle, State.empty],
         [State.empty, State.empty, State.empty]] (0, 0) (1, 2)).map
        (fun p => p.curr.g + p.curr.h) = [3, 3, 3, 5, 5, 5, 5] ∧
    ((search_passes stable_sort_model 10
        [[State.empty, State.empty, State.obstacle],
         [State.empty, State.obstacle, State.empty],
         [State.empty, State.empty, State.empty]] (0, 0) (1, 2)).map
      (fun p => p.curr.g + p.curr.h)).Pairwise (fun a b => a ≤ b) ∧
    (search_passes stable_sort_model 10
        [[State.empty, State.empty, State.obstacle],
         [State.empty, State.obstacle, State.empty],
         [State.empty, State.empty, State.empty]] (0, 0) (1, 2)).Pairwise
      (fun p q => ∀ n ∈ q.openv, p.curr.g + p.curr.h ≤ n.g + n.h) :=
  ⟨by decide, C20_extracted_f_monotone stable_sort_model stable_sort_model_contract
    [[State.empty, State.empty, State.obstacle],
     [State.empty, State.obstacle, State.empty],
     [State.empty, State.empty, State.empty]] 3 3 (by unfold Rect; decide)
    (0, 0) (1, 2) (by unfold InBounds; decide) 10⟩

end MazeSolver
